import Mathlib

/-!
# MIFARE Classic bulk access (`utils/nfc-mfclassic.c`)

A shallow embedding of the block addressing functions, the authentication
routine, the unlock sequence, the read / write passes and the size guess of
`main` of `nfc-mfclassic.c`, together with theorems about them.

Conventions of the embedding

* Bytes and block indices are natural numbers; `uint32_t` arithmetic is
  written with an explicit `% 2 ^ 32`, the `uint8_t` block argument of
  `nfc_initiator_mifare_cmd` with an explicit `% 256`.
* The global variables of the C file are the fields of `State` (the ones the
  passes change) and of `Flags` (the ones `main` fixes before a pass).
* The reader and the card are an environment `Env`: a function from the
  events seen so far and the command being issued to the response.  Every
  library call that reaches the reader appends one `Event` to `State.trace`.
* `exit (EXIT_FAILURE)` is the outcome `Outcome.exit`; `return b` is
  `Outcome.ret b`.
* Of the text written to standard output only the per-block mark of
  `print_success_or_failure` and the final `Done, n of m blocks` line are
  kept (`State.out`).
* The counters `uiReadBlocks` and `uiWriteBlocks` (`uint32_t`) grow by one
  per block at most, `uiBlocks` is a `uint8_t`: they cannot wrap and are
  plain natural numbers.  Theorems that need it assume `uiBlocks < 256`.
* Buffers (`mp`, the blocks of `mtKeys` and `mtDump`) are functions from the
  byte offset to the byte; `memcpy` overwrites a range of offsets.
-/

namespace MfClassic

/-! ## Block addressing -/

/-- Source function `is_first_block` (lines 158-166). -/
def is_first_block (uiBlock : Nat) : Bool :=
  if uiBlock < 128 then uiBlock % 4 == 0 else uiBlock % 16 == 0

/-- Source function `is_trailer_block` (lines 168-176); `uiBlock + 1` is a
`uint32_t` sum. -/
def is_trailer_block (uiBlock : Nat) : Bool :=
  if uiBlock < 128 then ((uiBlock + 1) % 2 ^ 32) % 4 == 0
  else ((uiBlock + 1) % 2 ^ 32) % 16 == 0

/-- Source function `get_trailer_block` (lines 178-189); the sum is a
`uint32_t` sum. -/
def get_trailer_block (uiFirstBlock : Nat) : Nat :=
  if uiFirstBlock < 128 then (uiFirstBlock + (3 - uiFirstBlock % 4)) % 2 ^ 32
  else (uiFirstBlock + (15 - uiFirstBlock % 16)) % 2 ^ 32

/-! ## The reader, the card and the global variables -/

/-- The MIFARE commands the file sends through `nfc_initiator_mifare_cmd`. -/
inductive mifare_cmd
| MC_AUTH_A
| MC_AUTH_B
| MC_READ
| MC_WRITE
deriving DecidableEq, Repr

/-- The two reader properties `unlock_card` sets. -/
inductive nfc_property
| NP_HANDLE_CRC
| NP_EASY_FRAMING
deriving DecidableEq, Repr

/-- A call that reaches the reader, with the bytes it carries.
`mifare` is `nfc_initiator_mifare_cmd` (command, `uint8_t` block, parameter
bytes), `select` is `nfc_initiator_select_passive_target` (its
`pbtInitData`, empty for `NULL, 0`), `set_property` is
`nfc_device_set_property_bool`, `transceive_bytes` / `transceive_bits` are
`nfc_initiator_transceive_bytes` / `_bits`, `initiator_init` is
`nfc_initiator_init`. -/
inductive Cmd
| mifare (mc : mifare_cmd) (ui8Block : Nat) (param : List Nat)
| select (pbtInitData : List Nat)
| set_property (p : nfc_property) (bEnable : Bool)
| transceive_bytes (pbtTx : List Nat)
| transceive_bits (pbtTx : List Nat) (szTxBits : Nat)
| initiator_init
deriving DecidableEq, Repr

/-- What the reader answers: `ok` is false when the library call reports an
error (a negative result, or `<= 0` for a select); `data` holds the bytes
received (the block read, or the UID of the selected target). -/
structure Resp where
  ok : Bool
  data : List Nat
deriving DecidableEq, Repr

/-- A command together with the answer it got. -/
structure Event where
  cmd : Cmd
  resp : Resp
deriving DecidableEq, Repr

/-- The behaviour of reader and card: the answer to a command, given every
event before it. -/
abbrev Env := List Event → Cmd → Resp

/-- What is kept of standard output: the mark of
`print_success_or_failure` (`x` when `bFailure`, `.` otherwise) and the
final `Done, n of m blocks` line. -/
inductive Out
| mark (bFailure : Bool)
| done (n m : Nat)
deriving DecidableEq, Repr

/-- How a function ends: `return b` or `exit (EXIT_FAILURE)`. -/
inductive Outcome
| ret (b : Bool)
| exit
deriving DecidableEq, Repr

/-- The globals `main` sets before a pass and the passes only read
(lines 74-81). -/
structure Flags where
  bUseKeyA : Bool
  bUseKeyFile : Bool
  bTolerateFailures : Bool
  bFormatCard : Bool
  uiBlocks : Nat

/-- The globals the passes change (lines 70-80), the events sent to the
reader and the output.  `nt_uid` is `nt.nti.nai.abtUid` (its length is
`szUidLen`), `mp` the 16 bytes of the union `mifare_param`, `mtKeys` and
`mtDump` the two card images (block index, then byte offset in the block:
Key A at 0..5, access bits at 6..9, Key B at 10..15 for a trailer). -/
structure State where
  nt_uid : List Nat
  mp : Nat → Nat
  mtKeys : Nat → Nat → Nat
  mtDump : Nat → Nat → Nat
  dWrite : Bool
  unlocked : Bool
  trace : List Event
  out : List Out

/-- Result of a piece of a loop body: go on with a value, or leave the
function. -/
inductive Res (α : Type)
| ok (a : α) (s : State)
| stop (o : Outcome) (s : State)

/-- The table `keys` (lines 82-92). -/
def keys : List Nat :=
  [0xff, 0xff, 0xff, 0xff, 0xff, 0xff,
   0xd3, 0xf7, 0xd3, 0xf7, 0xd3, 0xf7,
   0xa0, 0xa1, 0xa2, 0xa3, 0xa4, 0xa5,
   0xb0, 0xb1, 0xb2, 0xb3, 0xb4, 0xb5,
   0x4d, 0x3a, 0x99, 0xc3, 0x51, 0xdd,
   0x1a, 0x98, 0x2c, 0x7e, 0x45, 0x9a,
   0xaa, 0xbb, 0xcc, 0xdd, 0xee, 0xff,
   0x00, 0x00, 0x00, 0x00, 0x00, 0x00,
   0xab, 0xcd, 0xef, 0x12, 0x34, 0x56]

/-- The array `default_key` (line 93). -/
def default_key : List Nat := [0xff, 0xff, 0xff, 0xff, 0xff, 0xff]

/-- The array `default_acl` (line 94). -/
def default_acl : List Nat := [0xff, 0x07, 0x80, 0x69]

/-- The count `num_keys = sizeof (keys) / 6` (line 101). -/
def num_keys : Nat := keys.length / 6

/-- The array `abtHalt` after `iso14443a_crc_append (abtHalt, 2)` (lines 108,
254):
the HLTA command followed by its CRC_A, 57 CD. -/
def abtHalt : List Nat := [0x50, 0x00, 0x57, 0xcd]

/-- The array `abtUnlock1` (line 111). -/
def abtUnlock1 : List Nat := [0x40]

/-- The array `abtUnlock2` (line 112). -/
def abtUnlock2 : List Nat := [0x43]

/-- A byte array read through a pointer: index `j` of the list, 0 beyond it. -/
def bytes (l : List Nat) : Nat → Nat := fun j => l.getD j 0

/-- The call `memcpy (dst + off, src, n)` on a buffer seen as a function of the
byte index. -/
def memcpy (dst : Nat → Nat) (off : Nat) (src : Nat → Nat) (n : Nat) : Nat → Nat :=
  fun j => if off ≤ j ∧ j < off + n then src (j - off) else dst j

/-- The call `memcpy (tag.amb[b] + off, src, n)` on a card image. -/
def memcpy_block (tag : Nat → Nat → Nat) (b off : Nat) (src : Nat → Nat) (n : Nat) :
    Nat → Nat → Nat :=
  fun b' => if b' = b then memcpy (tag b) off src n else tag b'

/-- The first `n` bytes of a buffer, as sent on the wire. -/
def take_bytes (buf : Nat → Nat) (n : Nat) : List Nat := (List.range n).map buf

/-- One call of the Transceiver Adapter (`nfc_device_set_property_bool`,
`nfc_initiator_transceive_bytes`, `nfc_initiator_transceive_bits`,
`nfc_initiator_init`, and the two calls below): ask the environment, log
the event. -/
def issue (env : Env) (c : Cmd) (s : State) : Resp × State :=
  (env s.trace c, { s with trace := s.trace ++ [⟨c, env s.trace c⟩] })

/-- Modelled from the spec: the library call
`nfc_initiator_select_passive_target (pnd, nmMifare, pbtInitData, len, pnt)`
(not among the sources) is the Transceiver Adapter's
`selectPassiveTarget (uidFilter?) -> TargetInfo | TagNotFound`.  Every
caller compares it with `<= 0`: `true` when a target was selected.
With `pnt = &nt` (`store`) the selected target replaces `nt`; with
`pnt = NULL`, or when no target is selected, `nt` is left as it is. -/
def nfc_initiator_select_passive_target (env : Env) (pbtInitData : List Nat)
    (store : Bool) (s : State) : Bool × State :=
  let r := issue env (.select pbtInitData) s
  if r.1.ok then
    (true, if store then { r.2 with nt_uid := r.1.data } else r.2)
  else (false, r.2)

/-- Modelled from the spec: `nfc_initiator_mifare_cmd` (utils/mifare.c, not
among the sources) is the Transceiver Adapter call that sends one MIFARE
command.  The frame is the command, the block as `uint8_t` and the
parameter bytes taken from `mp`: key and UID (10 bytes) for an
authentication, the 16 data bytes for a write, none for a read.  It returns
false when the transceive fails; a read succeeds only with a 16-byte answer,
which it copies into `mp`. -/
def nfc_initiator_mifare_cmd (env : Env) (mc : mifare_cmd) (uiBlock : Nat)
    (s : State) : Bool × State :=
  match mc with
  | .MC_READ =>
    let r := issue env (.mifare .MC_READ (uiBlock % 256) []) s
    if r.1.ok && r.1.data.length == 16 then
      (true, { r.2 with mp := memcpy r.2.mp 0 (bytes r.1.data) 16 })
    else (false, r.2)
  | .MC_WRITE =>
    let r := issue env (.mifare .MC_WRITE (uiBlock % 256) (take_bytes s.mp 16)) s
    (r.1.ok, r.2)
  | .MC_AUTH_A =>
    let r := issue env (.mifare .MC_AUTH_A (uiBlock % 256) (take_bytes s.mp 10)) s
    (r.1.ok, r.2)
  | .MC_AUTH_B =>
    let r := issue env (.mifare .MC_AUTH_B (uiBlock % 256) (take_bytes s.mp 10)) s
    (r.1.ok, r.2)

/-- Source function `transmit_bytes` (lines 132-148); `abtRx` is not kept. -/
def transmit_bytes (env : Env) (pbtTx : List Nat) (s : State) : Bool × State :=
  let r := issue env (.transceive_bytes pbtTx) s
  (r.1.ok, r.2)

/-- Source function `transmit_bits` (lines 114-129); `abtRx` and `szRxBits`
are not kept. -/
def transmit_bits (env : Env) (pbtTx : List Nat) (szTxBits : Nat) (s : State) :
    Bool × State :=
  let r := issue env (.transceive_bits pbtTx szTxBits) s
  (r.1.ok, r.2)

/-- Source function `print_success_or_failure (bFailure, &counter)` (lines
150-156): the new
value of the counter and the state with the mark written. -/
def print_success_or_failure (bFailure : Bool) (uiBlockCounter : Nat) (s : State) :
    Nat × State :=
  (if !bFailure then uiBlockCounter + 1 else uiBlockCounter,
   { s with out := s.out ++ [.mark bFailure] })

/-! ## Authentication (lines 191-238) -/

/-- The command `mc` of `authenticate`: `(bUseKeyA) ? MC_AUTH_A : MC_AUTH_B`. -/
def auth_cmd (f : Flags) : mifare_cmd :=
  if f.bUseKeyA then .MC_AUTH_A else .MC_AUTH_B

/-- Offset of the key of the configured side in a trailer block:
`abtKeyA` at 0, `abtKeyB` at 10. -/
def key_offset (f : Flags) : Nat := if f.bUseKeyA then 0 else 10

/-- The source of `memcpy (mp.mpa.abtAuthUid, nt.nti.nai.abtUid +
nt.nti.nai.szUidLen - 4, 4)` (line 197): the last four bytes of the UID of
the selected target. -/
def auth_uid (uid : List Nat) : Nat → Nat := fun j => bytes uid (uid.length - 4 + j)

/-- The source `keys + (key_index * 6)` of line 222: built-in key number
`key_index`, counted from 0. -/
def builtin_key (key_index : Nat) : Nat → Nat := fun j => bytes keys (key_index * 6 + j)

/-- The guessing loop of `authenticate` (lines 221-234): `n` keys remain to
be tried, starting with `key_index`. -/
def authenticate_guess (f : Flags) (env : Env) (uiBlock : Nat) :
    Nat → Nat → State → Bool × State
| 0, _, s => (false, s)
| n + 1, key_index, s =>
  let s1 := { s with mp := memcpy s.mp 0 (builtin_key key_index) 6 }
  let r := nfc_initiator_mifare_cmd env (auth_cmd f) uiBlock s1
  if r.1 then
    (true, { r.2 with
      mtKeys := memcpy_block r.2.mtKeys uiBlock (key_offset f) r.2.mp 6 })
  else
    let r2 := nfc_initiator_select_passive_target env r.2.nt_uid false r.2
    if !r2.1 then (false, r2.2)
    else authenticate_guess f env uiBlock n (key_index + 1) r2.2

/-- Source function `authenticate` (lines 191-238); `mp.mpa.abtAuthUid` is at
offset 6 of
the union, `mp.mpa.abtKey` at offset 0. -/
def authenticate (f : Flags) (env : Env) (uiBlock : Nat) (s : State) : Bool × State :=
  let s1 := { s with mp := memcpy s.mp 6 (auth_uid s.nt_uid) 4 }
  if f.bUseKeyFile then
    let uiTrailerBlock := get_trailer_block uiBlock
    let s2 := { s1 with
      mp := memcpy s1.mp 0 (fun j => s1.mtKeys uiTrailerBlock (key_offset f + j)) 6 }
    let r := nfc_initiator_mifare_cmd env (auth_cmd f) uiBlock s2
    if r.1 then (true, r.2) else (false, r.2)
  else if f.bFormatCard || !f.bUseKeyFile then
    authenticate_guess f env uiBlock num_keys 0 s1
  else (false, s1)

/-! ## The unlock sequence (lines 240-293) -/

/-- The two unlock commands of `unlock_card` (lines 257-270). -/
def unlock_commands (env : Env) (s : State) : State :=
  let b1 := transmit_bits env abtUnlock1 7 s
  if !b1.1 then { b1.2 with dWrite := true }
  else
    let b2 := transmit_bytes env abtUnlock2 b1.2
    if b2.1 then { b2.2 with unlocked := true } else b2.2

/-- Source function `unlock_card` (lines 240-293).  The argument `write` only
selects a
message. -/
def unlock_card (env : Env) (_write : Bool) (s : State) : Outcome × State :=
  let r1 := issue env (.set_property .NP_HANDLE_CRC false) s
  if !r1.1.ok then (.ret false, r1.2)
  else
    let r2 := issue env (.set_property .NP_EASY_FRAMING false) r1.2
    if !r2.1.ok then (.ret false, r2.2)
    else
      let h := transmit_bytes env abtHalt r2.2
      let s5 := unlock_commands env h.2
      if !s5.unlocked then
        let sel := nfc_initiator_select_passive_target env s5.nt_uid false s5
        if !sel.1 then (.exit, sel.2) else (.ret true, sel.2)
      else
        let r3 := issue env (.set_property .NP_HANDLE_CRC true) s5
        if !r3.1.ok then (.ret false, r3.2)
        else
          let r4 := issue env (.set_property .NP_EASY_FRAMING true) r3.2
          if !r4.1.ok then (.ret false, r4.2) else (.ret true, r4.2)

/-! ## The read pass (lines 327-401) -/

/-- The anti-collision redone after a failure (lines 349-356 and 424-431):
the new value of `bFailure`, or `return false` when the tag is gone. -/
def reselect_on_failure (env : Env) (bFailure : Bool) (s : State) : Res Bool :=
  if bFailure then
    let r := nfc_initiator_select_passive_target env [] true s
    if !r.1 then .stop (.ret false) r.2 else .ok false r.2
  else .ok bFailure s

/-- The trailer copied to `mtDump` after an authenticated read (lines
371-373): Key A and Key B from `mtKeys`, the access bits from `mp`. -/
def store_trailer (iBlock : Nat) (s : State) : State :=
  let d1 := memcpy_block s.mtDump iBlock 0 (fun j => s.mtKeys iBlock j) 6
  let d2 := memcpy_block d1 iBlock 6 (fun j => s.mp (6 + j)) 4
  let d3 := memcpy_block d2 iBlock 10 (fun j => s.mtKeys iBlock (10 + j)) 6
  { s with mtDump := d3 }

/-- The 16 bytes of `mp` copied to `mtDump.amb[iBlock]` (lines 368, 384). -/
def store_data (iBlock : Nat) (s : State) : State :=
  { s with mtDump := memcpy_block s.mtDump iBlock 0 s.mp 16 }

/-- The read command of a trailer block and what follows it (lines 365-378). -/
def read_trailer_cmd (env : Env) (read_unlocked : Bool) (iBlock : Nat)
    (bFailure : Bool) (s : State) : Res Bool :=
  let r := nfc_initiator_mifare_cmd env .MC_READ iBlock s
  if r.1 then
    if read_unlocked then .ok bFailure (store_data iBlock r.2)
    else .ok bFailure (store_trailer iBlock r.2)
  else .ok true r.2

/-- The trailer branch of the read loop (lines 348-378). -/
def read_trailer (f : Flags) (env : Env) (read_unlocked : Bool) (iBlock : Nat)
    (bFailure : Bool) (s : State) : Res Bool :=
  match reselect_on_failure env bFailure s with
  | .stop o s1 => .stop o s1
  | .ok bF s1 =>
    if read_unlocked then read_trailer_cmd env read_unlocked iBlock bF s1
    else
      let a := authenticate f env iBlock s1
      if !a.1 then .stop (.ret false) a.2
      else read_trailer_cmd env read_unlocked iBlock bF a.2

/-- The data branch of the read loop (lines 379-390). -/
def read_data (env : Env) (iBlock : Nat) (bFailure : Bool) (s : State) : Res Bool :=
  if !bFailure then
    let r := nfc_initiator_mifare_cmd env .MC_READ iBlock s
    if r.1 then .ok bFailure (store_data iBlock r.2) else .ok true r.2
  else .ok bFailure s

/-- The end of a loop body (lines 391-394 and 503-506): the mark, the
counter, and `return false` on a failure that is not tolerated. -/
def tally (f : Flags) (bFailure : Bool) (uiCounter : Nat) (s : State) :
    Res (Bool × Nat) :=
  let p := print_success_or_failure bFailure uiCounter s
  if !f.bTolerateFailures && bFailure then .stop (.ret false) p.2
  else .ok (bFailure, p.1) p.2

/-- One iteration of the read loop (lines 346-395). -/
def read_block (f : Flags) (env : Env) (read_unlocked : Bool) (iBlock : Nat)
    (bFailure : Bool) (uiReadBlocks : Nat) (s : State) : Res (Bool × Nat) :=
  match (if is_trailer_block iBlock then read_trailer f env read_unlocked iBlock bFailure s
         else read_data env iBlock bFailure s) with
  | .stop o s1 => .stop o s1
  | .ok bF s1 => tally f bF uiReadBlocks s1

/-- The final report (lines 396-400 and 509-513). -/
def finish (f : Flags) (uiCounter : Nat) (s : State) : Outcome × State :=
  (.ret true, { s with out := s.out ++ [.done uiCounter (f.uiBlocks + 1)] })

/-- The read loop `for (iBlock = uiBlocks; iBlock >= 0; iBlock--)` from
`iBlock` down to 0, then the report. -/
def read_loop (f : Flags) (env : Env) (read_unlocked : Bool) :
    Nat → Bool → Nat → State → Outcome × State
| 0, bFailure, uiReadBlocks, s =>
  match read_block f env read_unlocked 0 bFailure uiReadBlocks s with
  | .stop o s1 => (o, s1)
  | .ok a s1 => finish f a.2 s1
| iBlock + 1, bFailure, uiReadBlocks, s =>
  match read_block f env read_unlocked (iBlock + 1) bFailure uiReadBlocks s with
  | .stop o s1 => (o, s1)
  | .ok a s1 => read_loop f env read_unlocked iBlock a.1 a.2 s1

/-- Source function `read_card` (lines 327-401). -/
def read_card (f : Flags) (env : Env) (read_unlocked : Bool) (s : State) :
    Outcome × State :=
  if read_unlocked then
    let u := unlock_card env false s
    match u.1 with
    | .exit => (.exit, u.2)
    | .ret _ =>
      read_loop f env (if u.2.dWrite then false else read_unlocked) f.uiBlocks false 0 u.2
  else read_loop f env read_unlocked f.uiBlocks false 0 s

/-! ## The write pass (lines 403-514)

The guard that skipped block 0 (lines 419-420) is commented out, its closing
brace is left on line 421, and the brace that would close the loop body is
commented out on line 502.  As the braces stand, the brace of line 421
closes the `for` of line 417 with an empty body and the braces of
`write_card` do not balance.  The loop body (lines 422-506, closed by the
brace of line 507) is the same under the two ways of balancing them, which
differ only in the iteration of block 0 when `write_block_zero` is false:

* the brace of line 421 dropped: every block from block 0 on is visited
  (`write_loop`, `write_card`);
* the guard of lines 419-420 in force, closed by the brace of line 421:
  `if (!write_block_zero && uiBlock == 0) continue;` skips block 0
  (`write_loop_guarded`, `write_card_guarded`).

With `write_block_zero` true the two are the same function.
-/

/-- The start of a sector in the write loop (lines 423-445): reselect after
a failure, then authenticate unless the card was to be unlocked. -/
def write_sector_start (f : Flags) (env : Env) (write_block_zero : Bool)
    (uiBlock : Nat) (bFailure : Bool) (s : State) : Res Bool :=
  if uiBlock == 1 || is_first_block uiBlock then
    match reselect_on_failure env bFailure s with
    | .stop o s1 => .stop o s1
    | .ok bF s1 =>
      if (write_block_zero && s1.dWrite) || !write_block_zero then
        let a := authenticate f env uiBlock s1
        if !a.1 && !f.bTolerateFailures then .stop (.ret false) a.2
        else .ok bF a.2
      else .ok bF s1
  else .ok bFailure s

/-- The trailer branch of the write loop (lines 447-464). -/
def write_trailer (f : Flags) (env : Env) (uiBlock : Nat) (bFailure : Bool)
    (s : State) : Res Bool :=
  let mp1 :=
    if f.bFormatCard then
      memcpy (memcpy (memcpy s.mp 0 (bytes default_key) 6) 6 (bytes default_acl) 4)
        10 (bytes default_key) 6
    else
      memcpy (memcpy (memcpy s.mp 0 (fun j => s.mtDump uiBlock j) 6)
        6 (fun j => s.mtDump uiBlock (6 + j)) 4) 10 (fun j => s.mtDump uiBlock (10 + j)) 6
  let r := nfc_initiator_mifare_cmd env .MC_WRITE uiBlock { s with mp := mp1 }
  if r.1 == false then .ok true r.2 else .ok bFailure r.2

/-- The reader re-initialised and the tag reselected after block 0 was
written on a direct-write card (lines 486-497). -/
def reinit_after_block0 (env : Env) (bFailure : Bool) (s : State) : Res Bool :=
  let i := issue env .initiator_init s
  if !i.1.ok then .stop .exit i.2
  else
    let sel := nfc_initiator_select_passive_target env [] true i.2
    if !sel.1 then .stop (.ret false) sel.2 else .ok bFailure sel.2

/-- The data branch of the write loop (lines 465-501). -/
def write_data (f : Flags) (env : Env) (uiBlock : Nat) (bFailure : Bool)
    (s : State) : Res Bool :=
  if !bFailure then
    let mp1 :=
      if f.bFormatCard && uiBlock != 0 then memcpy s.mp 0 (fun _ => 0x00) 16
      else memcpy s.mp 0 (fun j => s.mtDump uiBlock j) 16
    let s1 := { s with mp := mp1 }
    if uiBlock == 0 && (mp1 0 ^^^ mp1 1 ^^^ mp1 2 ^^^ mp1 3 ^^^ mp1 4) != 0x00 then
      .stop (.ret false) s1
    else
      let r := nfc_initiator_mifare_cmd env .MC_WRITE uiBlock s1
      let bF := if !r.1 then true else bFailure
      if uiBlock == 0 && r.2.dWrite then reinit_after_block0 env bF r.2
      else .ok bF r.2
  else .ok bFailure s

/-- One iteration of the write loop (lines 422-506). -/
def write_block (f : Flags) (env : Env) (write_block_zero : Bool) (uiBlock : Nat)
    (bFailure : Bool) (uiWriteBlocks : Nat) (s : State) : Res (Bool × Nat) :=
  match write_sector_start f env write_block_zero uiBlock bFailure s with
  | .stop o s1 => .stop o s1
  | .ok bF s1 =>
    match (if is_trailer_block uiBlock then write_trailer f env uiBlock bF s1
           else write_data f env uiBlock bF s1) with
    | .stop o s2 => .stop o s2
    | .ok bF2 s2 => tally f bF2 uiWriteBlocks s2

/-- The write loop `for (uiBlock = 0; uiBlock <= uiBlocks; uiBlock++)` with
the brace of line 421 dropped: `n` iterations remain, the next one is for
`uiBlock`; then the report. -/
def write_loop (f : Flags) (env : Env) (write_block_zero : Bool) :
    Nat → Nat → Bool → Nat → State → Outcome × State
| 0, _, _, uiWriteBlocks, s => finish f uiWriteBlocks s
| n + 1, uiBlock, bFailure, uiWriteBlocks, s =>
  match write_block f env write_block_zero uiBlock bFailure uiWriteBlocks s with
  | .stop o s1 => (o, s1)
  | .ok a s1 => write_loop f env write_block_zero n (uiBlock + 1) a.1 a.2 s1

/-- Source function `write_card` (lines 403-514) with the brace of line 421
dropped: the unlock sequence when block 0 is to be written, then the loop
over the `uiBlocks + 1` blocks from block 0. -/
def write_card (f : Flags) (env : Env) (write_block_zero : Bool) (s : State) :
    Outcome × State :=
  if write_block_zero then
    let u := unlock_card env true s
    match u.1 with
    | .exit => (.exit, u.2)
    | .ret _ => write_loop f env write_block_zero (f.uiBlocks + 1) 0 false 0 u.2
  else write_loop f env write_block_zero (f.uiBlocks + 1) 0 false 0 s

/-- The write loop with the guard of lines 419-420 in force: the iteration
of block 0 is left by `continue` when `write_block_zero` is false, before
anything is sent or printed. -/
def write_loop_guarded (f : Flags) (env : Env) (write_block_zero : Bool) :
    Nat → Nat → Bool → Nat → State → Outcome × State
| 0, _, _, uiWriteBlocks, s => finish f uiWriteBlocks s
| n + 1, uiBlock, bFailure, uiWriteBlocks, s =>
  if !write_block_zero && uiBlock == 0 then
    write_loop_guarded f env write_block_zero n (uiBlock + 1) bFailure uiWriteBlocks s
  else
    match write_block f env write_block_zero uiBlock bFailure uiWriteBlocks s with
    | .stop o s1 => (o, s1)
    | .ok a s1 => write_loop_guarded f env write_block_zero n (uiBlock + 1) a.1 a.2 s1

/-- Source function `write_card` (lines 403-514) with the guard of lines
419-420 in force. -/
def write_card_guarded (f : Flags) (env : Env) (write_block_zero : Bool) (s : State) :
    Outcome × State :=
  if write_block_zero then
    let u := unlock_card env true s
    match u.1 with
    | .exit => (.exit, u.2)
    | .ret _ => write_loop_guarded f env write_block_zero (f.uiBlocks + 1) 0 false 0 u.2
  else write_loop_guarded f env write_block_zero (f.uiBlocks + 1) 0 false 0 s

/-! ## Vocabulary of the theorems -/

/-- A read answer that `nfc_initiator_mifare_cmd` accepts: no error and 16
bytes received. -/
def read_ok (r : Resp) : Bool := r.ok && r.data.length == 16

/-- The state `s'` was reached from `s` by issuing commands whose events
all satisfy `P`. -/
def Grows (P : Event → Prop) (s s' : State) : Prop :=
  ∃ l, s'.trace = s.trace ++ l ∧ ∀ e ∈ l, P e

/-- The commands issued between `s` and `s'` are exactly `cs`, in order. -/
def Issued (s s' : State) (cs : List Cmd) : Prop :=
  ∃ l, s'.trace = s.trace ++ l ∧ l.map Event.cmd = cs

/-- The events issued between `s` and `s'`. -/
def new_events (s s' : State) : List Event := s'.trace.drop s.trace.length

/-- The output written between `s` and `s'`. -/
def new_out (s s' : State) : List Out := s'.out.drop s.out.length

/-- The authentication command for block `blk` with the six key bytes `key`,
on a target with UID `uid`. -/
def auth_with (f : Flags) (blk : Nat) (uid : List Nat) (key : Nat → Nat) : Cmd :=
  .mifare (auth_cmd f) (blk % 256) (take_bytes key 6 ++ take_bytes (auth_uid uid) 4)

/-- The commands of a guess that succeeds after `n` rejected keys, the first
key tried being number `k`: each rejected key is followed by a reselect. -/
def guess_cmds (f : Flags) (blk : Nat) (uid : List Nat) : Nat → Nat → List Cmd
| 0, k => [auth_with f blk uid (builtin_key k)]
| n + 1, k =>
  auth_with f blk uid (builtin_key k) :: .select uid :: guess_cmds f blk uid n (k + 1)

/-- The commands of `n` rejected keys from key number `k`, each followed by
a reselect. -/
def reject_cmds (f : Flags) (blk : Nat) (uid : List Nat) : Nat → Nat → List Cmd
| 0, _ => []
| n + 1, k =>
  auth_with f blk uid (builtin_key k) :: .select uid :: reject_cmds f blk uid n (k + 1)

/-- A write command (`MC_WRITE`). -/
def is_write : Cmd → Bool
| .mifare .MC_WRITE _ _ => true
| _ => false

/-- A read command (`MC_READ`). -/
def is_read : Cmd → Bool
| .mifare .MC_READ _ _ => true
| _ => false

/-- An authentication command (`MC_AUTH_A` or `MC_AUTH_B`). -/
def is_auth : Cmd → Bool
| .mifare .MC_AUTH_A _ _ => true
| .mifare .MC_AUTH_B _ _ => true
| _ => false

/-- A command sent through `nfc_initiator_mifare_cmd`. -/
def is_mifare : Cmd → Bool
| .mifare _ _ _ => true
| _ => false

/-- A select (`nfc_initiator_select_passive_target`). -/
def is_select : Cmd → Bool
| .select _ => true
| _ => false

/-- The state a piece of a loop body ends in. -/
def Res.state {α : Type} : Res α → State
| .ok _ s => s
| .stop _ s => s

/-- The fields that authentication, selection and MIFARE commands leave
alone: the dump, the two unlock flags and the output. -/
def Quiet (s s' : State) : Prop :=
  s'.mtDump = s.mtDump ∧ s'.dWrite = s.dWrite ∧ s'.unlocked = s.unlocked ∧ s'.out = s.out

/-- Commands satisfying `P` were issued between `s` and `s'` and nothing
else of `Quiet` changed. -/
def Sub (P : Event → Prop) (s s' : State) : Prop := Grows P s s' ∧ Quiet s s'

/-- An authentication command or a select. -/
def auth_or_select (e : Event) : Prop := is_auth e.cmd = true ∨ is_select e.cmd = true

/-- What the loops of a pass keep: the dump to write and the unlock flags. -/
def Kept (s s' : State) : Prop :=
  s'.mtDump = s.mtDump ∧ s'.dWrite = s.dWrite ∧ s'.unlocked = s.unlocked

/-- Only per-block marks were written to the output between `s` and `s'`. -/
def Marks (s s' : State) : Prop :=
  ∃ m, s'.out = s.out ++ m ∧ ∀ o ∈ m, ∃ b, o = Out.mark b

/-- The payload the specification gives the write command of block `i`:
when formatting, default keys and access bits for a trailer and zeros for a
data block other than block 0; the snapshot block in every other case. -/
def write_payload (bFormatCard : Bool) (i : Nat) (snapshot : Nat → Nat → Nat) : List Nat :=
  if bFormatCard && is_trailer_block i then
    [0xff, 0xff, 0xff, 0xff, 0xff, 0xff, 0xff, 0x07, 0x80, 0x69,
     0xff, 0xff, 0xff, 0xff, 0xff, 0xff]
  else if bFormatCard && i != 0 then List.replicate 16 0x00
  else take_bytes (snapshot i) 16

/-- A write event carries the payload of the specification. -/
def payload_ok (bFormatCard : Bool) (snapshot : Nat → Nat → Nat) (e : Event) : Prop :=
  ∀ i p, e.cmd = .mifare .MC_WRITE i p → p = write_payload bFormatCard i snapshot

/-- The state in which the write loop starts (lines 410-413): after the
unlock sequence when block 0 is to be written; `none` when `unlock_card`
ends the process. -/
def write_start (env : Env) (write_block_zero : Bool) (s : State) : Option State :=
  if write_block_zero then
    match (unlock_card env true s).1 with
    | .exit => none
    | .ret _ => some (unlock_card env true s).2
  else some s

/-- The pass gets past the authentication step of block 0: the unlock
sequence did not end the process and lines 423-445 did not return in the
iteration of block 0. -/
def passes_block0_auth (f : Flags) (env : Env) (write_block_zero : Bool) (s : State) :
    Bool :=
  match write_start env write_block_zero s with
  | none => false
  | some s1 =>
    match write_sector_start f env write_block_zero 0 false s1 with
    | .ok _ _ => true
    | .stop _ _ => false

/-- The write pass under either way of balancing the braces of `write_card`:
`guarded` false is `write_card` (brace of line 421 dropped), `guarded` true
is `write_card_guarded` (guard of lines 419-420 in force). -/
def write_pass (guarded : Bool) (f : Flags) (env : Env) (write_block_zero : Bool)
    (s : State) : Outcome × State :=
  if guarded then write_card_guarded f env write_block_zero s
  else write_card f env write_block_zero s

/-- The first block the write loop visits: block 1 when the guard of lines
419-420 is in force and `write_block_zero` is false, block 0 otherwise. -/
def first_visited (guarded write_block_zero : Bool) : Nat :=
  if guarded && !write_block_zero then 1 else 0

/-- The pass gets past the authentication step of block 0, under either way
of balancing the braces: block 0 is visited, the unlock sequence did not end
the process and lines 423-445 did not return in the iteration of block 0. -/
def passes_block0 (guarded : Bool) (f : Flags) (env : Env) (write_block_zero : Bool)
    (s : State) : Bool :=
  first_visited guarded write_block_zero == 0 && passes_block0_auth f env write_block_zero s

/-- A reader and card that accept every command and answer sixteen zero
bytes. -/
def env_accept : Env := fun _ _ => ⟨true, List.replicate 16 0⟩

/-- A reader and card that accept every command but those `bad` selects. -/
def env_reject (bad : Cmd → Bool) : Env := fun _ c => ⟨!bad c, List.replicate 16 0⟩

/-- The globals at the start of a pass on a target with UID 01 02 03 04:
nothing unlocked, nothing sent, nothing printed. -/
def state0 (mtKeys mtDump : Nat → Nat → Nat) : State :=
  ⟨[0x01, 0x02, 0x03, 0x04], fun _ => 0, mtKeys, mtDump, false, false, [], []⟩

/-- A card image of zero bytes. -/
def blank : Nat → Nat → Nat := fun _ _ => 0

/-- A card image whose block 0 starts 01 02 03 04 05 (a wrong BCC: the XOR
of the first four bytes is 04), zero elsewhere. -/
def bad_bcc : Nat → Nat → Nat := fun b j => if b = 0 ∧ j < 5 then j + 1 else 0

/-- Flags of `w a`: key A, no key file, failures not tolerated, no format,
on a 320-byte card. -/
def flags_w : Flags := ⟨true, false, false, false, 0x13⟩

/-- Flags of `w A`: key A, no key file, failures tolerated, no format, on a
320-byte card. -/
def flags_w_tolerant : Flags := ⟨true, false, true, false, 0x13⟩

/-- Flags of `w a` with a key file. -/
def flags_w_keyfile : Flags := ⟨true, true, false, false, 0x13⟩

/-- A card image whose trailer blocks hold Key A A0 A1 A2 A3 A4 A5, zero
elsewhere. -/
def keyfile_image : Nat → Nat → Nat :=
  fun b j => if is_trailer_block b ∧ j < 6 then 0xa0 + j else 0

/-- An authentication command whose key is not `key`. -/
def wrong_key (key : List Nat) : Cmd → Bool
| .mifare .MC_AUTH_A _ p => p.take 6 != key
| .mifare .MC_AUTH_B _ p => p.take 6 != key
| _ => false

/-- A card keyed to the third built-in key, A0 A1 A2 A3 A4 A5. -/
def env_third_key : Env := env_reject (wrong_key [0xa0, 0xa1, 0xa2, 0xa3, 0xa4, 0xa5])

/-- A read or write command that failed: `nfc_initiator_mifare_cmd`
returned false for it. -/
def failed_rw (e : Event) : Bool :=
  match e.cmd with
  | .mifare .MC_READ _ _ => !read_ok e.resp
  | .mifare .MC_WRITE _ _ => !e.resp.ok
  | _ => false

/-- No read or write command failed between `s` and `s'`. -/
def Clean (s s' : State) : Prop := Grows (fun e => failed_rw e = false) s s'

/-- The last command issued between `s` and `s'` is a failed read or write,
the first one to fail. -/
def FailLast (s s' : State) : Prop :=
  ∃ pre e, s'.trace = s.trace ++ pre ++ [e] ∧ (∀ x ∈ pre, failed_rw x = false) ∧
    failed_rw e = true

/-- The first failed command between `s` and `s'` is the write of block 0
on a direct-write card; only commands that are not MIFARE commands follow
it. -/
def FailBlock0 (s s' : State) : Prop :=
  ∃ pre e post, s'.trace = s.trace ++ pre ++ e :: post ∧
    (∀ x ∈ pre, failed_rw x = false) ∧ failed_rw e = true ∧
    (∀ x ∈ post, is_mifare x.cmd = false) ∧
    (∃ p, e.cmd = .mifare .MC_WRITE 0 p) ∧ s'.dWrite = true

/-- How a write pass ends after a failed command when failures are not
tolerated. -/
def WFail (s s' : State) (o : Outcome) : Prop :=
  (o = .ret false ∧ FailLast s s') ∨ (FailBlock0 s s' ∧ (o = .ret false ∨ o = .exit))

/-- The outcome a piece of the loop body leads to when failures are not
tolerated: `bFailure` set means `return false` at the end of the
iteration. -/
def pending (r : Res Bool) (o : Outcome) : Prop :=
  (r = .ok true r.state ∧ o = .ret false) ∨ r = .stop o r.state

/-- The first unlock command, the write of block 0 and the
re-initialisation of the reader. -/
def direct_write_faults : Cmd → Bool
| .transceive_bits _ _ => true
| .mifare .MC_WRITE 0 _ => true
| .initiator_init => true
| _ => false

/-- A direct-write card (unlock command 1 not acknowledged) that refuses
the write of block 0, on a reader whose re-initialisation fails. -/
def env_direct_write_fault : Env := env_reject direct_write_faults

/-- A card that refuses the read of block 2. -/
def env_read2_fails : Env :=
  env_reject (fun c => c == .mifare .MC_READ 2 [])

/-- Flags of `r a`: key A, no key file, failures not tolerated. -/
def flags_r : Flags := ⟨true, false, false, false, 0x13⟩

/-- What the specification says of snapshot block `i` after the read
command `e` of block `i` succeeded in an authenticated pass that issued the
events `l` and ended in `s'`: a trailer holds Key A of `mtKeys.amb[i]`, the
access bits (bytes 6..9) the card returned and Key B of `mtKeys.amb[i]`, and
in guess mode the key of the configured side is a built-in key that an
accepted authentication command for block `i` carried; a data block holds
the sixteen bytes the card returned. -/
def read_stored (f : Flags) (s' : State) (l : List Event) (e : Event) (i : Nat) : Prop :=
  (is_trailer_block i = true →
    (∀ j, j < 6 → s'.mtDump i j = s'.mtKeys i j) ∧
    (∀ j, 6 ≤ j → j < 10 → s'.mtDump i j = bytes e.resp.data j) ∧
    (∀ j, 10 ≤ j → j < 16 → s'.mtDump i j = s'.mtKeys i j) ∧
    (f.bUseKeyFile = false → ∃ k, k < 9 ∧
      (∀ j, j < 6 → s'.mtKeys i (key_offset f + j) = builtin_key k j) ∧
      ∃ a ∈ l, ∃ p, a.cmd = .mifare (auth_cmd f) i p ∧
        p.take 6 = take_bytes (builtin_key k) 6 ∧ a.resp.ok = true)) ∧
  (is_trailer_block i = false → ∀ j, j < 16 → s'.mtDump i j = bytes e.resp.data j)

/-- What an iteration of the authenticated read loop for block `k` does
between `s` and `s1`: a read command that succeeded is for block `k` and
left `read_stored`; the other blocks of `mtDump` and `mtKeys` are
untouched. -/
def ReadBlock (f : Flags) (k : Nat) (s s1 : State) : Prop :=
  (∃ l, s1.trace = s.trace ++ l ∧
    ∀ e ∈ l, ∀ i, e.cmd = .mifare .MC_READ i [] → read_ok e.resp = true →
      i = k ∧ read_stored f s1 l e k) ∧
  (∀ b, b ≠ k → s1.mtDump b = s.mtDump b ∧ s1.mtKeys b = s.mtKeys b)

/-- What the authenticated read loop from block `k` down does between `s`
and `s1`: every read command that succeeded is for a block `i <= k` and
left `read_stored`; the blocks above `k` are untouched. -/
def ReadPass (f : Flags) (k : Nat) (s s1 : State) : Prop :=
  (∃ l, s1.trace = s.trace ++ l ∧
    ∀ e ∈ l, ∀ i, e.cmd = .mifare .MC_READ i [] → read_ok e.resp = true →
      i ≤ k ∧ read_stored f s1 l e i) ∧
  (∀ b, k < b → s1.mtDump b = s.mtDump b ∧ s1.mtKeys b = s.mtKeys b)

/-- The first block of the sector of block `i`, as in claim C10: three (or
fifteen) blocks below its trailer block. -/
def sector_first (i : Nat) : Nat := get_trailer_block i - (if i < 128 then 3 else 15)

/-- The blocks the read pass marks failed when the read of data block `b`
fails: `b` and the blocks below it in its sector. -/
def read_marked_failed (b : Nat) : Nat := b - sector_first b + 1

/-- The blocks the write pass marks failed when the write of data block `b`
fails: `b` and the blocks after it in its sector, trailer included; only
block 0 itself when `b` is block 0 (block 1 starts afresh). -/
def write_marked_failed (b : Nat) : Nat :=
  if b = 0 then 1 else get_trailer_block b - b + 1

/-- The read command of block `b` fails and every other operation of the
reader succeeds (a read with a 16-byte answer). -/
def OneReadFails (env : Env) (b : Nat) : Prop :=
  (∀ h, read_ok (env h (.mifare .MC_READ b [])) = false) ∧
  (∀ h c, c ≠ .mifare .MC_READ b [] → (env h c).ok = true) ∧
  (∀ h i, i ≠ b → (env h (.mifare .MC_READ i [])).data.length = 16)

/-- The write command of block `b` fails, whatever it carries, and every
other operation of the reader succeeds. -/
def OneWriteFails (env : Env) (b : Nat) : Prop :=
  (∀ h p, (env h (.mifare .MC_WRITE b p)).ok = false) ∧
  (∀ h c, (∀ p, c ≠ .mifare .MC_WRITE b p) → (env h c).ok = true)

/-- The pass returned true and its last line of output is
`Done, n of m blocks`. -/
def Reports (r : Outcome × State) (n m : Nat) : Prop :=
  r.1 = .ret true ∧ r.2.out.getLast? = some (.done n m)

/-- Flags of `r A`: key A, no key file, failures tolerated. -/
def flags_r_tolerant : Flags := ⟨true, false, true, false, 0x13⟩

/-- A card that refuses the write of block 5, whatever it carries. -/
def env_write5_fails : Env :=
  env_reject (fun c => match c with
    | .mifare .MC_WRITE 5 _ => true
    | _ => false)

/-! ## The size guess of `main` (lines 747-769)

The fragment reads `nt.nti.nai.abtAtqa[1]` and `nt.nti.nai.btSak`, calls
`get_rats`, and reads `abtRx` and `abtAtqa[1]` again.  `get_rats` (lines
295-325) returns the length of the answer to RATS (or a value `<= 0` when
there is none) after it has selected the tag again into `nt`; its result
`res`, the receive buffer `abtRx` and the ATQA byte after that reselect are
parameters here. -/

/-- The value `uiBlocks` gets on lines 747-766: `abtAtqa1` and `btSak` are
read before `get_rats`, `abtAtqa1_rats` is `abtAtqa[1]` after it. -/
def guess_size (abtAtqa1 btSak : Nat) (res : Int) (abtRx : Nat → Nat)
    (abtAtqa1_rats : Nat) : Nat :=
  let uiBlocks :=
    if (abtAtqa1 &&& 0x02) == 0x02 || btSak == 0x18 then 0xff
    else if btSak == 0x09 then 0x13
    else 0x3f
  if res > 0 then
    if decide (res ≥ 10) && abtRx 5 == 0xc1 && abtRx 6 == 0x05 && abtRx 7 == 0x2f
        && abtRx 8 == 0x2f && (abtAtqa1_rats &&& 0x02) == 0x00 then 0x7f
    else uiBlocks
  else uiBlocks

/-- The signature of a MIFARE Plus 2K card: an answer to RATS of at least
ten bytes with C1 05 2F 2F at offsets 5..8. -/
def rats_signature (res : Int) (abtRx : Nat → Nat) : Prop :=
  res ≥ 10 ∧ abtRx 5 = 0xc1 ∧ abtRx 6 = 0x05 ∧ abtRx 7 = 0x2f ∧ abtRx 8 = 0x2f

/-- The rule of the specification for the capacity: 4K when ATQA byte 1 has
bit 0x02 set or SAK is 0x18; otherwise mini when SAK is 0x09; otherwise the
1K/2K baseline, raised to Plus-2K exactly when the RATS signature is there. -/
def classify_capacity (atqa1 sak : Nat) (rats : List Nat) : Nat :=
  if (atqa1 &&& 0x02) = 0x02 ∨ sak = 0x18 then 0xff
  else if sak = 0x09 then 0x13
  else if rats.length ≥ 10 ∧ (rats.drop 5).take 4 = [0xc1, 0x05, 0x2f, 0x2f] then 0x7f
  else 0x3f

/-- An answer to RATS of twelve bytes that carries the Plus-2K signature. -/
def rats_plus2k : List Nat :=
  [0x0c, 0x75, 0x77, 0x80, 0x02, 0xc1, 0x05, 0x2f, 0x2f, 0x00, 0x35, 0xc7]

instance (res : Int) (abtRx : Nat → Nat) : Decidable (rats_signature res abtRx) := by
  unfold rats_signature; infer_instance

/-! ## Vocabulary and cards for the unlock sequence -/

/-- The value last given to property `p` by a `nfc_device_set_property_bool`
call among the events `l`; `none` when `p` was not set. -/
def last_set (p : nfc_property) (l : List Event) : Option Bool :=
  l.foldl (fun acc e =>
    match e.cmd with
    | .set_property q b => if q = p then some b else acc
    | _ => acc) none

/-- The block a write command is for. -/
def written_block : Cmd → Option Nat
| .mifare .MC_WRITE b _ => some b
| _ => none

/-- The first unlock command (0x40 on 7 bits). -/
def is_unlock1 : Cmd → Bool
| .transceive_bits _ _ => true
| _ => false

/-- The second unlock command (0x43). -/
def is_unlock2 (c : Cmd) : Bool := c == .transceive_bytes abtUnlock2

/-- An ordinary card: it does not acknowledge unlock command 1 and accepts
everything else. -/
def env_no_backdoor : Env := env_reject is_unlock1

/-- A card that acknowledges unlock command 1 but not unlock command 2, and
accepts everything else. -/
def env_half_unlock : Env := env_reject is_unlock2

/-- A card that acknowledges both unlock commands and refuses the write of
block 0, whatever it carries. -/
def env_write0_fails : Env :=
  env_reject (fun c => match c with
    | .mifare .MC_WRITE 0 _ => true
    | _ => false)

/-- Block `v` was skipped: among the events `L` there is no write command
for it, and the entry at position `i` of the output `O`, when there is one,
is the mark of a failure. -/
def Skipped (L : List Event) (O : List Out) (v i : Nat) : Prop :=
  (∀ e ∈ L, written_block e.cmd ≠ some v) ∧ ∀ o, O[i]? = some o → o = .mark true

/-! # Theorems -/

/-! ## Lemmas on the trace -/

theorem grows_refl (P : Event → Prop) (s : State) : Grows P s s :=
  ⟨[], by simp, by simp⟩

theorem grows_of_eq (P : Event → Prop) {s s' : State} (h : s'.trace = s.trace) :
    Grows P s s' :=
  ⟨[], by simp [h], by simp⟩

theorem grows_trans {P : Event → Prop} {s1 s2 s3 : State}
    (h1 : Grows P s1 s2) (h2 : Grows P s2 s3) : Grows P s1 s3 := by
  obtain ⟨l1, e1, p1⟩ := h1
  obtain ⟨l2, e2, p2⟩ := h2
  refine ⟨l1 ++ l2, by rw [e2, e1, List.append_assoc], ?_⟩
  intro e he
  rcases List.mem_append.1 he with h | h
  · exact p1 e h
  · exact p2 e h

theorem grows_mono {P Q : Event → Prop} {s s' : State} (h : Grows P s s')
    (hpq : ∀ e, P e → Q e) : Grows Q s s' := by
  obtain ⟨l, e1, p1⟩ := h
  exact ⟨l, e1, fun e he => hpq e (p1 e he)⟩

theorem grows_one (P : Event → Prop) {s s' : State} (e : Event)
    (h : s'.trace = s.trace ++ [e]) (hp : P e) : Grows P s s' :=
  ⟨[e], h, by simpa using hp⟩

theorem issue_grows (env : Env) (c : Cmd) (s : State) :
    Grows (fun e => e.cmd = c) s (issue env c s).2 :=
  grows_one _ ⟨c, env s.trace c⟩ rfl rfl

/-- Fields other than the trace and `mp` / `nt_uid`. -/
theorem select_spec (env : Env) (d : List Nat) (st : Bool) (s : State) :
    let r := nfc_initiator_select_passive_target env d st s
    r.2.trace = s.trace ++ [⟨.select d, env s.trace (.select d)⟩] ∧
    r.1 = (env s.trace (.select d)).ok ∧
    r.2.mp = s.mp ∧ r.2.mtKeys = s.mtKeys ∧ r.2.mtDump = s.mtDump ∧
    r.2.dWrite = s.dWrite ∧ r.2.unlocked = s.unlocked ∧ r.2.out = s.out ∧
    (st = false → r.2.nt_uid = s.nt_uid) := by
  simp only [nfc_initiator_select_passive_target, issue]
  cases h : (env s.trace (.select d)).ok <;> cases st <;> simp

theorem mifare_cmd_rest (env : Env) (mc : mifare_cmd) (b : Nat) (s : State) :
    let r := nfc_initiator_mifare_cmd env mc b s
    r.2.mtKeys = s.mtKeys ∧ r.2.mtDump = s.mtDump ∧ r.2.nt_uid = s.nt_uid ∧
    r.2.dWrite = s.dWrite ∧ r.2.unlocked = s.unlocked ∧ r.2.out = s.out := by
  cases mc <;> simp only [nfc_initiator_mifare_cmd, issue] <;> (try split) <;> simp

theorem mifare_auth_spec (f : Flags) (env : Env) (b : Nat) (s : State) :
    let c := Cmd.mifare (auth_cmd f) (b % 256) (take_bytes s.mp 10)
    let r := nfc_initiator_mifare_cmd env (auth_cmd f) b s
    r.2.trace = s.trace ++ [⟨c, env s.trace c⟩] ∧ r.1 = (env s.trace c).ok ∧
    r.2.mp = s.mp := by
  cases h : f.bUseKeyA <;> simp [auth_cmd, h, nfc_initiator_mifare_cmd, issue]

theorem mifare_write_spec (env : Env) (b : Nat) (s : State) :
    let c := Cmd.mifare .MC_WRITE (b % 256) (take_bytes s.mp 16)
    let r := nfc_initiator_mifare_cmd env .MC_WRITE b s
    r.2.trace = s.trace ++ [⟨c, env s.trace c⟩] ∧ r.1 = (env s.trace c).ok ∧
    r.2.mp = s.mp := by
  simp [nfc_initiator_mifare_cmd, issue]

theorem mifare_read_spec (env : Env) (b : Nat) (s : State) :
    let c := Cmd.mifare .MC_READ (b % 256) []
    let r := nfc_initiator_mifare_cmd env .MC_READ b s
    r.2.trace = s.trace ++ [⟨c, env s.trace c⟩] ∧
    r.1 = read_ok (env s.trace c) ∧
    (r.1 = true → r.2.mp = memcpy s.mp 0 (bytes (env s.trace c).data) 16) := by
  simp only [nfc_initiator_mifare_cmd, issue, read_ok]
  split <;> simp_all

theorem take_bytes_auth (mp key uid : Nat → Nat) :
    take_bytes (memcpy (memcpy mp 6 uid 4) 0 key 6) 10 = take_bytes key 6 ++ take_bytes uid 4 := by
  rfl

theorem take_bytes_auth' (mp key : Nat → Nat) (uid : Nat → Nat)
    (hu : ∀ j, j < 4 → mp (6 + j) = uid j) :
    take_bytes (memcpy mp 0 key 6) 10 = take_bytes key 6 ++ take_bytes uid 4 := by
  have h0 := hu 0 (by decide)
  have h1 := hu 1 (by decide)
  have h2 := hu 2 (by decide)
  have h3 := hu 3 (by decide)
  simp only [take_bytes, memcpy, List.range, List.range.loop, List.map] at *
  simp [h0, h1, h2, h3]

@[simp] theorem issue_fst (env : Env) (c : Cmd) (s : State) : (issue env c s).1 = env s.trace c := rfl
@[simp] theorem issue_trace (env : Env) (c : Cmd) (s : State) :
    (issue env c s).2.trace = s.trace ++ [⟨c, env s.trace c⟩] := rfl
@[simp] theorem issue_mp (env : Env) (c : Cmd) (s : State) : (issue env c s).2.mp = s.mp := rfl
@[simp] theorem issue_nt_uid (env : Env) (c : Cmd) (s : State) : (issue env c s).2.nt_uid = s.nt_uid := rfl
@[simp] theorem issue_mtKeys (env : Env) (c : Cmd) (s : State) : (issue env c s).2.mtKeys = s.mtKeys := rfl
@[simp] theorem issue_mtDump (env : Env) (c : Cmd) (s : State) : (issue env c s).2.mtDump = s.mtDump := rfl
@[simp] theorem issue_dWrite (env : Env) (c : Cmd) (s : State) : (issue env c s).2.dWrite = s.dWrite := rfl
@[simp] theorem issue_unlocked (env : Env) (c : Cmd) (s : State) : (issue env c s).2.unlocked = s.unlocked := rfl
@[simp] theorem issue_out (env : Env) (c : Cmd) (s : State) : (issue env c s).2.out = s.out := rfl

theorem mifare_auth_eq (f : Flags) (env : Env) (b : Nat) (s : State) :
    nfc_initiator_mifare_cmd env (auth_cmd f) b s =
      ((env s.trace (.mifare (auth_cmd f) (b % 256) (take_bytes s.mp 10))).ok,
       (issue env (.mifare (auth_cmd f) (b % 256) (take_bytes s.mp 10)) s).2) := by
  cases h : f.bUseKeyA <;> simp [auth_cmd, h, nfc_initiator_mifare_cmd]

theorem mifare_write_eq (env : Env) (b : Nat) (s : State) :
    nfc_initiator_mifare_cmd env .MC_WRITE b s =
      ((env s.trace (.mifare .MC_WRITE (b % 256) (take_bytes s.mp 16))).ok,
       (issue env (.mifare .MC_WRITE (b % 256) (take_bytes s.mp 16)) s).2) := by
  simp [nfc_initiator_mifare_cmd]

theorem select_nostore_eq (env : Env) (d : List Nat) (s : State) :
    nfc_initiator_select_passive_target env d false s =
      ((env s.trace (.select d)).ok, (issue env (.select d) s).2) := by
  simp only [nfc_initiator_select_passive_target]
  cases h : (env s.trace (.select d)).ok <;> simp [h]

theorem issued_trans {s1 s2 s3 : State} {c1 c2 : List Cmd}
    (h1 : Issued s1 s2 c1) (h2 : Issued s2 s3 c2) : Issued s1 s3 (c1 ++ c2) := by
  obtain ⟨l1, e1, p1⟩ := h1
  obtain ⟨l2, e2, p2⟩ := h2
  exact ⟨l1 ++ l2, by rw [e2, e1, List.append_assoc], by simp [p1, p2]⟩

theorem issued_issue (env : Env) (c : Cmd) (s : State) : Issued s (issue env c s).2 [c] :=
  ⟨[⟨c, env s.trace c⟩], rfl, rfl⟩

theorem issued_of_trace_eq {s s' s'' : State} {cs : List Cmd} (h : s'.trace = s.trace)
    (h2 : Issued s' s'' cs) : Issued s s'' cs := by
  obtain ⟨l, e, p⟩ := h2
  exact ⟨l, by rw [e, h], p⟩

/-- A guess that meets `n` rejected keys and then an accepted one. -/
theorem guess_accept (f : Flags) (env : Env) (blk : Nat) (uid : List Nat)
    (hsel : ∀ h d, (env h (.select d)).ok = true) :
    ∀ (n rem k : Nat) (s : State), n < rem → s.nt_uid = uid →
      (∀ j, j < 4 → s.mp (6 + j) = auth_uid uid j) →
      (∀ h j, k ≤ j → j < k + n → (env h (auth_with f blk uid (builtin_key j))).ok = false) →
      (∀ h, (env h (auth_with f blk uid (builtin_key (k + n)))).ok = true) →
      (authenticate_guess f env blk rem k s).1 = true ∧
      Issued s (authenticate_guess f env blk rem k s).2 (guess_cmds f blk uid n k) ∧
      (∀ b j, (authenticate_guess f env blk rem k s).2.mtKeys b j =
        if b = blk ∧ key_offset f ≤ j ∧ j < key_offset f + 6
        then builtin_key (k + n) (j - key_offset f) else s.mtKeys b j) := by
  intro n
  induction n with
  | zero =>
    intro rem k s hrem hu hm _ hacc
    obtain ⟨rem, rfl⟩ : ∃ r, rem = r + 1 := ⟨rem - 1, by omega⟩
    have hp : take_bytes (memcpy s.mp 0 (builtin_key k) 6) 10
        = take_bytes (builtin_key k) 6 ++ take_bytes (auth_uid uid) 4 :=
      take_bytes_auth' _ _ _ hm
    have hacc' := hacc s.trace
    simp only [Nat.add_zero, auth_with] at hacc'
    simp only [authenticate_guess, mifare_auth_eq, hp, hacc', if_true, Nat.add_zero]
    refine ⟨trivial, ⟨_, rfl, ?_⟩, ?_⟩
    · simp [guess_cmds, auth_with]
    · intro b j
      simp only [memcpy_block, issue_mtKeys, issue_mp]
      by_cases hb : b = blk
      · simp only [hb, if_true, memcpy, true_and]
        by_cases hj : key_offset f ≤ j ∧ j < key_offset f + 6
        · have : j - key_offset f < 0 + 6 := by omega
          simp [hj, this]
        · simp [hj]
      · simp [hb]
  | succ n ih =>
    intro rem k s hrem hu hm hrej hacc
    obtain ⟨rem, rfl⟩ : ∃ r, rem = r + 1 := ⟨rem - 1, by omega⟩
    have hp : take_bytes (memcpy s.mp 0 (builtin_key k) 6) 10
        = take_bytes (builtin_key k) 6 ++ take_bytes (auth_uid uid) 4 :=
      take_bytes_auth' _ _ _ hm
    have hrej' := hrej s.trace k (le_refl _) (by omega)
    simp only [auth_with] at hrej'
    simp only [authenticate_guess, mifare_auth_eq, hp, hrej', select_nostore_eq, hsel,
      Bool.not_true, Bool.false_eq_true, if_false]
    have hih := ih rem (k + 1)
      (issue env (.select (issue env (.mifare (auth_cmd f) (blk % 256)
        (take_bytes (builtin_key k) 6 ++ take_bytes (auth_uid uid) 4))
        { s with mp := memcpy s.mp 0 (builtin_key k) 6 }).2.nt_uid)
        (issue env (.mifare (auth_cmd f) (blk % 256)
        (take_bytes (builtin_key k) 6 ++ take_bytes (auth_uid uid) 4))
        { s with mp := memcpy s.mp 0 (builtin_key k) 6 }).2).2
      (by omega) (by simpa using hu)
      (by intro j hj; simpa [memcpy] using hm j hj)
      (fun h j h1 h2 => hrej h j (by omega) (by omega))
      (by intro h; have := hacc h; rwa [show k + (n + 1) = k + 1 + n by omega] at this)
    obtain ⟨h1, h2, h4⟩ := hih
    refine ⟨h1, ?_, ?_⟩
    · have h5 := issued_trans (issued_trans (issued_issue env (.mifare (auth_cmd f) (blk % 256)
        (take_bytes (builtin_key k) 6 ++ take_bytes (auth_uid uid) 4))
        { s with mp := memcpy s.mp 0 (builtin_key k) 6 })
        (issued_issue env (.select uid) _)) (by simpa [hu] using h2)
      simpa [guess_cmds, auth_with, hu] using issued_of_trace_eq (s := s) rfl h5
    · intro b j
      rw [h4 b j]
      simp [show k + 1 + n = k + (n + 1) by omega]

theorem new_events_of_issued {s s' : State} {cs : List Cmd} (h : Issued s s' cs) :
    (new_events s s').map Event.cmd = cs := by
  obtain ⟨l, e, p⟩ := h
  simp [new_events, e, p]

theorem new_events_of_trace {s s' : State} {l : List Event} (h : s'.trace = s.trace ++ l) :
    new_events s s' = l := by
  simp [new_events, h]

/-- A guess in which the `rem` keys that remain are all rejected. -/
theorem guess_reject (f : Flags) (env : Env) (blk : Nat) (uid : List Nat)
    (hsel : ∀ h d, (env h (.select d)).ok = true) :
    ∀ (rem k : Nat) (s : State), s.nt_uid = uid →
      (∀ j, j < 4 → s.mp (6 + j) = auth_uid uid j) →
      (∀ h j, k ≤ j → j < k + rem → (env h (auth_with f blk uid (builtin_key j))).ok = false) →
      (authenticate_guess f env blk rem k s).1 = false ∧
      Issued s (authenticate_guess f env blk rem k s).2 (reject_cmds f blk uid rem k) ∧
      (authenticate_guess f env blk rem k s).2.mtKeys = s.mtKeys := by
  intro rem
  induction rem with
  | zero =>
    intro k s _ _ _
    exact ⟨rfl, ⟨[], by simp [authenticate_guess], rfl⟩, rfl⟩
  | succ rem ih =>
    intro k s hu hm hrej
    have hp : take_bytes (memcpy s.mp 0 (builtin_key k) 6) 10
        = take_bytes (builtin_key k) 6 ++ take_bytes (auth_uid uid) 4 :=
      take_bytes_auth' _ _ _ hm
    have hrej' := hrej s.trace k (le_refl _) (by omega)
    simp only [auth_with] at hrej'
    simp only [authenticate_guess, mifare_auth_eq, hp, hrej', select_nostore_eq, hsel,
      Bool.not_true, Bool.false_eq_true, if_false]
    have hih := ih (k + 1)
      (issue env (.select (issue env (.mifare (auth_cmd f) (blk % 256)
        (take_bytes (builtin_key k) 6 ++ take_bytes (auth_uid uid) 4))
        { s with mp := memcpy s.mp 0 (builtin_key k) 6 }).2.nt_uid)
        (issue env (.mifare (auth_cmd f) (blk % 256)
        (take_bytes (builtin_key k) 6 ++ take_bytes (auth_uid uid) 4))
        { s with mp := memcpy s.mp 0 (builtin_key k) 6 }).2).2
      (by simpa using hu)
      (by intro j hj; simpa [memcpy] using hm j hj)
      (fun h j h1 h2 => hrej h j (by omega) (by omega))
    obtain ⟨h1, h2, h4⟩ := hih
    refine ⟨h1, ?_, ?_⟩
    · have h5 := issued_trans (issued_trans (issued_issue env (.mifare (auth_cmd f) (blk % 256)
        (take_bytes (builtin_key k) 6 ++ take_bytes (auth_uid uid) 4))
        { s with mp := memcpy s.mp 0 (builtin_key k) 6 })
        (issued_issue env (.select uid) _)) (by simpa [hu] using h2)
      simpa [reject_cmds, auth_with, hu] using issued_of_trace_eq (s := s) rfl h5
    · rw [h4]; rfl

theorem is_auth_auth_with (f : Flags) (blk : Nat) (uid : List Nat) (key : Nat → Nat) :
    is_auth (auth_with f blk uid key) = true := by
  cases h : f.bUseKeyA <;> simp [auth_with, auth_cmd, h, is_auth]

theorem is_select_auth_with (f : Flags) (blk : Nat) (uid : List Nat) (key : Nat → Nat) :
    is_select (auth_with f blk uid key) = false := by
  simp [auth_with, is_select]

theorem is_auth_select (d : List Nat) : is_auth (.select d) = false := rfl

theorem is_select_select (d : List Nat) : is_select (.select d) = true := rfl

theorem count_guess_cmds (f : Flags) (blk : Nat) (uid : List Nat) :
    ∀ n k, (guess_cmds f blk uid n k).countP is_auth = n + 1 ∧
      (guess_cmds f blk uid n k).countP is_select = n := by
  intro n
  induction n with
  | zero => intro k; simp [guess_cmds, is_auth_auth_with, is_select_auth_with]
  | succ n ih =>
    intro k
    obtain ⟨h1, h2⟩ := ih (k + 1)
    simp only [guess_cmds, List.countP_cons, is_auth_auth_with, is_select_auth_with, h1, h2,
      is_auth_select, is_select_select]
    simp

theorem count_reject_cmds (f : Flags) (blk : Nat) (uid : List Nat) :
    ∀ n k, (reject_cmds f blk uid n k).countP is_auth = n := by
  intro n
  induction n with
  | zero => intro k; simp [reject_cmds]
  | succ n ih =>
    intro k
    simp only [reject_cmds, List.countP_cons, is_auth_auth_with, ih (k + 1), is_auth_select]
    simp

theorem authenticate_guess_mode (f : Flags) (env : Env) (blk : Nat) (s : State)
    (hk : f.bUseKeyFile = false) :
    authenticate f env blk s = authenticate_guess f env blk 9 0
      { s with mp := memcpy s.mp 6 (auth_uid s.nt_uid) 4 } := by
  simp [authenticate, hk, num_keys, keys]

/-- Claim C8.  In guess mode (`bUseKeyFile` false) with every reselect
succeeding, `authenticate` tries the built-in keys in list order.  If the
card rejects the first `m` keys and accepts key number `m + 1` (`m < 9`),
the call returns true, the commands it issues are the `m` rejected
authentications, each followed by a reselect, then the accepted
authentication (`m + 1` authentication commands and `m` reselects in all),
the six bytes of the configured side of `mtKeys.amb[blk]` are that key and
every other byte of `mtKeys` is unchanged.  If the card rejects all nine
keys, the call returns false after exactly nine authentication commands and
`mtKeys` is unchanged. -/
theorem C8_guess_candidates (f : Flags) (env : Env) (blk : Nat) (s : State)
    (hk : f.bUseKeyFile = false)
    (hsel : ∀ h d, (env h (.select d)).ok = true) :
    (∀ m, m < 9 →
      (∀ h j, j < m → (env h (auth_with f blk s.nt_uid (builtin_key j))).ok = false) →
      (∀ h, (env h (auth_with f blk s.nt_uid (builtin_key m))).ok = true) →
      (authenticate f env blk s).1 = true ∧
      (new_events s (authenticate f env blk s).2).map Event.cmd
        = guess_cmds f blk s.nt_uid m 0 ∧
      ((new_events s (authenticate f env blk s).2).map Event.cmd).countP is_auth = m + 1 ∧
      ((new_events s (authenticate f env blk s).2).map Event.cmd).countP is_select = m ∧
      (∀ j, j < 6 → (authenticate f env blk s).2.mtKeys blk (key_offset f + j)
        = builtin_key m j) ∧
      (∀ b j, ¬ (b = blk ∧ key_offset f ≤ j ∧ j < key_offset f + 6) →
        (authenticate f env blk s).2.mtKeys b j = s.mtKeys b j)) ∧
    ((∀ h j, j < 9 → (env h (auth_with f blk s.nt_uid (builtin_key j))).ok = false) →
      (authenticate f env blk s).1 = false ∧
      (new_events s (authenticate f env blk s).2).map Event.cmd
        = reject_cmds f blk s.nt_uid 9 0 ∧
      ((new_events s (authenticate f env blk s).2).map Event.cmd).countP is_auth = 9 ∧
      (authenticate f env blk s).2.mtKeys = s.mtKeys) := by
  rw [authenticate_guess_mode f env blk s hk]
  constructor
  · intro m hm hrej hacc
    obtain ⟨h1, h2, h3⟩ := guess_accept f env blk s.nt_uid hsel m 9 0
      { s with mp := memcpy s.mp 6 (auth_uid s.nt_uid) 4 } hm rfl
      (by intro j hj; simp only [memcpy]; rw [if_pos (by omega)]; simp)
      (fun h j _ h2 => hrej h j (by omega)) (by simpa using hacc)
    have h2' := new_events_of_issued (issued_of_trace_eq (s := s) rfl h2)
    refine ⟨h1, h2', ?_, ?_, ?_, ?_⟩
    · rw [h2']; exact (count_guess_cmds f blk s.nt_uid m 0).1
    · rw [h2']; exact (count_guess_cmds f blk s.nt_uid m 0).2
    · intro j hj
      rw [h3]
      simp [hj]
    · intro b j hb
      rw [h3]
      simp only [hb, if_false]
  · intro hrej
    obtain ⟨h1, h2, h3⟩ := guess_reject f env blk s.nt_uid hsel 9 0
      { s with mp := memcpy s.mp 6 (auth_uid s.nt_uid) 4 } rfl
      (by intro j hj; simp only [memcpy]; rw [if_pos (by omega)]; simp)
      (fun h j _ h2 => hrej h j (by omega))
    have h2' := new_events_of_issued (issued_of_trace_eq (s := s) rfl h2)
    refine ⟨h1, h2', ?_, h3⟩
    rw [h2']; exact count_reject_cmds f blk s.nt_uid 9 0

theorem keyfile_keeps_keys (f : Flags) (env : Env) (blk : Nat) (s : State)
    (hk : f.bUseKeyFile = true) : (authenticate f env blk s).2.mtKeys = s.mtKeys := by
  simp only [authenticate, hk, if_true, mifare_auth_eq]
  split <;> rfl

/-- Claim C9.  With a key file in use, `authenticate` issues exactly one
command: the authentication of the configured side for block `blk`, with
the key of that side stored in `mtKeys` at the trailer block of `blk`.  It
returns the result of that command and leaves `mtKeys` unchanged, whatever
the format flag is. -/
theorem C9_keyfile_single_command (f : Flags) (env : Env) (blk : Nat) (s : State)
    (hk : f.bUseKeyFile = true) :
    new_events s (authenticate f env blk s).2
      = [⟨auth_with f blk s.nt_uid
            (fun j => s.mtKeys (get_trailer_block blk) (key_offset f + j)),
          env s.trace (auth_with f blk s.nt_uid
            (fun j => s.mtKeys (get_trailer_block blk) (key_offset f + j)))⟩] ∧
    (authenticate f env blk s).1
      = (env s.trace (auth_with f blk s.nt_uid
            (fun j => s.mtKeys (get_trailer_block blk) (key_offset f + j)))).ok ∧
    (authenticate f env blk s).2.mtKeys = s.mtKeys := by
  have hp : take_bytes (memcpy (memcpy s.mp 6 (auth_uid s.nt_uid) 4) 0
      (fun j => s.mtKeys (get_trailer_block blk) (key_offset f + j)) 6) 10
      = take_bytes (fun j => s.mtKeys (get_trailer_block blk) (key_offset f + j)) 6
        ++ take_bytes (auth_uid s.nt_uid) 4 := rfl
  simp only [authenticate, hk, if_true, mifare_auth_eq, hp]
  refine ⟨?_, ?_, ?_⟩
  · split <;> exact new_events_of_trace rfl
  · split <;> simp_all [auth_with]
  · split <;> rfl

theorem quiet_refl (s : State) : Quiet s s := ⟨rfl, rfl, rfl, rfl⟩

theorem quiet_trans {s1 s2 s3 : State} (h1 : Quiet s1 s2) (h2 : Quiet s2 s3) : Quiet s1 s3 :=
  ⟨h2.1.trans h1.1, h2.2.1.trans h1.2.1, h2.2.2.1.trans h1.2.2.1, h2.2.2.2.trans h1.2.2.2⟩

theorem sub_refl (P : Event → Prop) (s : State) : Sub P s s :=
  ⟨grows_refl P s, quiet_refl s⟩

theorem sub_trans {P : Event → Prop} {s1 s2 s3 : State}
    (h1 : Sub P s1 s2) (h2 : Sub P s2 s3) : Sub P s1 s3 :=
  ⟨grows_trans h1.1 h2.1, quiet_trans h1.2 h2.2⟩

theorem sub_mono {P Q : Event → Prop} {s s' : State} (h : Sub P s s')
    (hpq : ∀ e, P e → Q e) : Sub Q s s' :=
  ⟨grows_mono h.1 hpq, h.2⟩

/-- A change of `mp` alone issues nothing. -/
theorem sub_set_mp (P : Event → Prop) (s : State) (m : Nat → Nat) :
    Sub P s { s with mp := m } :=
  ⟨grows_of_eq P rfl, rfl, rfl, rfl, rfl⟩

theorem issue_sub (env : Env) (c : Cmd) (s : State) :
    Sub (fun e => e.cmd = c) s (issue env c s).2 :=
  ⟨issue_grows env c s, rfl, rfl, rfl, rfl⟩

theorem mifare_cmd_sub (env : Env) (mc : mifare_cmd) (b : Nat) (s : State) :
    Sub (fun e => ∃ p, e.cmd = .mifare mc (b % 256) p) s
      (nfc_initiator_mifare_cmd env mc b s).2 := by
  have h := mifare_cmd_rest env mc b s
  refine ⟨?_, h.2.1, h.2.2.2.1, h.2.2.2.2.1, h.2.2.2.2.2⟩
  cases mc
  · exact grows_one _ _ (mifare_auth_spec ⟨true, false, false, false, 0⟩ env b s).1 ⟨_, rfl⟩
  · exact grows_one _ _ (mifare_auth_spec ⟨false, false, false, false, 0⟩ env b s).1 ⟨_, rfl⟩
  · exact grows_one _ _ (mifare_read_spec env b s).1 ⟨_, rfl⟩
  · exact grows_one _ _ (mifare_write_spec env b s).1 ⟨_, rfl⟩

theorem select_sub (env : Env) (d : List Nat) (st : Bool) (s : State) :
    Sub (fun e => is_select e.cmd = true) s
      (nfc_initiator_select_passive_target env d st s).2 := by
  have h := select_spec env d st s
  exact ⟨grows_one _ _ h.1 rfl, h.2.2.2.2.1, h.2.2.2.2.2.1, h.2.2.2.2.2.2.1,
    h.2.2.2.2.2.2.2.1⟩

theorem mifare_auth_sub (f : Flags) (env : Env) (b : Nat) (s : State) :
    Sub auth_or_select s (nfc_initiator_mifare_cmd env (auth_cmd f) b s).2 := by
  refine sub_mono (mifare_cmd_sub env (auth_cmd f) b s) ?_
  rintro e ⟨p, hp⟩
  left
  cases h : f.bUseKeyA <;> simp [hp, auth_cmd, h, is_auth]

theorem guess_sub (f : Flags) (env : Env) (blk : Nat) :
    ∀ (rem k : Nat) (s : State), Sub auth_or_select s (authenticate_guess f env blk rem k s).2 := by
  intro rem
  induction rem with
  | zero => intro k s; exact sub_refl _ _
  | succ rem ih =>
    intro k s
    have h1 : Sub auth_or_select s (nfc_initiator_mifare_cmd env (auth_cmd f) blk
        { s with mp := memcpy s.mp 0 (builtin_key k) 6 }).2 :=
      sub_trans (sub_set_mp _ _ _) (mifare_auth_sub f env blk _)
    have h2 := sub_trans h1 (sub_mono (select_sub env (nfc_initiator_mifare_cmd env (auth_cmd f) blk
        { s with mp := memcpy s.mp 0 (builtin_key k) 6 }).2.nt_uid false _) (fun e h => Or.inr h))
    simp only [authenticate_guess]
    split
    · exact ⟨h1.1, h1.2⟩
    · split
      · exact h2
      · exact sub_trans h2 (ih _ _)

theorem authenticate_sub (f : Flags) (env : Env) (blk : Nat) (s : State) :
    Sub auth_or_select s (authenticate f env blk s).2 := by
  unfold authenticate
  simp only []
  split
  · split <;> exact sub_trans (sub_set_mp _ _ _) (sub_trans (sub_set_mp _ _ _)
      (mifare_auth_sub f env blk _))
  · split
    · exact sub_trans (sub_set_mp _ _ _) (guess_sub f env blk _ _ _)
    · exact sub_set_mp _ _ _

theorem kept_refl (s : State) : Kept s s := ⟨rfl, rfl, rfl⟩

theorem kept_trans {s1 s2 s3 : State} (h1 : Kept s1 s2) (h2 : Kept s2 s3) : Kept s1 s3 :=
  ⟨h2.1.trans h1.1, h2.2.1.trans h1.2.1, h2.2.2.trans h1.2.2⟩

theorem quiet_kept {s s' : State} (h : Quiet s s') : Kept s s' := ⟨h.1, h.2.1, h.2.2.1⟩

theorem marks_refl (s : State) : Marks s s := ⟨[], by simp, by simp⟩

theorem marks_of_eq {s s' : State} (h : s'.out = s.out) : Marks s s' :=
  ⟨[], by simp [h], by simp⟩

theorem marks_trans {s1 s2 s3 : State} (h1 : Marks s1 s2) (h2 : Marks s2 s3) :
    Marks s1 s3 := by
  obtain ⟨l1, e1, p1⟩ := h1
  obtain ⟨l2, e2, p2⟩ := h2
  refine ⟨l1 ++ l2, by rw [e2, e1, List.append_assoc], ?_⟩
  intro e he
  rcases List.mem_append.1 he with h | h
  · exact p1 e h
  · exact p2 e h

theorem reselect_sub (env : Env) (bF : Bool) (s : State) :
    Sub (fun e => is_select e.cmd = true) s (reselect_on_failure env bF s).state := by
  unfold reselect_on_failure
  split
  · simp only []
    split <;> exact select_sub env [] true s
  · exact sub_refl _ _

theorem write_sector_start_sub (f : Flags) (env : Env) (wbz : Bool) (u : Nat) (bF : Bool)
    (s : State) : Sub auth_or_select s (write_sector_start f env wbz u bF s).state := by
  have hr : Sub auth_or_select s (reselect_on_failure env bF s).state :=
    sub_mono (reselect_sub env bF s) (fun e h => Or.inr h)
  unfold write_sector_start
  split
  · split
    · next o s1 heq => rw [heq] at hr; exact hr
    · next bF1 s1 heq =>
      rw [heq] at hr
      split
      · simp only []
        split <;> exact sub_trans hr (authenticate_sub f env u s1)
      · exact hr
  · exact sub_refl _ _

theorem trailer_payload (f : Flags) (u : Nat) (mp : Nat → Nat) (d : Nat → Nat → Nat)
    (ht : is_trailer_block u = true) :
    take_bytes (if f.bFormatCard then
      memcpy (memcpy (memcpy mp 0 (bytes default_key) 6) 6 (bytes default_acl) 4)
        10 (bytes default_key) 6
    else
      memcpy (memcpy (memcpy mp 0 (fun j => d u j) 6)
        6 (fun j => d u (6 + j)) 4) 10 (fun j => d u (10 + j)) 6) 16
    = write_payload f.bFormatCard u d := by
  cases h : f.bFormatCard
  · simp only [write_payload, Bool.false_and, Bool.false_eq_true, if_false]
    rfl
  · simp only [write_payload, ht, Bool.and_self, if_true]
    rfl

theorem data_payload (f : Flags) (u : Nat) (mp : Nat → Nat) (d : Nat → Nat → Nat)
    (ht : is_trailer_block u = false) :
    take_bytes (if (f.bFormatCard && u != 0) = true then memcpy mp 0 (fun _ => 0x00) 16
      else memcpy mp 0 (fun j => d u j) 16) 16
    = write_payload f.bFormatCard u d := by
  simp only [write_payload, ht, Bool.and_false, Bool.false_eq_true, if_false]
  split <;> rfl

theorem write_trailer_sub (f : Flags) (env : Env) (u : Nat) (bF : Bool) (s : State)
    (ht : is_trailer_block u = true) :
    Sub (fun e => e.cmd = .mifare .MC_WRITE (u % 256) (write_payload f.bFormatCard u s.mtDump)) s
      (write_trailer f env u bF s).state := by
  unfold write_trailer
  simp only [mifare_write_eq, trailer_payload f u s.mp s.mtDump ht]
  split <;> exact sub_trans (sub_set_mp _ _ _) (issue_sub env _ _)

theorem reinit_sub (env : Env) (bF : Bool) (s : State) :
    Sub (fun e => is_mifare e.cmd = false) s (reinit_after_block0 env bF s).state := by
  have h1 : Sub (fun e => is_mifare e.cmd = false) s (issue env .initiator_init s).2 :=
    sub_mono (issue_sub env _ s) (fun e h => by simp [h, is_mifare])
  have h2 := sub_trans h1 (sub_mono (select_sub env [] true (issue env .initiator_init s).2)
    (fun e h => by cases hc : e.cmd <;> simp_all [is_mifare, is_select]))
  unfold reinit_after_block0
  simp only []
  split
  · exact h1
  · split <;> exact h2

theorem write_data_sub (f : Flags) (env : Env) (u : Nat) (bF : Bool) (s : State)
    (ht : is_trailer_block u = false) :
    Sub (fun e => e.cmd = .mifare .MC_WRITE (u % 256) (write_payload f.bFormatCard u s.mtDump) ∨
        is_mifare e.cmd = false) s (write_data f env u bF s).state := by
  unfold write_data
  cases bF
  · simp only [mifare_write_eq, data_payload f u s.mp s.mtDump ht, Bool.not_false, if_true]
    generalize (if (f.bFormatCard && u != 0) = true then memcpy s.mp 0 (fun _ => 0x00) 16
      else memcpy s.mp 0 (fun j => s.mtDump u j) 16) = mp1
    have hw : Sub (fun e => e.cmd = .mifare .MC_WRITE (u % 256)
          (write_payload f.bFormatCard u s.mtDump) ∨ is_mifare e.cmd = false) s
        (issue env (.mifare .MC_WRITE (u % 256) (write_payload f.bFormatCard u s.mtDump))
          { s with mp := mp1 }).2 :=
      sub_trans (sub_set_mp _ _ _) (sub_mono (issue_sub env _ _) (fun e h => Or.inl h))
    split
    · exact sub_set_mp _ _ _
    · split
      · exact sub_trans hw (sub_mono (reinit_sub env _ _) (fun e h => Or.inr h))
      · exact hw
  · exact sub_refl _ _

theorem payload_ok_of_not_write (fmt : Bool) (d : Nat → Nat → Nat) (e : Event)
    (h : is_write e.cmd = false) : payload_ok fmt d e := by
  intro i p hc
  rw [hc] at h
  simp [is_write] at h

theorem not_write_of_auth_or_select (e : Event) (h : auth_or_select e) :
    is_write e.cmd = false := by
  rcases h with h | h <;> revert h <;> cases e.cmd <;> simp [is_auth, is_select, is_write]
  all_goals (rename_i mc _ _; cases mc <;> simp [is_auth, is_write])

theorem not_write_of_not_mifare (e : Event) (h : is_mifare e.cmd = false) :
    is_write e.cmd = false := by
  revert h; cases e.cmd <;> simp [is_mifare, is_write]

theorem payload_ok_of_eq (fmt : Bool) (d : Nat → Nat → Nat) (e : Event) (u : Nat)
    (h : e.cmd = .mifare .MC_WRITE u (write_payload fmt u d)) : payload_ok fmt d e := by
  intro i p hc
  rw [h] at hc
  injection hc with _ h2 h3
  rw [← h3, h2]

theorem tally_spec (f : Flags) (bF : Bool) (cnt : Nat) (s : State) :
    (tally f bF cnt s).state.trace = s.trace ∧ Kept s (tally f bF cnt s).state ∧
    Marks s (tally f bF cnt s).state := by
  unfold tally print_success_or_failure
  simp only []
  split <;> exact ⟨rfl, ⟨rfl, rfl, rfl⟩, ⟨[.mark bF], rfl, by simp⟩⟩

/-- What one iteration of the write loop does to the trace, the dump, the
unlock flags and the output: it issues selects and authentications, at most
one write command, and after it the re-initialisation of the reader. -/
theorem write_block_grows (f : Flags) (env : Env) (wbz : Bool) (u : Nat) (bF : Bool)
    (cnt : Nat) (s : State) (P : Event → Prop)
    (h1 : ∀ e, auth_or_select e → P e) (h2 : ∀ e, is_mifare e.cmd = false → P e)
    (h3 : ∀ e, e.cmd = .mifare .MC_WRITE (u % 256) (write_payload f.bFormatCard u s.mtDump) →
      P e) :
    Grows P s (write_block f env wbz u bF cnt s).state ∧
    Kept s (write_block f env wbz u bF cnt s).state ∧
    Marks s (write_block f env wbz u bF cnt s).state := by
  have hs : Sub P s (write_sector_start f env wbz u bF s).state :=
    sub_mono (write_sector_start_sub f env wbz u bF s) h1
  unfold write_block
  split
  · next o s1 heq =>
    rw [heq] at hs
    exact ⟨hs.1, (quiet_kept hs.2), marks_of_eq hs.2.2.2.2⟩
  · next bF1 s1 heq =>
    rw [heq] at hs
    have hd : s1.mtDump = s.mtDump := hs.2.1
    have hw : Sub P s1
        (if is_trailer_block u = true then write_trailer f env u bF1 s1
          else write_data f env u bF1 s1).state := by
      split
      · next ht =>
        refine sub_mono (write_trailer_sub f env u bF1 s1 ht) ?_
        intro e h
        rw [hd] at h
        exact h3 e h
      · next ht =>
        refine sub_mono (write_data_sub f env u bF1 s1 (by simpa using ht)) ?_
        intro e h
        rw [hd] at h
        rcases h with h | h
        · exact h3 e h
        · exact h2 e h
    have hsw := sub_trans hs hw
    split
    · next o s2 heq2 =>
      rw [heq2] at hsw
      exact ⟨hsw.1, (quiet_kept hsw.2), marks_of_eq hsw.2.2.2.2⟩
    · next bF2 s2 heq2 =>
      rw [heq2] at hsw
      have ht := tally_spec f bF2 cnt s2
      refine ⟨?_, kept_trans (quiet_kept hsw.2) ht.2.1, marks_trans (marks_of_eq hsw.2.2.2.2) ht.2.2⟩
      exact grows_trans hsw.1 (grows_of_eq _ ht.1)

theorem write_block_pass (f : Flags) (env : Env) (wbz : Bool) (u : Nat) (bF : Bool)
    (cnt : Nat) (s : State) (hu : u < 256) :
    Grows (payload_ok f.bFormatCard s.mtDump) s (write_block f env wbz u bF cnt s).state ∧
    Kept s (write_block f env wbz u bF cnt s).state ∧
    Marks s (write_block f env wbz u bF cnt s).state :=
  write_block_grows f env wbz u bF cnt s _
    (fun e h => payload_ok_of_not_write _ _ e (not_write_of_auth_or_select e h))
    (fun e h => payload_ok_of_not_write _ _ e (not_write_of_not_mifare e h))
    (fun e h => payload_ok_of_eq _ _ e u (by rwa [Nat.mod_eq_of_lt hu] at h))

theorem write_loop_pass (f : Flags) (env : Env) (wbz : Bool) :
    ∀ (n u : Nat) (bF : Bool) (cnt : Nat) (s : State), u + n ≤ 256 →
      Grows (payload_ok f.bFormatCard s.mtDump) s (write_loop f env wbz n u bF cnt s).2 ∧
      Kept s (write_loop f env wbz n u bF cnt s).2 := by
  intro n
  induction n with
  | zero => intro u bF cnt s _; exact ⟨grows_of_eq _ rfl, rfl, rfl, rfl⟩
  | succ n ih =>
    intro u bF cnt s hu
    have hb := write_block_pass f env wbz u bF cnt s (by omega)
    simp only [write_loop]
    split
    · next o s1 heq => rw [heq] at hb; exact ⟨hb.1, hb.2.1⟩
    · next a s1 heq =>
      rw [heq] at hb
      have h2 := ih (u + 1) a.1 a.2 s1 (by omega)
      have hd : s1.mtDump = s.mtDump := hb.2.1.1
      rw [hd] at h2
      exact ⟨grows_trans hb.1 h2.1, kept_trans hb.2.1 h2.2⟩

/-- The write loop only appends to the trace and keeps the dump and the
unlock flags, whatever the number of blocks. -/
theorem write_loop_mono (f : Flags) (env : Env) (wbz : Bool) :
    ∀ (n u : Nat) (bF : Bool) (cnt : Nat) (s : State),
      Grows (fun _ => True) s (write_loop f env wbz n u bF cnt s).2 ∧
      Kept s (write_loop f env wbz n u bF cnt s).2 := by
  intro n
  induction n with
  | zero => intro u bF cnt s; exact ⟨grows_of_eq _ rfl, rfl, rfl, rfl⟩
  | succ n ih =>
    intro u bF cnt s
    have hb := write_block_grows f env wbz u bF cnt s (fun _ => True)
      (fun _ _ => trivial) (fun _ _ => trivial) (fun _ _ => trivial)
    simp only [write_loop]
    split
    · next o s1 heq => rw [heq] at hb; exact ⟨hb.1, hb.2.1⟩
    · next a s1 heq =>
      rw [heq] at hb
      have h2 := ih (u + 1) a.1 a.2 s1
      exact ⟨grows_trans hb.1 h2.1, kept_trans hb.2.1 h2.2⟩

theorem unlock_commands_spec (env : Env) (s : State) :
    Grows (fun e => is_mifare e.cmd = false) s (unlock_commands env s) ∧
    (unlock_commands env s).mtDump = s.mtDump ∧ (unlock_commands env s).out = s.out := by
  unfold unlock_commands transmit_bits transmit_bytes
  simp only []
  have h1 := issue_grows env (.transceive_bits abtUnlock1 7) s
  have h2 := issue_grows env (.transceive_bytes abtUnlock2) (issue env (.transceive_bits abtUnlock1 7) s).2
  have h1' : Grows (fun e => is_mifare e.cmd = false) s (issue env (.transceive_bits abtUnlock1 7) s).2 :=
    grows_mono h1 (fun e h => by simp [h, is_mifare])
  have h2' := grows_trans h1' (grows_mono h2 (fun e h => by simp [h, is_mifare]))
  split
  · exact ⟨grows_trans h1' (grows_of_eq _ rfl), rfl, rfl⟩
  · split
    · exact ⟨grows_trans h2' (grows_of_eq _ rfl), rfl, rfl⟩
    · exact ⟨h2', rfl, rfl⟩

theorem unlock_card_spec (env : Env) (w : Bool) (s : State) :
    Grows (fun e => is_mifare e.cmd = false) s (unlock_card env w s).2 ∧
    (unlock_card env w s).2.mtDump = s.mtDump ∧ (unlock_card env w s).2.out = s.out := by
  have g : ∀ (c : Cmd) (s1 : State), is_mifare c = false →
      Grows (fun e => is_mifare e.cmd = false) s1 (issue env c s1).2 :=
    fun c s1 hc => grows_mono (issue_grows env c s1) (fun e h => by rw [h]; exact hc)
  have h1 := g (.set_property .NP_HANDLE_CRC false) s rfl
  have h2 := grows_trans h1 (g (.set_property .NP_EASY_FRAMING false) _ rfl)
  have h3 := grows_trans h2 (g (.transceive_bytes abtHalt) _ rfl)
  have hu := unlock_commands_spec env (issue env (.transceive_bytes abtHalt)
    (issue env (.set_property .NP_EASY_FRAMING false)
      (issue env (.set_property .NP_HANDLE_CRC false) s).2).2).2
  have h4 := grows_trans h3 hu.1
  unfold unlock_card transmit_bytes
  simp only []
  split
  · exact ⟨h1, rfl, rfl⟩
  · split
    · exact ⟨h2, rfl, rfl⟩
    · split
      · have hs := select_sub env (unlock_commands env (issue env (.transceive_bytes abtHalt)
          (issue env (.set_property .NP_EASY_FRAMING false)
          (issue env (.set_property .NP_HANDLE_CRC false) s).2).2).2).nt_uid false
          (unlock_commands env (issue env (.transceive_bytes abtHalt)
          (issue env (.set_property .NP_EASY_FRAMING false)
          (issue env (.set_property .NP_HANDLE_CRC false) s).2).2).2)
        have h5 := grows_trans h4 (grows_mono hs.1
          (fun e h => by revert h; cases e.cmd <;> simp [is_mifare, is_select]))
        split <;> exact ⟨h5, hs.2.1.trans hu.2.1, hs.2.2.2.2.trans hu.2.2⟩
      · have h5 := grows_trans h4 (g (.set_property .NP_HANDLE_CRC true) _ rfl)
        split
        · exact ⟨h5, hu.2.1, hu.2.2⟩
        · have h6 := grows_trans h5 (g (.set_property .NP_EASY_FRAMING true) _ rfl)
          split <;> exact ⟨h6, hu.2.1, hu.2.2⟩

theorem mem_new_events_of_grows {P : Event → Prop} {s s' : State} (h : Grows P s s')
    {e : Event} (he : e ∈ new_events s s') : P e := by
  obtain ⟨l, h1, h2⟩ := h
  rw [new_events_of_trace h1] at he
  exact h2 e he

/-- Claim C3.  Every write command issued by `write_card` for block `i`
carries the payload `write_payload bFormatCard i mtDump`, a function of the
format flag, the block index and the snapshot only: default keys and access
bits for a trailer and zeros for a data block other than block 0 when
formatting, the sixteen bytes of snapshot block `i` in every other case. -/
theorem C3_write_payload_fixed (f : Flags) (env : Env) (write_block_zero : Bool)
    (s0 : State) (hb : f.uiBlocks < 256) :
    ∀ e ∈ new_events s0 (write_card f env write_block_zero s0).2, ∀ i p,
      e.cmd = .mifare .MC_WRITE i p → p = write_payload f.bFormatCard i s0.mtDump := by
  have key : Grows (payload_ok f.bFormatCard s0.mtDump) s0
      (write_card f env write_block_zero s0).2 := by
    unfold write_card
    split
    · have hu := unlock_card_spec env true s0
      have hu' : Grows (payload_ok f.bFormatCard s0.mtDump) s0 (unlock_card env true s0).2 :=
        grows_mono hu.1 (fun e h => payload_ok_of_not_write _ _ e (not_write_of_not_mifare e h))
      simp only []
      split
      · exact hu'
      · have hl := (write_loop_pass f env write_block_zero (f.uiBlocks + 1) 0 false 0
          (unlock_card env true s0).2 (by omega)).1
        rw [hu.2.1] at hl
        exact grows_trans hu' hl
    · exact (write_loop_pass f env write_block_zero (f.uiBlocks + 1) 0 false 0 s0 (by omega)).1
  intro e he
  exact mem_new_events_of_grows key he

theorem write_card_of_start (f : Flags) (env : Env) (wbz : Bool) (s0 s1 : State)
    (h : write_start env wbz s0 = some s1) :
    write_card f env wbz s0 = write_loop f env wbz (f.uiBlocks + 1) 0 false 0 s1 ∧
    Grows (fun e => is_mifare e.cmd = false) s0 s1 ∧ s1.mtDump = s0.mtDump := by
  unfold write_start at h
  cases wbz
  · simp only [Bool.false_eq_true, if_false, Option.some.injEq] at h
    subst h
    exact ⟨by simp [write_card], grows_refl _ _, rfl⟩
  · simp only [if_true] at h
    have hu := unlock_card_spec env true s0
    split at h
    · exact absurd h (by simp)
    · next b hb =>
      simp only [Option.some.injEq] at h
      subst h
      exact ⟨by simp [write_card, hb], hu.1, hu.2.1⟩

theorem reselect_false (env : Env) (s : State) :
    reselect_on_failure env false s = .ok false s := by
  simp [reselect_on_failure]

theorem sector_start_false (f : Flags) (env : Env) (wbz : Bool) (u : Nat) (s : State)
    (bF : Bool) (s2 : State) (h : write_sector_start f env wbz u false s = .ok bF s2) :
    bF = false := by
  unfold write_sector_start at h
  simp only [reselect_false] at h
  split at h
  · split at h
    · split at h
      · exact absurd h (by simp)
      · injection h with h1 _; exact h1.symm
    · injection h with h1 _; exact h1.symm
  · injection h with h1 _; exact h1.symm

theorem bcc_check (a b c d e : Nat) :
    ((a ^^^ b ^^^ c ^^^ d ^^^ e) != 0) = true ↔ a ^^^ b ^^^ c ^^^ d ≠ e := by
  simp [Nat.xor_eq_zero]

theorem tally_trace (f : Flags) (bF : Bool) (cnt : Nat) (s : State) :
    (tally f bF cnt s).state.trace = s.trace := (tally_spec f bF cnt s).1

/-- Block 0 with a wrong BCC: the data branch returns false without a
command. -/
theorem write_data_bad_bcc (f : Flags) (env : Env) (s : State)
    (h : s.mtDump 0 0 ^^^ s.mtDump 0 1 ^^^ s.mtDump 0 2 ^^^ s.mtDump 0 3 ≠ s.mtDump 0 4) :
    ∃ s', write_data f env 0 false s = .stop (.ret false) s' ∧ s'.trace = s.trace := by
  have hb := (bcc_check (s.mtDump 0 0) (s.mtDump 0 1) (s.mtDump 0 2) (s.mtDump 0 3)
    (s.mtDump 0 4)).2 h
  refine ⟨{ s with mp := memcpy s.mp 0 (fun j => s.mtDump 0 j) 16 }, ?_, rfl⟩
  unfold write_data
  simp only [Bool.not_false, if_true, bne_self_eq_false, Bool.and_false, Bool.false_eq_true,
    if_false, beq_self_eq_true, Bool.true_and]
  have h5 : ∀ j, j < 16 → memcpy s.mp 0 (fun j => s.mtDump 0 j) 16 j = s.mtDump 0 j := by
    intro j hj; simp [memcpy, hj]
  rw [h5 0 (by decide), h5 1 (by decide), h5 2 (by decide), h5 3 (by decide),
    h5 4 (by decide), hb]
  simp

/-- Block 0 with a right BCC: the data branch issues the write command with
the sixteen bytes of the snapshot. -/
theorem write_data_good_bcc (f : Flags) (env : Env) (s : State)
    (h : s.mtDump 0 0 ^^^ s.mtDump 0 1 ^^^ s.mtDump 0 2 ^^^ s.mtDump 0 3 = s.mtDump 0 4) :
    ∃ r l, (write_data f env 0 false s).state.trace
      = s.trace ++ ⟨.mifare .MC_WRITE 0 (take_bytes (s.mtDump 0) 16), r⟩ :: l := by
  have hb : ((s.mtDump 0 0 ^^^ s.mtDump 0 1 ^^^ s.mtDump 0 2 ^^^ s.mtDump 0 3 ^^^ s.mtDump 0 4)
      != 0) = false := by
    rw [← Bool.not_eq_true, bcc_check]; simpa using h
  have hp : take_bytes (memcpy s.mp 0 (fun j => s.mtDump 0 j) 16) 16
      = take_bytes (s.mtDump 0) 16 := rfl
  unfold write_data
  simp only [Bool.not_false, if_true, bne_self_eq_false, Bool.and_false, Bool.false_eq_true,
    if_false, beq_self_eq_true, Bool.true_and, mifare_write_eq, hp, Nat.zero_mod]
  have h5 : ∀ j, j < 16 → memcpy s.mp 0 (fun j => s.mtDump 0 j) 16 j = s.mtDump 0 j := by
    intro j hj; simp [memcpy, hj]
  rw [h5 0 (by decide), h5 1 (by decide), h5 2 (by decide), h5 3 (by decide),
    h5 4 (by decide), hb]
  simp only [Bool.false_eq_true, if_false]
  split
  · have hr := (reinit_sub env
      (if (!(env s.trace (.mifare .MC_WRITE 0 (take_bytes (s.mtDump 0) 16))).ok) = true
        then true else false)
      (issue env (.mifare .MC_WRITE 0 (take_bytes (s.mtDump 0) 16))
        { s with mp := memcpy s.mp 0 (fun j => s.mtDump 0 j) 16 }).2).1
    obtain ⟨l, hl, _⟩ := hr
    exact ⟨env s.trace (.mifare .MC_WRITE 0 (take_bytes (s.mtDump 0) 16)), l,
      by rw [hl]; simp⟩
  · exact ⟨_, [], rfl⟩

theorem write_loop_succ_trace (f : Flags) (env : Env) (wbz : Bool) (n u : Nat) (bF : Bool)
    (cnt : Nat) (s : State) :
    ∃ l, (write_loop f env wbz (n + 1) u bF cnt s).2.trace
      = (write_block f env wbz u bF cnt s).state.trace ++ l := by
  simp only [write_loop]
  split
  · next o s1 heq => exact ⟨[], by simp [heq, Res.state]⟩
  · next a s1 heq =>
    obtain ⟨l, hl, _⟩ := (write_loop_mono f env wbz n (u + 1) a.1 a.2 s1).1
    exact ⟨l, by simp [heq, Res.state, hl]⟩

theorem write_block0_data (f : Flags) (env : Env) (wbz : Bool) (cnt : Nat) (s1 s2 : State)
    (bF : Bool) (h : write_sector_start f env wbz 0 false s1 = .ok bF s2) :
    (write_block f env wbz 0 false cnt s1).state.trace
      = (write_data f env 0 false s2).state.trace ∧
    (∀ s', write_data f env 0 false s2 = .stop (.ret false) s' →
      write_block f env wbz 0 false cnt s1 = .stop (.ret false) s') := by
  have hbF := sector_start_false f env wbz 0 s1 bF s2 h
  subst hbF
  have ht : is_trailer_block 0 = false := by decide
  unfold write_block
  simp only [h, ht, Bool.false_eq_true, if_false]
  constructor
  · split
    · next heq => simp [heq, Res.state]
    · next heq => rw [heq]; exact tally_trace _ _ _ _
  · intro s' hs
    simp only [hs]

/-- The BCC check of block 0 in `write_card`: if the pass gets past the
authentication step of block 0, then when the XOR of bytes 0..3 of snapshot
block 0 differs from byte 4 it returns false and has issued no write
command, and when it equals byte 4 a write command for block 0 with the
sixteen bytes of the snapshot block is issued. -/
theorem write_card_block0_checksum (f : Flags) (env : Env) (write_block_zero : Bool) (s0 : State)
    (hp : passes_block0_auth f env write_block_zero s0 = true) :
    (s0.mtDump 0 0 ^^^ s0.mtDump 0 1 ^^^ s0.mtDump 0 2 ^^^ s0.mtDump 0 3 ≠ s0.mtDump 0 4 →
      (write_card f env write_block_zero s0).1 = .ret false ∧
      ∀ e ∈ new_events s0 (write_card f env write_block_zero s0).2, is_write e.cmd = false) ∧
    (s0.mtDump 0 0 ^^^ s0.mtDump 0 1 ^^^ s0.mtDump 0 2 ^^^ s0.mtDump 0 3 = s0.mtDump 0 4 →
      ∃ e ∈ new_events s0 (write_card f env write_block_zero s0).2,
        e.cmd = .mifare .MC_WRITE 0 (take_bytes (s0.mtDump 0) 16)) := by
  unfold passes_block0_auth at hp
  split at hp
  · exact absurd hp (by simp)
  · next s1 hs1 =>
    split at hp
    · next bF s2 hs2 =>
      obtain ⟨hc, hg1, hd1⟩ := write_card_of_start f env write_block_zero s0 s1 hs1
      have hsub := write_sector_start_sub f env write_block_zero 0 false s1
      rw [hs2] at hsub
      have hd2 : s2.mtDump = s0.mtDump := hsub.2.1.trans hd1
      have hg2 : Grows (fun e => is_write e.cmd = false) s0 s2 :=
        grows_trans (grows_mono hg1 not_write_of_not_mifare)
          (grows_mono hsub.1 not_write_of_auth_or_select)
      obtain ⟨hb1, hb2⟩ := write_block0_data f env write_block_zero 0 s1 s2 bF hs2
      rw [hc]
      constructor
      · intro hbcc
        rw [← hd2] at hbcc
        obtain ⟨s', hw, htr⟩ := write_data_bad_bcc f env s2 hbcc
        have hblk := hb2 s' hw
        simp only [write_loop, hblk]
        refine ⟨trivial, ?_⟩
        intro e he
        exact mem_new_events_of_grows (grows_trans hg2 (grows_of_eq _ htr)) he
      · intro hbcc
        rw [← hd2] at hbcc
        obtain ⟨r, l, hw⟩ := write_data_good_bcc f env s2 hbcc
        obtain ⟨l', hl'⟩ := write_loop_succ_trace f env write_block_zero f.uiBlocks 0 false 0 s1
        obtain ⟨l0, hl0, _⟩ := hg2
        rw [hb1, hw, hl0] at hl'
        refine ⟨⟨.mifare .MC_WRITE 0 (take_bytes (s2.mtDump 0) 16), r⟩, ?_, by rw [hd2]⟩
        rw [new_events_of_trace (l := l0 ++ ⟨.mifare .MC_WRITE 0 (take_bytes (s2.mtDump 0) 16), r⟩
          :: l ++ l') (by rw [hl']; simp)]
        simp
    · exact absurd hp (by simp)

/-- A run of claim C3: `w a` with a blank snapshot writes block 3 with the
snapshot bytes. -/
theorem C3_write_payload_fixed_witness :
    flags_w.uiBlocks < 256 ∧
    (⟨.mifare .MC_WRITE 3 (List.replicate 16 0), ⟨true, List.replicate 16 0⟩⟩ : Event)
      ∈ new_events (state0 blank blank)
          (write_card flags_w env_accept false (state0 blank blank)).2 ∧
    List.replicate 16 0 = write_payload flags_w.bFormatCard 3 blank :=
  ⟨by decide, by decide,
    C3_write_payload_fixed flags_w env_accept false (state0 blank blank) (by decide)
      ⟨.mifare .MC_WRITE 3 (List.replicate 16 0), ⟨true, List.replicate 16 0⟩⟩
      (by decide) 3 _ rfl⟩

/-- A run of claim C8: a card keyed to the third built-in key is
authenticated by the third command, after two reselects; a card that
rejects every key gets nine authentication commands. -/
theorem C8_guess_candidates_witness :
    (authenticate flags_w env_third_key 4 (state0 blank blank)).1 = true ∧
    ((new_events (state0 blank blank)
      (authenticate flags_w env_third_key 4 (state0 blank blank)).2).map
        Event.cmd).countP is_auth = 3 ∧
    ((new_events (state0 blank blank)
      (authenticate flags_w env_third_key 4 (state0 blank blank)).2).map
        Event.cmd).countP is_select = 2 ∧
    (authenticate flags_w (env_reject is_auth) 4 (state0 blank blank)).1 = false := by
  have h := C8_guess_candidates flags_w env_third_key 4 (state0 blank blank) rfl
    (fun _ _ => rfl)
  have h' := C8_guess_candidates flags_w (env_reject is_auth) 4 (state0 blank blank) rfl
    (fun _ _ => rfl)
  have h1 := h.1 2 (by decide)
    (by intro _ j hj; interval_cases j <;> rfl) (fun _ => rfl)
  have h2 := h'.2 (by intro _ j hj; interval_cases j <;> rfl)
  exact ⟨h1.1, h1.2.2.1, h1.2.2.2.1, h2.1⟩

/-- A run of claim C9: with a key file, block 5 is authenticated by one
command carrying Key A of trailer block 7. -/
theorem C9_keyfile_single_command_witness :
    flags_w_keyfile.bUseKeyFile = true ∧
    new_events (state0 keyfile_image blank)
      (authenticate flags_w_keyfile env_accept 5 (state0 keyfile_image blank)).2
      = [⟨.mifare .MC_AUTH_A 5 [0xa0, 0xa1, 0xa2, 0xa3, 0xa4, 0xa5, 0x01, 0x02, 0x03, 0x04],
          ⟨true, List.replicate 16 0⟩⟩] :=
  ⟨rfl, (C9_keyfile_single_command flags_w_keyfile env_accept 5
    (state0 keyfile_image blank) rfl).1⟩

/-- Claim C10.  For every 32-bit block index `i`, with
`t = get_trailer_block i` and `s = t - 3` when `i < 128`, `s = t - 15`
otherwise (the subtraction does not wrap): `t` is a trailer block, `s` is
the first block of a sector, and `s <= i <= t`. -/
theorem C10_sector_addressing (i : Nat) (hi : i < 2 ^ 32) :
    is_trailer_block (get_trailer_block i) = true ∧
    (if i < 128 then 3 else 15) ≤ get_trailer_block i ∧
    is_first_block (get_trailer_block i - (if i < 128 then 3 else 15)) = true ∧
    get_trailer_block i - (if i < 128 then 3 else 15) ≤ i ∧
    i ≤ get_trailer_block i := by
  unfold is_trailer_block is_first_block get_trailer_block
  by_cases h : i < 128
  · simp only [h, if_true]
    have h1 : (i + (3 - i % 4)) % 2 ^ 32 = i + (3 - i % 4) := Nat.mod_eq_of_lt (by omega)
    rw [h1]
    have h2 : i + (3 - i % 4) < 128 := by omega
    have h3 : i + (3 - i % 4) - 3 < 128 := by omega
    simp only [h2, h3, if_true, beq_iff_eq]
    omega
  · simp only [h, if_false]
    have h1 : (i + (15 - i % 16)) % 2 ^ 32 = i + (15 - i % 16) := Nat.mod_eq_of_lt (by omega)
    rw [h1]
    have h2 : ¬ (i + (15 - i % 16) < 128) := by omega
    have h3 : ¬ (i + (15 - i % 16) - 15 < 128) := by omega
    simp only [h2, h3, if_false, beq_iff_eq]
    omega

/-- A run of claim C10 on both sides of block 128 and at the last 32-bit
index. -/
theorem C10_sector_addressing_witness :
    (126 < 2 ^ 32 ∧ get_trailer_block 126 = 127 ∧ is_first_block (127 - 3) = true) ∧
    (130 < 2 ^ 32 ∧ get_trailer_block 130 = 143 ∧ is_first_block (143 - 15) = true) ∧
    is_trailer_block (get_trailer_block (2 ^ 32 - 1)) = true :=
  ⟨⟨by decide, by decide, (C10_sector_addressing 126 (by decide)).2.2.1⟩,
   ⟨by decide, by decide, (C10_sector_addressing 130 (by decide)).2.2.1⟩,
   (C10_sector_addressing (2 ^ 32 - 1) (by decide)).1⟩

theorem clean_refl (s : State) : Clean s s := grows_refl _ s

theorem clean_of_eq {s s' : State} (h : s'.trace = s.trace) : Clean s s' := grows_of_eq _ h

theorem clean_trans {s1 s2 s3 : State} (h1 : Clean s1 s2) (h2 : Clean s2 s3) : Clean s1 s3 :=
  grows_trans h1 h2

theorem failed_rw_of_not_mifare (e : Event) (h : is_mifare e.cmd = false) :
    failed_rw e = false := by
  unfold failed_rw
  revert h
  cases e.cmd <;> simp [is_mifare]

theorem failed_rw_of_auth_or_select (e : Event) (h : auth_or_select e) :
    failed_rw e = false := by
  unfold failed_rw
  rcases h with h | h <;> revert h <;> cases e.cmd <;> simp [is_auth, is_select]
  all_goals (rename_i mc _ _; cases mc <;> simp [is_auth])

theorem clean_of_sub_auth {s s' : State} (h : Sub auth_or_select s s') : Clean s s' :=
  grows_mono h.1 failed_rw_of_auth_or_select

theorem fail_last_prepend {s0 s s' : State} (h1 : Clean s0 s) (h2 : FailLast s s') :
    FailLast s0 s' := by
  obtain ⟨l, hl, hp⟩ := h1
  obtain ⟨pre, e, he, hpre, hf⟩ := h2
  refine ⟨l ++ pre, e, by rw [he, hl]; simp, ?_, hf⟩
  intro x hx
  rcases List.mem_append.1 hx with h | h
  · exact hp x h
  · exact hpre x h

theorem fail_last_of_eq {s s' s'' : State} (h : FailLast s s') (ht : s''.trace = s'.trace) :
    FailLast s s'' := by
  obtain ⟨pre, e, he, hpre, hf⟩ := h
  exact ⟨pre, e, by rw [ht, he], hpre, hf⟩

theorem fail_block0_prepend {s0 s s' : State} (h1 : Clean s0 s) (h2 : FailBlock0 s s') :
    FailBlock0 s0 s' := by
  obtain ⟨l, hl, hp⟩ := h1
  obtain ⟨pre, e, post, he, hpre, hf, hpost, hc, hd⟩ := h2
  refine ⟨l ++ pre, e, post, by rw [he, hl]; simp, ?_, hf, hpost, hc, hd⟩
  intro x hx
  rcases List.mem_append.1 hx with h | h
  · exact hp x h
  · exact hpre x h

theorem fail_block0_of_eq {s s' s'' : State} (h : FailBlock0 s s')
    (ht : s''.trace = s'.trace) (hd : s''.dWrite = s'.dWrite) : FailBlock0 s s'' := by
  obtain ⟨pre, e, post, he, hpre, hf, hpost, hc, hdw⟩ := h
  exact ⟨pre, e, post, by rw [ht, he], hpre, hf, hpost, hc, by rw [hd, hdw]⟩

theorem wfail_prepend {s0 s s' : State} {o : Outcome} (h1 : Clean s0 s) (h2 : WFail s s' o) :
    WFail s0 s' o := by
  rcases h2 with ⟨ho, h⟩ | ⟨h, ho⟩
  · exact Or.inl ⟨ho, fail_last_prepend h1 h⟩
  · exact Or.inr ⟨fail_block0_prepend h1 h, ho⟩

theorem wfail_of_eq {s s' s'' : State} {o : Outcome} (h : WFail s s' o)
    (ht : s''.trace = s'.trace) (hd : s''.dWrite = s'.dWrite) : WFail s s'' o := by
  rcases h with ⟨ho, h⟩ | ⟨h, ho⟩
  · exact Or.inl ⟨ho, fail_last_of_eq h ht⟩
  · exact Or.inr ⟨fail_block0_of_eq h ht hd, ho⟩

/-- The read command: its event, and whether it is a failed one. -/
theorem read_cmd_event (env : Env) (b : Nat) (s : State) :
    ∃ e, (nfc_initiator_mifare_cmd env .MC_READ b s).2.trace = s.trace ++ [e] ∧
      e.cmd = .mifare .MC_READ (b % 256) [] ∧
      failed_rw e = !(nfc_initiator_mifare_cmd env .MC_READ b s).1 ∧
      (nfc_initiator_mifare_cmd env .MC_READ b s).1 = read_ok e.resp := by
  have h := mifare_read_spec env b s
  refine ⟨⟨.mifare .MC_READ (b % 256) [], env s.trace (.mifare .MC_READ (b % 256) [])⟩,
    h.1, rfl, ?_, h.2.1⟩
  simp only [failed_rw]
  rw [h.2.1]

/-- The write command: its event, and whether it is a failed one. -/
theorem write_cmd_event (env : Env) (b : Nat) (s : State) :
    ∃ e, (nfc_initiator_mifare_cmd env .MC_WRITE b s).2.trace = s.trace ++ [e] ∧
      e.cmd = .mifare .MC_WRITE (b % 256) (take_bytes s.mp 16) ∧
      failed_rw e = !(nfc_initiator_mifare_cmd env .MC_WRITE b s).1 := by
  have h := mifare_write_spec env b s
  refine ⟨⟨.mifare .MC_WRITE (b % 256) (take_bytes s.mp 16),
    env s.trace (.mifare .MC_WRITE (b % 256) (take_bytes s.mp 16))⟩, h.1, rfl, ?_⟩
  simp only [failed_rw]
  rw [h.2.1]

/-- A read or write command alone: clean when it succeeds, a failed last
command otherwise. -/
theorem cmd_clean_or_fail {s s' : State} {e : Event} {b : Bool}
    (ht : s'.trace = s.trace ++ [e]) (hf : failed_rw e = !b) :
    (b = true → Clean s s') ∧ (b = false → FailLast s s') := by
  constructor
  · intro hb
    exact grows_one _ e ht (by rw [hf, hb]; rfl)
  · intro hb
    exact ⟨[], e, by simpa using ht, by simp, by rw [hf, hb]; rfl⟩

theorem store_data_trace (b : Nat) (s : State) :
    (store_data b s).trace = s.trace ∧ (store_data b s).out = s.out := ⟨rfl, rfl⟩

theorem store_trailer_trace (b : Nat) (s : State) :
    (store_trailer b s).trace = s.trace ∧ (store_trailer b s).out = s.out := ⟨rfl, rfl⟩

theorem read_trailer_cmd_inner (env : Env) (ru : Bool) (k : Nat) (bF : Bool) (s : State) :
    (Clean s (read_trailer_cmd env ru k bF s).state ∨
      (read_trailer_cmd env ru k bF s = .ok true (read_trailer_cmd env ru k bF s).state ∧
        FailLast s (read_trailer_cmd env ru k bF s).state)) ∧
    (read_trailer_cmd env ru k bF s).state.out = s.out := by
  obtain ⟨e, ht, _, hf, _⟩ := read_cmd_event env k s
  have ho := (mifare_cmd_sub env .MC_READ k s).2.2.2.2
  have hc := cmd_clean_or_fail ht hf
  unfold read_trailer_cmd
  simp only []
  split
  · next h1 =>
    split
    · exact ⟨Or.inl (clean_trans (hc.1 h1) (clean_of_eq rfl)), ho⟩
    · exact ⟨Or.inl (clean_trans (hc.1 h1) (clean_of_eq rfl)), ho⟩
  · next h1 =>
    exact ⟨Or.inr ⟨rfl, hc.2 (by simpa using h1)⟩, ho⟩

theorem read_data_inner (env : Env) (k : Nat) (bF : Bool) (s : State) :
    (Clean s (read_data env k bF s).state ∨
      (read_data env k bF s = .ok true (read_data env k bF s).state ∧
        FailLast s (read_data env k bF s).state)) ∧
    (read_data env k bF s).state.out = s.out := by
  obtain ⟨e, ht, _, hf, _⟩ := read_cmd_event env k s
  have ho := (mifare_cmd_sub env .MC_READ k s).2.2.2.2
  have hc := cmd_clean_or_fail ht hf
  unfold read_data
  split
  · simp only []
    split
    · next h1 => exact ⟨Or.inl (clean_trans (hc.1 h1) (clean_of_eq rfl)), ho⟩
    · next h1 => exact ⟨Or.inr ⟨rfl, hc.2 (by simpa using h1)⟩, ho⟩
  · exact ⟨Or.inl (clean_refl s), rfl⟩

theorem read_trailer_inner (f : Flags) (env : Env) (ru : Bool) (k : Nat) (bF : Bool)
    (s : State) :
    (Clean s (read_trailer f env ru k bF s).state ∨
      (read_trailer f env ru k bF s = .ok true (read_trailer f env ru k bF s).state ∧
        FailLast s (read_trailer f env ru k bF s).state)) ∧
    (read_trailer f env ru k bF s).state.out = s.out := by
  have hr := reselect_sub env bF s
  unfold read_trailer
  split
  · next o s1 heq =>
    rw [heq] at hr
    exact ⟨Or.inl (grows_mono hr.1 (fun e h => failed_rw_of_auth_or_select e (Or.inr h))),
      hr.2.2.2.2⟩
  · next bF1 s1 heq =>
    rw [heq] at hr
    have hc1 : Clean s s1 :=
      grows_mono hr.1 (fun e h => failed_rw_of_auth_or_select e (Or.inr h))
    have ho1 : s1.out = s.out := hr.2.2.2.2
    split
    · have hi := read_trailer_cmd_inner env ru k bF1 s1
      refine ⟨?_, hi.2.trans ho1⟩
      rcases hi.1 with h | ⟨h1, h2⟩
      · exact Or.inl (clean_trans hc1 h)
      · exact Or.inr ⟨h1, fail_last_prepend hc1 h2⟩
    · have ha := authenticate_sub f env k s1
      have hc2 : Clean s (authenticate f env k s1).2 := clean_trans hc1 (clean_of_sub_auth ha)
      have ho2 : (authenticate f env k s1).2.out = s.out := ha.2.2.2.2.trans ho1
      simp only []
      split
      · exact ⟨Or.inl hc2, ho2⟩
      · have hi := read_trailer_cmd_inner env ru k bF1 (authenticate f env k s1).2
        refine ⟨?_, hi.2.trans ho2⟩
        rcases hi.1 with h | ⟨h1, h2⟩
        · exact Or.inl (clean_trans hc2 h)
        · exact Or.inr ⟨h1, fail_last_prepend hc2 h2⟩

theorem tally_intolerant (f : Flags) (cnt : Nat) (s : State)
    (htol : f.bTolerateFailures = false) :
    tally f true cnt s = .stop (.ret false) (tally f true cnt s).state := by
  simp [tally, htol, Res.state]

theorem read_block_fail (f : Flags) (env : Env) (ru : Bool) (k : Nat) (bF : Bool)
    (cnt : Nat) (s : State) (htol : f.bTolerateFailures = false) :
    (Clean s (read_block f env ru k bF cnt s).state ∨
      (read_block f env ru k bF cnt s = .stop (.ret false) (read_block f env ru k bF cnt s).state ∧
        FailLast s (read_block f env ru k bF cnt s).state)) ∧
    Marks s (read_block f env ru k bF cnt s).state := by
  have hi : (Clean s (if is_trailer_block k = true then read_trailer f env ru k bF s
        else read_data env k bF s).state ∨
      ((if is_trailer_block k = true then read_trailer f env ru k bF s
        else read_data env k bF s) = .ok true (if is_trailer_block k = true
          then read_trailer f env ru k bF s else read_data env k bF s).state ∧
        FailLast s (if is_trailer_block k = true then read_trailer f env ru k bF s
          else read_data env k bF s).state)) ∧
      (if is_trailer_block k = true then read_trailer f env ru k bF s
        else read_data env k bF s).state.out = s.out := by
    split
    · exact read_trailer_inner f env ru k bF s
    · exact read_data_inner env k bF s
  unfold read_block
  generalize (if is_trailer_block k = true then read_trailer f env ru k bF s
        else read_data env k bF s) = R at hi
  cases R with
  | stop o s1 =>
    simp only [Res.state] at hi ⊢
    refine ⟨?_, marks_of_eq hi.2⟩
    rcases hi.1 with h | ⟨h, _⟩
    · exact Or.inl h
    · exact absurd h (by simp)
  | ok bF1 s1 =>
    simp only [Res.state] at hi
    have ht := tally_spec f bF1 cnt s1
    simp only []
    refine ⟨?_, marks_trans (marks_of_eq hi.2) ht.2.2⟩
    rcases hi.1 with h | ⟨h, h2⟩
    · exact Or.inl (clean_trans h (clean_of_eq ht.1))
    · injection h with hb _
      subst hb
      exact Or.inr ⟨tally_intolerant f cnt s1 htol, fail_last_of_eq h2 ht.1⟩

theorem finish_spec (f : Flags) (cnt : Nat) (s : State) :
    (finish f cnt s).1 = .ret true ∧ (finish f cnt s).2.trace = s.trace ∧
    Kept s (finish f cnt s).2 := ⟨rfl, rfl, rfl, rfl, rfl⟩

theorem read_loop_fail (f : Flags) (env : Env) (ru : Bool)
    (htol : f.bTolerateFailures = false) :
    ∀ (k : Nat) (bF : Bool) (cnt : Nat) (s : State),
      (Clean s (read_loop f env ru k bF cnt s).2 ∨
        ((read_loop f env ru k bF cnt s).1 = .ret false ∧
          FailLast s (read_loop f env ru k bF cnt s).2)) ∧
      ((read_loop f env ru k bF cnt s).1 = .ret true ∨
        Marks s (read_loop f env ru k bF cnt s).2) := by
  intro k
  induction k with
  | zero =>
    intro bF cnt s
    have hb := read_block_fail f env ru 0 bF cnt s htol
    simp only [read_loop]
    split
    · next o s1 heq =>
      rw [heq] at hb
      simp only [Res.state] at hb
      refine ⟨?_, Or.inr hb.2⟩
      rcases hb.1 with h | ⟨h, h2⟩
      · exact Or.inl h
      · injection h with ho _
        exact Or.inr ⟨ho, h2⟩
    · next a s1 heq =>
      rw [heq] at hb
      simp only [Res.state] at hb
      refine ⟨?_, Or.inl rfl⟩
      rcases hb.1 with h | ⟨h, _⟩
      · exact Or.inl (clean_trans h (clean_of_eq rfl))
      · exact absurd h (by simp)
  | succ k ih =>
    intro bF cnt s
    have hb := read_block_fail f env ru (k + 1) bF cnt s htol
    simp only [read_loop]
    split
    · next o s1 heq =>
      rw [heq] at hb
      simp only [Res.state] at hb
      refine ⟨?_, Or.inr hb.2⟩
      rcases hb.1 with h | ⟨h, h2⟩
      · exact Or.inl h
      · injection h with ho _
        exact Or.inr ⟨ho, h2⟩
    · next a s1 heq =>
      rw [heq] at hb
      simp only [Res.state] at hb
      have h2 := ih a.1 a.2 s1
      have hc : Clean s s1 := by
        rcases hb.1 with h | ⟨h, _⟩
        · exact h
        · exact absurd h (by simp)
      constructor
      · rcases h2.1 with h | ⟨h, h3⟩
        · exact Or.inl (clean_trans hc h)
        · exact Or.inr ⟨h, fail_last_prepend hc h3⟩
      · rcases h2.2 with h | h
        · exact Or.inl h
        · exact Or.inr (marks_trans hb.2 h)

theorem read_card_fail (f : Flags) (env : Env) (ru : Bool) (s0 : State)
    (htol : f.bTolerateFailures = false) :
    (Clean s0 (read_card f env ru s0).2 ∨
      ((read_card f env ru s0).1 = .ret false ∧ FailLast s0 (read_card f env ru s0).2)) ∧
    ((read_card f env ru s0).1 = .ret true ∨ Marks s0 (read_card f env ru s0).2) := by
  unfold read_card
  split
  · have hu := unlock_card_spec env false s0
    have hc : Clean s0 (unlock_card env false s0).2 :=
      grows_mono hu.1 failed_rw_of_not_mifare
    simp only []
    split
    · exact ⟨Or.inl hc, Or.inr (marks_of_eq hu.2.2)⟩
    · have hl := read_loop_fail f env
        (if (unlock_card env false s0).2.dWrite = true then false else ru) htol
        f.uiBlocks false 0 (unlock_card env false s0).2
      constructor
      · rcases hl.1 with h | ⟨h, h3⟩
        · exact Or.inl (clean_trans hc h)
        · exact Or.inr ⟨h, fail_last_prepend hc h3⟩
      · rcases hl.2 with h | h
        · exact Or.inl h
        · exact Or.inr (marks_trans (marks_of_eq hu.2.2) h)
  · exact read_loop_fail f env ru htol f.uiBlocks false 0 s0

theorem quiet_write_cmd (env : Env) (u : Nat) (s : State) (mp1 : Nat → Nat) :
    Quiet s (nfc_initiator_mifare_cmd env .MC_WRITE u { s with mp := mp1 }).2 :=
  (sub_trans (sub_set_mp (fun _ => True) s mp1)
    (sub_mono (mifare_cmd_sub env .MC_WRITE u { s with mp := mp1 }) (fun _ _ => trivial))).2

theorem write_trailer_inner (f : Flags) (env : Env) (u : Nat) (bF : Bool) (s : State) :
    (Clean s (write_trailer f env u bF s).state ∨
      (write_trailer f env u bF s = .ok true (write_trailer f env u bF s).state ∧
        FailLast s (write_trailer f env u bF s).state)) ∧
    Quiet s (write_trailer f env u bF s).state := by
  have hq : Quiet s (write_trailer f env u bF s).state := by
    unfold write_trailer
    simp only []
    generalize (if f.bFormatCard = true then
      memcpy (memcpy (memcpy s.mp 0 (bytes default_key) 6) 6 (bytes default_acl) 4)
        10 (bytes default_key) 6
    else
      memcpy (memcpy (memcpy s.mp 0 (fun j => s.mtDump u j) 6)
        6 (fun j => s.mtDump u (6 + j)) 4) 10 (fun j => s.mtDump u (10 + j)) 6) = mp1
    split <;> exact quiet_write_cmd env u s mp1
  refine ⟨?_, hq⟩
  unfold write_trailer
  simp only []
  generalize (if f.bFormatCard = true then
      memcpy (memcpy (memcpy s.mp 0 (bytes default_key) 6) 6 (bytes default_acl) 4)
        10 (bytes default_key) 6
    else
      memcpy (memcpy (memcpy s.mp 0 (fun j => s.mtDump u j) 6)
        6 (fun j => s.mtDump u (6 + j)) 4) 10 (fun j => s.mtDump u (10 + j)) 6) = mp1
  obtain ⟨e, ht, _, hf⟩ := write_cmd_event env u { s with mp := mp1 }
  have hc := cmd_clean_or_fail (s := s) ht hf
  split
  · next h1 => exact Or.inr ⟨rfl, hc.2 (by simpa using h1)⟩
  · next h1 => exact Or.inl (hc.1 (by simpa using h1))

theorem reinit_shape (env : Env) (bF : Bool) (s : State) :
    (reinit_after_block0 env bF s = .stop .exit (reinit_after_block0 env bF s).state ∨
      reinit_after_block0 env bF s = .stop (.ret false) (reinit_after_block0 env bF s).state ∨
      reinit_after_block0 env bF s = .ok bF (reinit_after_block0 env bF s).state) ∧
    ∃ post, (reinit_after_block0 env bF s).state.trace = s.trace ++ post ∧
      ∀ x ∈ post, is_mifare x.cmd = false := by
  refine ⟨?_, (reinit_sub env bF s).1⟩
  unfold reinit_after_block0
  simp only []
  split
  · exact Or.inl rfl
  · split
    · exact Or.inr (Or.inl rfl)
    · exact Or.inr (Or.inr rfl)

theorem write_data_inner (f : Flags) (env : Env) (u : Nat) (bF : Bool) (s : State) :
    (Clean s (write_data f env u bF s).state ∨
      ∃ o, pending (write_data f env u bF s) o ∧ WFail s (write_data f env u bF s).state o) ∧
    Quiet s (write_data f env u bF s).state := by
  have hq : Quiet s (write_data f env u bF s).state := by
    unfold write_data
    cases bF
    · simp only [Bool.not_false, if_true]
      generalize (if (f.bFormatCard && u != 0) = true then memcpy s.mp 0 (fun _ => 0x00) 16
        else memcpy s.mp 0 (fun j => s.mtDump u j) 16) = mp1
      split
      · exact ⟨rfl, rfl, rfl, rfl⟩
      · split
        · exact quiet_trans (quiet_write_cmd env u s mp1) (reinit_sub env _ _).2
        · exact quiet_write_cmd env u s mp1
    · exact quiet_refl s
  refine ⟨?_, hq⟩
  unfold write_data
  cases bF
  · simp only [Bool.not_false, if_true]
    generalize (if (f.bFormatCard && u != 0) = true then memcpy s.mp 0 (fun _ => 0x00) 16
      else memcpy s.mp 0 (fun j => s.mtDump u j) 16) = mp1
    obtain ⟨e, ht, hcmd, hf⟩ := write_cmd_event env u { s with mp := mp1 }
    have hc := cmd_clean_or_fail (s := s) ht hf
    split
    · exact Or.inl (clean_of_eq rfl)
    · split
      · next h0 =>
        simp only [Bool.and_eq_true, beq_iff_eq] at h0
        obtain ⟨hsh, post, hp1, hp2⟩ := reinit_shape env
          (if (!(nfc_initiator_mifare_cmd env .MC_WRITE u { s with mp := mp1 }).1) = true
            then true else false)
          (nfc_initiator_mifare_cmd env .MC_WRITE u { s with mp := mp1 }).2
        have hdw := (reinit_sub env
          (if (!(nfc_initiator_mifare_cmd env .MC_WRITE u { s with mp := mp1 }).1) = true
            then true else false)
          (nfc_initiator_mifare_cmd env .MC_WRITE u { s with mp := mp1 }).2).2.2.1
        cases hok : (nfc_initiator_mifare_cmd env .MC_WRITE u { s with mp := mp1 }).1
        · right
          simp only [hok, Bool.not_false, if_true] at hsh hp1 hdw ⊢
          have hfb : FailBlock0 s (reinit_after_block0 env true
              (nfc_initiator_mifare_cmd env .MC_WRITE u { s with mp := mp1 }).2).state := by
            refine ⟨[], e, post, by rw [hp1, ht]; simp, by simp, by rw [hf, hok]; rfl, hp2,
              ⟨take_bytes mp1 16, by rw [hcmd, h0.1]⟩, by rw [hdw, h0.2]⟩
          rcases hsh with h | h | h
          · exact ⟨.exit, Or.inr h, Or.inr ⟨hfb, Or.inr rfl⟩⟩
          · exact ⟨.ret false, Or.inr h, Or.inr ⟨hfb, Or.inl rfl⟩⟩
          · exact ⟨.ret false, Or.inl ⟨h, rfl⟩, Or.inr ⟨hfb, Or.inl rfl⟩⟩
        · left
          rw [hok] at hp1
          exact clean_trans (hc.1 hok) ⟨post, hp1, fun x hx => failed_rw_of_not_mifare x (hp2 x hx)⟩
      · cases hok : (nfc_initiator_mifare_cmd env .MC_WRITE u { s with mp := mp1 }).1
        · right
          exact ⟨.ret false, Or.inl ⟨by simp [Res.state], rfl⟩, Or.inl ⟨rfl, hc.2 hok⟩⟩
        · left
          exact hc.1 hok
  · exact Or.inl (clean_refl s)

theorem write_block_fail (f : Flags) (env : Env) (wbz : Bool) (u : Nat) (bF : Bool)
    (cnt : Nat) (s : State) (htol : f.bTolerateFailures = false) :
    Clean s (write_block f env wbz u bF cnt s).state ∨
      ∃ o, write_block f env wbz u bF cnt s = .stop o (write_block f env wbz u bF cnt s).state ∧
        WFail s (write_block f env wbz u bF cnt s).state o := by
  have hs := write_sector_start_sub f env wbz u bF s
  unfold write_block
  split
  · next o s1 heq =>
    rw [heq] at hs
    exact Or.inl (clean_of_sub_auth hs)
  · next bF1 s1 heq =>
    rw [heq] at hs
    have hc1 : Clean s s1 := clean_of_sub_auth hs
    have hi : (Clean s1 (if is_trailer_block u = true then write_trailer f env u bF1 s1
          else write_data f env u bF1 s1).state ∨
        ∃ o, pending (if is_trailer_block u = true then write_trailer f env u bF1 s1
          else write_data f env u bF1 s1) o ∧
          WFail s1 (if is_trailer_block u = true then write_trailer f env u bF1 s1
          else write_data f env u bF1 s1).state o) := by
      split
      · rcases (write_trailer_inner f env u bF1 s1).1 with h | ⟨h1, h2⟩
        · exact Or.inl h
        · exact Or.inr ⟨.ret false, Or.inl ⟨h1, rfl⟩, Or.inl ⟨rfl, h2⟩⟩
      · exact (write_data_inner f env u bF1 s1).1
    generalize (if is_trailer_block u = true then write_trailer f env u bF1 s1
          else write_data f env u bF1 s1) = R at hi
    cases R with
    | stop o s2 =>
      simp only [Res.state] at hi ⊢
      rcases hi with h | ⟨o', hp, hw⟩
      · exact Or.inl (clean_trans hc1 h)
      · rcases hp with ⟨h, _⟩ | h
        · exact absurd h (by simp)
        · injection h with ho _
          subst ho
          exact Or.inr ⟨o, rfl, wfail_prepend hc1 hw⟩
    | ok bF2 s2 =>
      simp only [Res.state] at hi
      have ht := tally_spec f bF2 cnt s2
      simp only []
      rcases hi with h | ⟨o', hp, hw⟩
      · exact Or.inl (clean_trans (clean_trans hc1 h) (clean_of_eq ht.1))
      · rcases hp with ⟨h, ho⟩ | h
        · injection h with hb _
          subst hb ho
          exact Or.inr ⟨.ret false, tally_intolerant f cnt s2 htol,
            wfail_of_eq (wfail_prepend hc1 hw) ht.1 ht.2.1.2.1⟩
        · exact absurd h (by simp)

theorem write_loop_fail (f : Flags) (env : Env) (wbz : Bool)
    (htol : f.bTolerateFailures = false) :
    ∀ (n u : Nat) (bF : Bool) (cnt : Nat) (s : State),
      (Clean s (write_loop f env wbz n u bF cnt s).2 ∨
        WFail s (write_loop f env wbz n u bF cnt s).2 (write_loop f env wbz n u bF cnt s).1) ∧
      ((write_loop f env wbz n u bF cnt s).1 = .ret true ∨
        Marks s (write_loop f env wbz n u bF cnt s).2) := by
  intro n
  induction n with
  | zero =>
    intro u bF cnt s
    exact ⟨Or.inl (clean_of_eq rfl), Or.inl rfl⟩
  | succ n ih =>
    intro u bF cnt s
    have hb := write_block_fail f env wbz u bF cnt s htol
    have hm := (write_block_grows f env wbz u bF cnt s (fun _ => True)
      (fun _ _ => trivial) (fun _ _ => trivial) (fun _ _ => trivial)).2.2
    simp only [write_loop]
    split
    · next o s1 heq =>
      rw [heq] at hb hm
      simp only [Res.state] at hb hm
      refine ⟨?_, Or.inr hm⟩
      rcases hb with h | ⟨o', h, h2⟩
      · exact Or.inl h
      · injection h with ho _
        subst ho
        exact Or.inr h2
    · next a s1 heq =>
      rw [heq] at hb hm
      simp only [Res.state] at hb hm
      have h2 := ih (u + 1) a.1 a.2 s1
      have hc : Clean s s1 := by
        rcases hb with h | ⟨o', h, _⟩
        · exact h
        · exact absurd h (by simp)
      constructor
      · rcases h2.1 with h | h
        · exact Or.inl (clean_trans hc h)
        · exact Or.inr (wfail_prepend hc h)
      · rcases h2.2 with h | h
        · exact Or.inl h
        · exact Or.inr (marks_trans hm h)

theorem write_card_fail (f : Flags) (env : Env) (wbz : Bool) (s0 : State)
    (htol : f.bTolerateFailures = false) :
    (Clean s0 (write_card f env wbz s0).2 ∨
      WFail s0 (write_card f env wbz s0).2 (write_card f env wbz s0).1) ∧
    ((write_card f env wbz s0).1 = .ret true ∨ Marks s0 (write_card f env wbz s0).2) := by
  unfold write_card
  split
  · have hu := unlock_card_spec env true s0
    have hc : Clean s0 (unlock_card env true s0).2 :=
      grows_mono hu.1 failed_rw_of_not_mifare
    simp only []
    split
    · exact ⟨Or.inl hc, Or.inr (marks_of_eq hu.2.2)⟩
    · have hl := write_loop_fail f env wbz htol (f.uiBlocks + 1) 0 false 0
        (unlock_card env true s0).2
      constructor
      · rcases hl.1 with h | h
        · exact Or.inl (clean_trans hc h)
        · exact Or.inr (wfail_prepend hc h)
      · rcases hl.2 with h | h
        · exact Or.inl h
        · exact Or.inr (marks_trans (marks_of_eq hu.2.2) h)
  · exact write_loop_fail f env wbz htol (f.uiBlocks + 1) 0 false 0 s0

theorem clean_no_failure {s s' : State} (h : Clean s s') (e : Event)
    (he : e ∈ new_events s s') (hf : failed_rw e = true) : False := by
  have := mem_new_events_of_grows h he
  simp [hf] at this

theorem fail_last_events {s s' : State} (h : FailLast s s') (e : Event)
    (he : e ∈ new_events s s') (hf : failed_rw e = true) :
    ∃ pre, new_events s s' = pre ++ [e] ∧ ∀ x ∈ pre, failed_rw x = false := by
  obtain ⟨pre, e', ht, hpre, _⟩ := h
  have hn : new_events s s' = pre ++ [e'] :=
    new_events_of_trace (by rw [ht, List.append_assoc])
  rw [hn] at he ⊢
  rcases List.mem_append.1 he with h1 | h1
  · have := hpre e h1
    simp [hf] at this
  · simp only [List.mem_singleton] at h1
    subst h1
    exact ⟨pre, rfl, hpre⟩

theorem fail_block0_events {s s' : State} (h : FailBlock0 s s') (e : Event)
    (he : e ∈ new_events s s') (hf : failed_rw e = true) :
    (∃ pre post, new_events s s' = pre ++ e :: post ∧ (∀ x ∈ pre, failed_rw x = false) ∧
      ∀ x ∈ post, is_mifare x.cmd = false) ∧
    (∃ p, e.cmd = .mifare .MC_WRITE 0 p) ∧ s'.dWrite = true := by
  obtain ⟨pre, e', post, ht, hpre, _, hpost, hc, hd⟩ := h
  have hn : new_events s s' = pre ++ e' :: post :=
    new_events_of_trace (by rw [ht, List.append_assoc])
  rw [hn] at he ⊢
  rcases List.mem_append.1 he with h1 | h1
  · have := hpre e h1
    simp [hf] at this
  · rcases List.mem_cons.1 h1 with h2 | h2
    · subst h2
      exact ⟨⟨pre, post, rfl, hpre, hpost⟩, hc, hd⟩
    · have := failed_rw_of_not_mifare e (hpost e h2)
      simp [hf] at this

theorem no_done_of_marks {s s' : State} (h : Marks s s') (n m : Nat) :
    Out.done n m ∉ new_out s s' := by
  obtain ⟨l, hl, hp⟩ := h
  simp only [new_out, hl, List.drop_left]
  intro hm
  obtain ⟨b, hb⟩ := hp _ hm
  exact absurd hb (by simp)

/-- Claim C7, amended.  With failure tolerance disabled, the first failed
read or write command ends the pass.  In the read pass it is the last
command issued and `read_card` returns false.  In the write pass
`write_card` returns false with the failed command as its last command,
except when the failed command is the write of block 0 on a direct-write
card: then only commands that are not MIFARE commands follow it (the
re-initialisation of the reader and the reselect) and `write_card` returns
false or ends the process.  In every case no read, write or authentication
command follows the failed one and the final `Done` line is not printed. -/
theorem C7_first_failure_ends_pass (f : Flags) (env : Env)
    (htol : f.bTolerateFailures = false) :
    (∀ (ru : Bool) (s0 : State) (e : Event),
      e ∈ new_events s0 (read_card f env ru s0).2 → failed_rw e = true →
      (read_card f env ru s0).1 = .ret false ∧
      (∃ pre, new_events s0 (read_card f env ru s0).2 = pre ++ [e] ∧
        ∀ x ∈ pre, failed_rw x = false) ∧
      (∀ n m, Out.done n m ∉ new_out s0 (read_card f env ru s0).2)) ∧
    (∀ (wbz : Bool) (s0 : State) (e : Event),
      e ∈ new_events s0 (write_card f env wbz s0).2 → failed_rw e = true →
      ((write_card f env wbz s0).1 = .ret false ∨ (write_card f env wbz s0).1 = .exit) ∧
      (∃ pre post, new_events s0 (write_card f env wbz s0).2 = pre ++ e :: post ∧
        (∀ x ∈ pre, failed_rw x = false) ∧ ∀ x ∈ post, is_mifare x.cmd = false) ∧
      (∀ n m, Out.done n m ∉ new_out s0 (write_card f env wbz s0).2) ∧
      (((∀ p, e.cmd ≠ .mifare .MC_WRITE 0 p) ∨ (write_card f env wbz s0).2.dWrite = false) →
        (write_card f env wbz s0).1 = .ret false ∧
        ∃ pre, new_events s0 (write_card f env wbz s0).2 = pre ++ [e])) := by
  constructor
  · intro ru s0 e he hf
    obtain ⟨h1, h2⟩ := read_card_fail f env ru s0 htol
    rcases h1 with h | ⟨ho, h⟩
    · exact absurd (clean_no_failure h e he hf) id
    · refine ⟨ho, fail_last_events h e he hf, ?_⟩
      rcases h2 with h3 | h3
      · rw [ho] at h3; exact absurd h3 (by simp)
      · exact no_done_of_marks h3
  · intro wbz s0 e he hf
    obtain ⟨h1, h2⟩ := write_card_fail f env wbz s0 htol
    rcases h1 with h | ⟨ho, h⟩ | ⟨h, ho⟩
    · exact absurd (clean_no_failure h e he hf) id
    · obtain ⟨pre, hpre, hc⟩ := fail_last_events h e he hf
      refine ⟨Or.inl ho, ⟨pre, [], hpre, hc, by simp⟩, ?_, fun _ => ⟨ho, pre, hpre⟩⟩
      rcases h2 with h3 | h3
      · rw [ho] at h3; exact absurd h3 (by simp)
      · exact no_done_of_marks h3
    · obtain ⟨hev, ⟨p, hp⟩, hd⟩ := fail_block0_events h e he hf
      refine ⟨ho, hev, ?_, ?_⟩
      · rcases h2 with h3 | h3
        · rcases ho with ho | ho <;> rw [ho] at h3 <;> exact absurd h3 (by simp)
        · exact no_done_of_marks h3
      · rintro (h4 | h4)
        · exact absurd hp (h4 p)
        · rw [hd] at h4; exact absurd h4 (by simp)

set_option maxRecDepth 100000 in
/-- Claim C7 as stated fails: `W a` on a direct-write card that refuses the
write of block 0, with a reader whose re-initialisation fails.  The write of
block 0 fails with failure tolerance disabled, yet `write_card` does not
return false: it ends the process (line 491). -/
theorem C7_counterexample :
    flags_w.bTolerateFailures = false ∧
    (⟨.mifare .MC_WRITE 0 (List.replicate 16 0), ⟨false, List.replicate 16 0⟩⟩ : Event)
      ∈ (write_card flags_w env_direct_write_fault true (state0 blank blank)).2.trace ∧
    (write_card flags_w env_direct_write_fault true (state0 blank blank)).1 = .exit ∧
    (write_card flags_w env_direct_write_fault true (state0 blank blank)).1 ≠ .ret false := by
  decide

set_option maxRecDepth 100000 in
/-- A run of claim C7: `r a` on a card that refuses the read of block 2
returns false, the refused read being the last command. -/
theorem C7_first_failure_ends_pass_witness :
    flags_r.bTolerateFailures = false ∧
    (read_card flags_r env_read2_fails false (state0 blank blank)).1 = .ret false ∧
    (∃ pre, new_events (state0 blank blank)
        (read_card flags_r env_read2_fails false (state0 blank blank)).2
      = pre ++ [⟨.mifare .MC_READ 2 [], ⟨false, List.replicate 16 0⟩⟩]) :=
  ⟨rfl,
   ((C7_first_failure_ends_pass flags_r env_read2_fails rfl).1 false (state0 blank blank)
      ⟨.mifare .MC_READ 2 [], ⟨false, List.replicate 16 0⟩⟩ (by decide) (by decide)).1,
   (((C7_first_failure_ends_pass flags_r env_read2_fails rfl).1 false (state0 blank blank)
      ⟨.mifare .MC_READ 2 [], ⟨false, List.replicate 16 0⟩⟩ (by decide)
      (by decide)).2.1).imp (fun _ h => h.1)⟩

/-- A successful guess stored a built-in key that an accepted
authentication command carried; other blocks of `mtKeys` are untouched. -/
theorem guess_success (f : Flags) (env : Env) (blk : Nat) :
    ∀ (rem k : Nat) (s : State),
      (∃ l, (authenticate_guess f env blk rem k s).2.trace = s.trace ++ l ∧
        ((authenticate_guess f env blk rem k s).1 = true → ∃ m, m < k + rem ∧
          (∀ j, j < 6 → (authenticate_guess f env blk rem k s).2.mtKeys blk (key_offset f + j)
            = builtin_key m j) ∧
          ∃ a ∈ l, ∃ p, a.cmd = .mifare (auth_cmd f) (blk % 256) p ∧
            p.take 6 = take_bytes (builtin_key m) 6 ∧ a.resp.ok = true)) ∧
      (∀ b, b ≠ blk → (authenticate_guess f env blk rem k s).2.mtKeys b = s.mtKeys b) := by
  intro rem
  induction rem with
  | zero =>
    intro k s
    exact ⟨⟨[], by simp [authenticate_guess], by simp [authenticate_guess]⟩, fun _ _ => rfl⟩
  | succ rem ih =>
    intro k s
    have hp : (take_bytes (memcpy s.mp 0 (builtin_key k) 6) 10).take 6
        = take_bytes (builtin_key k) 6 := rfl
    simp only [authenticate_guess, mifare_auth_eq, select_nostore_eq]
    split
    · next hok =>
      refine ⟨⟨_, rfl, fun _ => ⟨k, by omega, ?_, _, List.mem_singleton.2 rfl, _, rfl, hp, hok⟩⟩, ?_⟩
      · intro j hj
        simp only [memcpy_block, if_true, memcpy, issue_mp, issue_mtKeys]
        rw [if_pos ⟨by omega, by omega⟩, if_pos ⟨by omega, by omega⟩]
        congr 1
        omega
      · intro b hb
        simp [memcpy_block, hb]
    · split
      · exact ⟨⟨[_, _], by simp only [issue_trace, List.append_assoc, List.singleton_append]; rfl,
          by simp⟩, fun _ _ => rfl⟩
      · obtain ⟨⟨l, hl, hs⟩, hfr⟩ := ih (k + 1)
          (issue env (.select (issue env (.mifare (auth_cmd f) (blk % 256)
            (take_bytes (memcpy s.mp 0 (builtin_key k) 6) 10))
            { s with mp := memcpy s.mp 0 (builtin_key k) 6 }).2.nt_uid)
            (issue env (.mifare (auth_cmd f) (blk % 256)
            (take_bytes (memcpy s.mp 0 (builtin_key k) 6) 10))
            { s with mp := memcpy s.mp 0 (builtin_key k) 6 }).2).2
        refine ⟨⟨_ :: _ :: l, by
          rw [hl]; simp only [issue_trace, List.append_assoc, List.singleton_append]; rfl, ?_⟩, ?_⟩
        · intro ht
          obtain ⟨m, hm, hk, a, ha, hrest⟩ := hs ht
          exact ⟨m, by omega, hk, a, List.mem_cons_of_mem _ (List.mem_cons_of_mem _ ha), hrest⟩
        · intro b hb
          rw [hfr b hb]
          rfl

theorem authenticate_keys (f : Flags) (env : Env) (blk : Nat) (s : State) :
    (∃ l, (authenticate f env blk s).2.trace = s.trace ++ l ∧
      (f.bUseKeyFile = false → (authenticate f env blk s).1 = true → ∃ m, m < 9 ∧
        (∀ j, j < 6 → (authenticate f env blk s).2.mtKeys blk (key_offset f + j)
          = builtin_key m j) ∧
        ∃ a ∈ l, ∃ p, a.cmd = .mifare (auth_cmd f) (blk % 256) p ∧
          p.take 6 = take_bytes (builtin_key m) 6 ∧ a.resp.ok = true)) ∧
    (∀ b, b ≠ blk → (authenticate f env blk s).2.mtKeys b = s.mtKeys b) := by
  cases hk : f.bUseKeyFile
  · rw [authenticate_guess_mode f env blk s hk]
    obtain ⟨⟨l, hl, hs⟩, hfr⟩ := guess_success f env blk 9 0
      { s with mp := memcpy s.mp 6 (auth_uid s.nt_uid) 4 }
    exact ⟨⟨l, hl, fun _ ht => by simpa using hs ht⟩, hfr⟩
  · have h9 := keyfile_keeps_keys f env blk s hk
    obtain ⟨l, hl, _⟩ := (authenticate_sub f env blk s).1
    exact ⟨⟨l, hl, by simp⟩, fun b _ => by rw [h9]⟩

theorem read_stored_congr (f : Flags) {s s' : State} {l l' : List Event} {e : Event} {k : Nat}
    (hd : s'.mtDump k = s.mtDump k) (hk : s'.mtKeys k = s.mtKeys k) (hl : ∀ a ∈ l, a ∈ l')
    (h : read_stored f s l e k) : read_stored f s' l' e k := by
  unfold read_stored at h ⊢
  rw [hd, hk]
  refine ⟨fun ht => ?_, h.2⟩
  obtain ⟨h1, h2, h3, h4⟩ := h.1 ht
  refine ⟨h1, h2, h3, fun hg => ?_⟩
  obtain ⟨m, hm, hkey, a, ha, hrest⟩ := h4 hg
  exact ⟨m, hm, hkey, a, hl a ha, hrest⟩

theorem tally_same (f : Flags) (bF : Bool) (cnt : Nat) (s : State) :
    (tally f bF cnt s).state.trace = s.trace ∧ (tally f bF cnt s).state.mtDump = s.mtDump ∧
    (tally f bF cnt s).state.mtKeys = s.mtKeys := by
  unfold tally print_success_or_failure
  simp only []
  split <;> exact ⟨rfl, rfl, rfl⟩

theorem not_read_of_auth_or_select (e : Event) (h : auth_or_select e) (i : Nat) :
    e.cmd ≠ .mifare .MC_READ i [] := by
  intro hc
  rcases h with h | h <;> rw [hc] at h <;> simp [is_auth, is_select] at h

theorem read_block_of_no_read (f : Flags) (k : Nat) {s s1 : State}
    (hg : Grows auth_or_select s s1) (hd : s1.mtDump = s.mtDump)
    (hk : ∀ b, b ≠ k → s1.mtKeys b = s.mtKeys b) : ReadBlock f k s s1 := by
  obtain ⟨l, hl, hp⟩ := hg
  refine ⟨⟨l, hl, ?_⟩, fun b hb => ⟨by rw [hd], hk b hb⟩⟩
  intro e he i hc
  exact absurd hc (not_read_of_auth_or_select e (hp e he) i)

theorem store_trailer_dump (k : Nat) (s : State) (j : Nat) :
    (store_trailer k s).mtDump k j =
      if j < 6 then s.mtKeys k j else if j < 10 then s.mp j
      else if j < 16 then s.mtKeys k j else s.mtDump k j := by
  simp only [store_trailer, memcpy_block, if_true, memcpy]
  by_cases h1 : j < 6
  · rw [if_neg (by omega), if_neg (by omega), if_pos ⟨by omega, by omega⟩, if_pos h1]
    simp
  · by_cases h2 : j < 10
    · rw [if_neg (by omega), if_pos ⟨by omega, by omega⟩, if_neg h1, if_pos h2]
      congr 1
      omega
    · by_cases h3 : j < 16
      · rw [if_pos ⟨by omega, by omega⟩, if_neg h1, if_neg h2, if_pos h3]
        congr 1
        omega
      · rw [if_neg (by omega), if_neg (by omega), if_neg (by omega), if_neg h1, if_neg h2,
          if_neg h3]

theorem store_trailer_other (k : Nat) (s : State) (b : Nat) (hb : b ≠ k) :
    (store_trailer k s).mtDump b = s.mtDump b := by
  simp only [store_trailer, memcpy_block, if_neg hb]

theorem store_data_dump (k : Nat) (s : State) (j : Nat) (hj : j < 16) :
    (store_data k s).mtDump k j = s.mp j := by
  simp only [store_data, memcpy_block, if_true, memcpy]
  rw [if_pos ⟨by omega, by omega⟩]
  simp

theorem store_data_other (k : Nat) (s : State) (b : Nat) (hb : b ≠ k) :
    (store_data k s).mtDump b = s.mtDump b := by
  simp only [store_data, memcpy_block, if_neg hb]

theorem read_mp (env : Env) (k : Nat) (s : State) (j : Nat) (hj : j < 16)
    (h : (nfc_initiator_mifare_cmd env .MC_READ k s).1 = true) :
    (nfc_initiator_mifare_cmd env .MC_READ k s).2.mp j
      = bytes (env s.trace (.mifare .MC_READ (k % 256) [])).data j := by
  rw [(mifare_read_spec env k s).2.2 h]
  simp only [memcpy]
  rw [if_pos ⟨by omega, by omega⟩]
  simp

/-- The read command of a trailer block in an authenticated pass, after
the events `l0` of the iteration. -/
theorem read_trailer_cmd_stored (f : Flags) (env : Env) (k : Nat) (bF : Bool) (s s2 : State)
    (l0 : List Event) (hk : k < 256) (htr : is_trailer_block k = true)
    (hl0 : s2.trace = s.trace ++ l0) (hnr : ∀ e ∈ l0, auth_or_select e)
    (hd : s2.mtDump = s.mtDump) (hkeys : ∀ b, b ≠ k → s2.mtKeys b = s.mtKeys b)
    (hguess : f.bUseKeyFile = false → ∃ m, m < 9 ∧
      (∀ j, j < 6 → s2.mtKeys k (key_offset f + j) = builtin_key m j) ∧
      ∃ a ∈ l0, ∃ p, a.cmd = .mifare (auth_cmd f) k p ∧
        p.take 6 = take_bytes (builtin_key m) 6 ∧ a.resp.ok = true) :
    ReadBlock f k s (read_trailer_cmd env false k bF s2).state := by
  obtain ⟨e, ht, hcmd, _, hok⟩ := read_cmd_event env k s2
  have hr := mifare_cmd_rest env .MC_READ k s2
  have hmp := (mifare_read_spec env k s2).2.2
  have hresp : e.resp = env s2.trace (.mifare .MC_READ (k % 256) []) := by
    have h1 := (mifare_read_spec env k s2).1
    rw [ht] at h1
    have := List.append_cancel_left h1
    simp only [List.cons.injEq, and_true] at this
    rw [this]
  rw [Nat.mod_eq_of_lt hk] at hcmd
  unfold read_trailer_cmd
  simp only [Bool.false_eq_true, if_false]
  split
  · next h1 =>
    simp only [Res.state]
    refine ⟨⟨l0 ++ [e], by
      show (nfc_initiator_mifare_cmd env .MC_READ k s2).2.trace = _
      rw [ht, hl0, List.append_assoc], ?_⟩, ?_⟩
    · intro x hx i hc hrok
      rcases List.mem_append.1 hx with h | h
      · exact absurd hc (not_read_of_auth_or_select x (hnr x h) i)
      · simp only [List.mem_singleton] at h
        subst h
        rw [hcmd] at hc
        injection hc with _ hi _
        refine ⟨hi.symm, ?_⟩
        unfold read_stored
        have hkk : (store_trailer k (nfc_initiator_mifare_cmd env .MC_READ k s2).2).mtKeys
            = (nfc_initiator_mifare_cmd env .MC_READ k s2).2.mtKeys := rfl
        refine ⟨fun _ => ⟨?_, ?_, ?_, ?_⟩, fun hn => by rw [htr] at hn; exact absurd hn (by simp)⟩
        · intro j hj
          rw [store_trailer_dump, if_pos hj, hkk]
        · intro j h6 h10
          rw [store_trailer_dump, if_neg (by omega), if_pos h10, read_mp env k s2 j (by omega) h1,
            hresp]
        · intro j h10 h16
          rw [store_trailer_dump, if_neg (by omega), if_neg (by omega), if_pos h16, hkk]
        · intro hg
          obtain ⟨m, hm, hkey, a, ha, hrest⟩ := hguess hg
          refine ⟨m, hm, ?_, a, List.mem_append_left _ ha, hrest⟩
          intro j hj
          rw [hkk, hr.1]
          exact hkey j hj
    · intro b hb
      rw [store_trailer_other k _ b hb]
      exact ⟨by rw [hr.2.1, hd], by
        show (nfc_initiator_mifare_cmd env .MC_READ k s2).2.mtKeys b = _
        rw [hr.1]; exact hkeys b hb⟩
  · next h1 =>
    simp only [Res.state]
    refine ⟨⟨l0 ++ [e], by rw [ht, hl0, List.append_assoc], ?_⟩, ?_⟩
    · intro x hx i hc hrok
      rcases List.mem_append.1 hx with h | h
      · exact absurd hc (not_read_of_auth_or_select x (hnr x h) i)
      · simp only [List.mem_singleton] at h
        subst h
        rw [← hok] at hrok
        exact absurd hrok h1
    · intro b hb
      exact ⟨by rw [hr.2.1, hd], by rw [hr.1]; exact hkeys b hb⟩

/-- The read command of a data block in an authenticated pass. -/
theorem read_data_stored (f : Flags) (env : Env) (k : Nat) (bF : Bool) (s : State)
    (hk : k < 256) (htr : is_trailer_block k = false) :
    ReadBlock f k s (read_data env k bF s).state := by
  obtain ⟨e, ht, hcmd, _, hok⟩ := read_cmd_event env k s
  have hr := mifare_cmd_rest env .MC_READ k s
  have hresp : e.resp = env s.trace (.mifare .MC_READ (k % 256) []) := by
    have h1 := (mifare_read_spec env k s).1
    rw [ht] at h1
    have := List.append_cancel_left h1
    simp only [List.cons.injEq, and_true] at this
    rw [this]
  rw [Nat.mod_eq_of_lt hk] at hcmd
  unfold read_data
  split
  · simp only []
    split
    · next h1 =>
      simp only [Res.state]
      refine ⟨⟨[e], ht, ?_⟩, ?_⟩
      · intro x hx i hc hrok
        simp only [List.mem_singleton] at hx
        subst hx
        rw [hcmd] at hc
        injection hc with _ hi _
        refine ⟨hi.symm, ?_⟩
        unfold read_stored
        refine ⟨fun hn => by rw [htr] at hn; exact absurd hn (by simp), fun _ j hj => ?_⟩
        rw [store_data_dump k _ j hj, read_mp env k s j hj h1, hresp]
      · intro b hb
        rw [store_data_other k _ b hb]
        exact ⟨by rw [hr.2.1], by
          show (nfc_initiator_mifare_cmd env .MC_READ k s).2.mtKeys b = _
          rw [hr.1]⟩
    · next h1 =>
      simp only [Res.state]
      refine ⟨⟨[e], ht, ?_⟩, ?_⟩
      · intro x hx i hc hrok
        simp only [List.mem_singleton] at hx
        subst hx
        rw [← hok] at hrok
        exact absurd hrok h1
      · intro b _
        exact ⟨by rw [hr.2.1], by rw [hr.1]⟩
  · exact ⟨⟨[], by simp [Res.state], by simp⟩, fun _ _ => ⟨rfl, rfl⟩⟩

theorem select_keys (env : Env) (d : List Nat) (st : Bool) (s : State) :
    (nfc_initiator_select_passive_target env d st s).2.mtKeys = s.mtKeys :=
  (select_spec env d st s).2.2.2.1

theorem reselect_keys (env : Env) (bF : Bool) (s : State) :
    (reselect_on_failure env bF s).state.mtKeys = s.mtKeys := by
  unfold reselect_on_failure
  split
  · simp only []
    split <;> exact select_keys env [] true s
  · rfl

/-- The trailer branch of the authenticated read loop. -/
theorem read_trailer_stored (f : Flags) (env : Env) (k : Nat) (bF : Bool) (s : State)
    (hk : k < 256) (htr : is_trailer_block k = true) :
    ReadBlock f k s (read_trailer f env false k bF s).state := by
  have hr := reselect_sub env bF s
  have hrk := reselect_keys env bF s
  unfold read_trailer
  split
  · next o s1 heq =>
    rw [heq] at hr hrk
    exact read_block_of_no_read f k (grows_mono hr.1 (fun e h => Or.inr h)) hr.2.1
      (fun b _ => by rw [← hrk])
  · next bF1 s1 heq =>
    rw [heq] at hr hrk
    simp only [Res.state] at hr hrk
    have ha := authenticate_sub f env k s1
    obtain ⟨⟨la, hla, hguess⟩, hfr⟩ := authenticate_keys f env k s1
    obtain ⟨l1, hl1, hp1⟩ := hr.1
    have hpa : ∀ e ∈ la, auth_or_select e := by
      obtain ⟨l', hl', hp'⟩ := ha.1
      rw [hla] at hl'
      rw [List.append_cancel_left hl']
      exact hp'
    have hg2 : Grows auth_or_select s (authenticate f env k s1).2 :=
      grows_trans (grows_mono hr.1 (fun e h => Or.inr h)) ha.1
    have hd2 : (authenticate f env k s1).2.mtDump = s.mtDump := ha.2.1.trans hr.2.1
    have hk2 : ∀ b, b ≠ k → (authenticate f env k s1).2.mtKeys b = s.mtKeys b :=
      fun b hb => by rw [hfr b hb, hrk]
    simp only [Bool.false_eq_true, if_false]
    split
    · exact read_block_of_no_read f k hg2 hd2 hk2
    · next hok =>
      refine read_trailer_cmd_stored f env k bF1 s (authenticate f env k s1).2 (l1 ++ la) hk htr
        (by rw [hla, hl1, List.append_assoc]) ?_ hd2 hk2 ?_
      · intro e he
        rcases List.mem_append.1 he with h | h
        · exact Or.inr (hp1 e h)
        · exact hpa e h
      · intro hg
        obtain ⟨m, hm, hkey, a, ha', p, hc, hrest⟩ := hguess hg (by simpa using hok)
        rw [Nat.mod_eq_of_lt hk] at hc
        exact ⟨m, hm, hkey, a, List.mem_append_right _ ha', p, hc, hrest⟩

theorem read_block_congr (f : Flags) (k : Nat) {s s1 s2 : State} (h : ReadBlock f k s s1)
    (ht : s2.trace = s1.trace) (hd : s2.mtDump = s1.mtDump) (hk : s2.mtKeys = s1.mtKeys) :
    ReadBlock f k s s2 := by
  obtain ⟨⟨l, hl, hp⟩, hfr⟩ := h
  refine ⟨⟨l, by rw [ht, hl], ?_⟩, fun b hb => by rw [hd, hk]; exact hfr b hb⟩
  intro e he i hc hrok
  obtain ⟨h1, h2⟩ := hp e he i hc hrok
  exact ⟨h1, read_stored_congr f (by rw [hd]) (by rw [hk]) (fun _ h => h) h2⟩

theorem read_block_stored (f : Flags) (env : Env) (k : Nat) (bF : Bool) (cnt : Nat)
    (s : State) (hk : k < 256) :
    ReadBlock f k s (read_block f env false k bF cnt s).state := by
  have hi : ReadBlock f k s (if is_trailer_block k = true then read_trailer f env false k bF s
      else read_data env k bF s).state := by
    split
    · next h => exact read_trailer_stored f env k bF s hk h
    · next h => exact read_data_stored f env k bF s hk (by simpa using h)
  unfold read_block
  generalize (if is_trailer_block k = true then read_trailer f env false k bF s
      else read_data env k bF s) = R at hi
  cases R with
  | stop o s1 => exact hi
  | ok bF1 s1 =>
    have ht := tally_same f bF1 cnt s1
    exact read_block_congr f k hi ht.1 ht.2.1 ht.2.2

theorem read_pass_of_block (f : Flags) (k : Nat) {s s1 : State} (h : ReadBlock f k s s1) :
    ReadPass f k s s1 := by
  obtain ⟨⟨l, hl, hp⟩, hfr⟩ := h
  refine ⟨⟨l, hl, ?_⟩, fun b hb => hfr b (by omega)⟩
  intro e he i hc hrok
  obtain ⟨h1, h2⟩ := hp e he i hc hrok
  subst h1
  exact ⟨le_refl _, h2⟩

theorem read_pass_step (f : Flags) (k : Nat) {s s1 s2 : State} (h1 : ReadBlock f (k + 1) s s1)
    (h2 : ReadPass f k s1 s2) : ReadPass f (k + 1) s s2 := by
  obtain ⟨⟨l1, hl1, hp1⟩, hfr1⟩ := h1
  obtain ⟨⟨l2, hl2, hp2⟩, hfr2⟩ := h2
  refine ⟨⟨l1 ++ l2, by rw [hl2, hl1, List.append_assoc], ?_⟩, ?_⟩
  · intro e he i hc hrok
    rcases List.mem_append.1 he with h | h
    · obtain ⟨hi, hs⟩ := hp1 e h i hc hrok
      subst hi
      have hfr := hfr2 (k + 1) (by omega)
      exact ⟨le_refl _, read_stored_congr f hfr.1 hfr.2
        (fun a ha => List.mem_append_left _ ha) hs⟩
    · obtain ⟨hi, hs⟩ := hp2 e h i hc hrok
      exact ⟨by omega, read_stored_congr f rfl rfl (fun a ha => List.mem_append_right _ ha) hs⟩
  · intro b hb
    have ha := hfr1 b (by omega)
    have hb2 := hfr2 b (by omega)
    exact ⟨hb2.1.trans ha.1, hb2.2.trans ha.2⟩

theorem read_loop_stored (f : Flags) (env : Env) :
    ∀ (k : Nat) (bF : Bool) (cnt : Nat) (s : State), k < 256 →
      ReadPass f k s (read_loop f env false k bF cnt s).2 := by
  intro k
  induction k with
  | zero =>
    intro bF cnt s hk
    have hb := read_block_stored f env 0 bF cnt s hk
    simp only [read_loop]
    split
    · next o s1 heq =>
      rw [heq] at hb
      exact read_pass_of_block f 0 hb
    · next a s1 heq =>
      rw [heq] at hb
      exact read_pass_of_block f 0 (read_block_congr f 0 hb rfl rfl rfl)
  | succ k ih =>
    intro bF cnt s hk
    have hb := read_block_stored f env (k + 1) bF cnt s hk
    simp only [read_loop]
    split
    · next o s1 heq =>
      rw [heq] at hb
      exact read_pass_of_block f (k + 1) hb
    · next a s1 heq =>
      rw [heq] at hb
      exact read_pass_step f k hb (ih a.1 a.2 s1 (by omega))

/-- Claim C4.  After an authenticated read pass (`read_card (false)`, on a
card of at most 256 blocks), for every read command of the pass that
succeeded, for block `i` say: if `i` is a trailer block, snapshot block `i`
is Key A of `mtKeys.amb[i]`, the access bits (bytes 6..9) the card
returned, Key B of `mtKeys.amb[i]`, and in guess mode the key of the
configured side in `mtKeys.amb[i]` is a built-in key that an accepted
authentication command for block `i` carried; if `i` is a data block,
snapshot block `i` is the sixteen bytes the card returned. -/
theorem C4_read_snapshot (f : Flags) (env : Env) (s0 : State) (hb : f.uiBlocks < 256) :
    ∀ e ∈ new_events s0 (read_card f env false s0).2, ∀ i,
      e.cmd = .mifare .MC_READ i [] → read_ok e.resp = true →
      read_stored f (read_card f env false s0).2
        (new_events s0 (read_card f env false s0).2) e i := by
  have h := read_loop_stored f env f.uiBlocks false 0 s0 hb
  have hc : read_card f env false s0 = read_loop f env false f.uiBlocks false 0 s0 := by
    simp [read_card]
  rw [hc]
  obtain ⟨⟨l, hl, hp⟩, _⟩ := h
  rw [new_events_of_trace hl]
  intro e he i hcmd hrok
  exact (hp e he i hcmd hrok).2

theorem is_auth_auth_cmd (f : Flags) (b : Nat) (p : List Nat) :
    is_auth (.mifare (auth_cmd f) b p) = true := by
  cases h : f.bUseKeyA <;> simp [auth_cmd, h, is_auth]

/-- A card that accepts every authentication is authenticated by the first
command. -/
theorem authenticate_accepted (f : Flags) (env : Env) (k : Nat) (s : State)
    (hA : ∀ h c, is_auth c = true → (env h c).ok = true) :
    (authenticate f env k s).1 = true := by
  cases hk : f.bUseKeyFile
  · rw [authenticate_guess_mode f env k s hk]
    simp only [authenticate_guess, mifare_auth_eq, hA _ _ (is_auth_auth_cmd f _ _), if_true]
  · simp only [authenticate, hk, if_true, mifare_auth_eq, hA _ _ (is_auth_auth_cmd f _ _)]

theorem reselect_accepted (env : Env) (bF : Bool) (s : State)
    (hS : ∀ h d, (env h (.select d)).ok = true) :
    ∃ s1, reselect_on_failure env bF s = .ok false s1 := by
  cases bF
  · exact ⟨s, by simp [reselect_on_failure]⟩
  · exact ⟨_, by simp [reselect_on_failure, nfc_initiator_select_passive_target, hS]; rfl⟩

theorem read_accepted (env : Env) (k : Nat) (s : State)
    (h : read_ok (env s.trace (.mifare .MC_READ (k % 256) [])) = true) :
    (nfc_initiator_mifare_cmd env .MC_READ k s).1 = true := by
  rw [(mifare_read_spec env k s).2.1, h]

theorem read_refused (env : Env) (k : Nat) (s : State)
    (h : read_ok (env s.trace (.mifare .MC_READ (k % 256) [])) = false) :
    (nfc_initiator_mifare_cmd env .MC_READ k s).1 = false := by
  rw [(mifare_read_spec env k s).2.1, h]

theorem tally_tolerant (f : Flags) (bF : Bool) (cnt : Nat) (s : State)
    (htol : f.bTolerateFailures = true) :
    ∃ s1, tally f bF cnt s = .ok (bF, if bF then cnt else cnt + 1) s1 := by
  cases bF <;> exact ⟨_, by simp [tally, htol, print_success_or_failure]; rfl⟩

/-- A block of the read pass whose commands all succeed is counted. -/
theorem read_block_good (f : Flags) (env : Env) (ru : Bool) (k : Nat) (bF : Bool)
    (cnt : Nat) (s : State) (htol : f.bTolerateFailures = true)
    (hA : ∀ h c, is_auth c = true → (env h c).ok = true)
    (hS : ∀ h d, (env h (.select d)).ok = true)
    (hR : ∀ h, read_ok (env h (.mifare .MC_READ (k % 256) [])) = true)
    (hbF : bF = true → is_trailer_block k = true) :
    ∃ s1, read_block f env ru k bF cnt s = .ok (false, cnt + 1) s1 := by
  unfold read_block
  cases ht : is_trailer_block k
  · have hb : bF = false := by
      cases bF
      · rfl
      · exact absurd (hbF rfl) (by simp [ht])
    subst hb
    simp only [Bool.false_eq_true, if_false, read_data, Bool.not_false, if_true,
      read_accepted env k s (hR _)]
    obtain ⟨s1, h1⟩ := tally_tolerant f false cnt (store_data k
      (nfc_initiator_mifare_cmd env .MC_READ k s).2) htol
    exact ⟨s1, by simpa using h1⟩
  · obtain ⟨s1, h1⟩ := reselect_accepted env bF s hS
    simp only [if_true, read_trailer, h1]
    cases ru
    · simp only [Bool.false_eq_true, if_false, authenticate_accepted f env k s1 hA,
        Bool.not_true, read_trailer_cmd, read_accepted env k _ (hR _), if_true]
      obtain ⟨s2, h2⟩ := tally_tolerant f false cnt (store_trailer k
        (nfc_initiator_mifare_cmd env .MC_READ k (authenticate f env k s1).2).2) htol
      exact ⟨s2, by simpa using h2⟩
    · simp only [if_true, read_trailer_cmd, read_accepted env k _ (hR _)]
      obtain ⟨s2, h2⟩ := tally_tolerant f false cnt (store_data k
        (nfc_initiator_mifare_cmd env .MC_READ k s1).2) htol
      exact ⟨s2, by simpa using h2⟩

/-- A data block of the read pass reached with `bFailure` set is skipped
and not counted. -/
theorem read_block_skipped (f : Flags) (env : Env) (ru : Bool) (k : Nat)
    (cnt : Nat) (s : State) (htol : f.bTolerateFailures = true)
    (ht : is_trailer_block k = false) :
    ∃ s1, read_block f env ru k true cnt s = .ok (true, cnt) s1 := by
  unfold read_block
  simp only [ht, Bool.false_eq_true, if_false, read_data, Bool.not_true]
  obtain ⟨s1, h1⟩ := tally_tolerant f true cnt s htol
  exact ⟨s1, by simpa using h1⟩

/-- The data block whose read is refused is not counted and sets
`bFailure`. -/
theorem read_block_refused (f : Flags) (env : Env) (ru : Bool) (k : Nat)
    (cnt : Nat) (s : State) (htol : f.bTolerateFailures = true)
    (ht : is_trailer_block k = false)
    (hR : ∀ h, read_ok (env h (.mifare .MC_READ (k % 256) [])) = false) :
    ∃ s1, read_block f env ru k false cnt s = .ok (true, cnt) s1 := by
  unfold read_block
  simp only [ht, Bool.false_eq_true, if_false, read_data, Bool.not_false, if_true,
    read_refused env k s (hR _)]
  obtain ⟨s1, h1⟩ := tally_tolerant f true cnt
    (nfc_initiator_mifare_cmd env .MC_READ k s).2 htol
  exact ⟨s1, by simpa using h1⟩

theorem get_trailer_block_small (b : Nat) (hb : b < 256) :
    get_trailer_block b = if b < 128 then b + (3 - b % 4) else b + (15 - b % 16) := by
  unfold get_trailer_block
  split
  · exact Nat.mod_eq_of_lt (a := b + (3 - b % 4)) (b := 2 ^ 32) (by omega)
  · exact Nat.mod_eq_of_lt (a := b + (15 - b % 16)) (b := 2 ^ 32) (by omega)

theorem is_trailer_block_small (k : Nat) (hk : k < 512) :
    is_trailer_block k = if k < 128 then (k + 1) % 4 == 0 else (k + 1) % 16 == 0 := by
  unfold is_trailer_block
  rw [Nat.mod_eq_of_lt (a := k + 1) (b := 2 ^ 32) (by omega)]

theorem is_trailer_block_true (k : Nat) (hk : k < 512) :
    is_trailer_block k = true ↔ (k < 128 ∧ (k + 1) % 4 = 0) ∨ (128 ≤ k ∧ (k + 1) % 16 = 0) := by
  rw [is_trailer_block_small k hk]
  split <;> simp only [beq_iff_eq] <;> omega

theorem is_trailer_block_false (k : Nat) (hk : k < 512) :
    is_trailer_block k = false ↔
      (k < 128 ∧ (k + 1) % 4 ≠ 0) ∨ (128 ≤ k ∧ (k + 1) % 16 ≠ 0) := by
  rw [is_trailer_block_small k hk]
  split <;> simp only [beq_eq_false_iff_ne, ne_eq] <;> omega

theorem is_first_block_true (k : Nat) :
    is_first_block k = true ↔ (k < 128 ∧ k % 4 = 0) ∨ (128 ≤ k ∧ k % 16 = 0) := by
  unfold is_first_block
  split <;> simp only [beq_iff_eq] <;> omega

theorem is_first_block_false (k : Nat) :
    is_first_block k = false ↔ (k < 128 ∧ k % 4 ≠ 0) ∨ (128 ≤ k ∧ k % 16 ≠ 0) := by
  unfold is_first_block
  split <;> simp only [beq_eq_false_iff_ne, ne_eq] <;> omega

theorem sector_first_small (b : Nat) (hb : b < 256) :
    sector_first b = if b < 128 then b - b % 4 else b - b % 16 := by
  unfold sector_first
  rw [get_trailer_block_small b hb]
  split <;> omega

theorem sector_first_le (b : Nat) (hb : b < 256) : sector_first b ≤ b := by
  rw [sector_first_small b hb]
  split <;> omega

theorem sector_data_blocks (b : Nat) (hb : b < 256) (ht : is_trailer_block b = false)
    (k : Nat) (h1 : sector_first b ≤ k) (h2 : k ≤ b) : is_trailer_block k = false := by
  rw [sector_first_small b hb] at h1
  rw [is_trailer_block_false b (by omega)] at ht
  rw [is_trailer_block_false k (by omega)]
  split at h1 <;> omega

theorem below_sector_trailer (b : Nat) (hb : b < 256) (h0 : 0 < sector_first b) :
    is_trailer_block (sector_first b - 1) = true := by
  have hle := sector_first_le b hb
  rw [is_trailer_block_true _ (by omega)]
  rw [sector_first_small b hb] at h0 ⊢
  split at h0 <;> simp only [*, if_true, if_false] <;> omega

theorem reports_finish (f : Flags) (cnt : Nat) (s : State) :
    Reports (finish f cnt s) cnt (f.uiBlocks + 1) := by
  simp [Reports, finish]

theorem one_read_auth {env : Env} {b : Nat} (h : OneReadFails env b) :
    ∀ hh c, is_auth c = true → (env hh c).ok = true := by
  intro hh c hc
  refine h.2.1 hh c ?_
  intro he
  rw [he] at hc
  simp [is_auth] at hc

theorem one_read_select {env : Env} {b : Nat} (h : OneReadFails env b) :
    ∀ hh d, (env hh (.select d)).ok = true :=
  fun hh d => h.2.1 hh _ (by simp)

theorem one_read_other {env : Env} {b : Nat} (h : OneReadFails env b) (k : Nat)
    (hk : k < 256) (hkb : k ≠ b) :
    ∀ hh, read_ok (env hh (.mifare .MC_READ (k % 256) [])) = true := by
  intro hh
  rw [Nat.mod_eq_of_lt hk]
  simp only [read_ok, Bool.and_eq_true, beq_iff_eq]
  exact ⟨h.2.1 hh _ (by simp [hkb]), h.2.2 hh k hkb⟩

/-- Below the sector of the failing block every block is counted. -/
theorem read_loop_below (f : Flags) (env : Env) (ru : Bool) (b : Nat)
    (htol : f.bTolerateFailures = true) (henv : OneReadFails env b) :
    ∀ (k : Nat) (bF : Bool) (cnt : Nat) (s : State), k < 256 → k < sector_first b →
      sector_first b ≤ b → (bF = true → is_trailer_block k = true) →
      Reports (read_loop f env ru k bF cnt s) (cnt + k + 1) (f.uiBlocks + 1) := by
  intro k
  induction k with
  | zero =>
    intro bF cnt s hk hlt hle hbF
    obtain ⟨s1, h1⟩ := read_block_good f env ru 0 bF cnt s htol (one_read_auth henv)
      (one_read_select henv) (one_read_other henv 0 hk (by omega)) hbF
    simp only [read_loop, h1]
    exact reports_finish f (cnt + 1) s1
  | succ k ih =>
    intro bF cnt s hk hlt hle hbF
    obtain ⟨s1, h1⟩ := read_block_good f env ru (k + 1) bF cnt s htol (one_read_auth henv)
      (one_read_select henv) (one_read_other henv (k + 1) hk (by omega)) hbF
    simp only [read_loop, h1]
    have := ih false (cnt + 1) s1 (by omega) (by omega) hle (by simp)
    rwa [show cnt + 1 + k + 1 = cnt + (k + 1) + 1 by omega] at this

/-- In the sector of the failing block, below it, every block is skipped. -/
theorem read_loop_inside (f : Flags) (env : Env) (ru : Bool) (b : Nat) (hb : b < 256)
    (htol : f.bTolerateFailures = true) (henv : OneReadFails env b)
    (hnt : is_trailer_block b = false) :
    ∀ (k : Nat) (cnt : Nat) (s : State), sector_first b ≤ k → k < b →
      Reports (read_loop f env ru k true cnt s) (cnt + sector_first b) (f.uiBlocks + 1) := by
  intro k
  induction k with
  | zero =>
    intro cnt s h1 h2
    obtain ⟨s1, hs⟩ := read_block_skipped f env ru 0 cnt s htol
      (sector_data_blocks b hb hnt 0 h1 (by omega))
    simp only [read_loop, hs]
    have := reports_finish f cnt s1
    rwa [show cnt + sector_first b = cnt by omega]
  | succ k ih =>
    intro cnt s h1 h2
    obtain ⟨s1, hs⟩ := read_block_skipped f env ru (k + 1) cnt s htol
      (sector_data_blocks b hb hnt (k + 1) h1 (by omega))
    simp only [read_loop, hs]
    by_cases hk : sector_first b ≤ k
    · exact ih cnt s1 hk (by omega)
    · have hsf : sector_first b = k + 1 := by omega
      have := read_loop_below f env ru b htol henv k true cnt s1 (by omega) (by omega)
        (sector_first_le b hb)
        (fun _ => by
          have h := below_sector_trailer b hb (by omega)
          rwa [hsf, Nat.add_sub_cancel] at h)
      rwa [hsf]

/-- From the failing block down. -/
theorem read_loop_at (f : Flags) (env : Env) (ru : Bool) (b : Nat) (hb : b < 256)
    (htol : f.bTolerateFailures = true) (henv : OneReadFails env b)
    (hnt : is_trailer_block b = false) (cnt : Nat) (s : State) :
    Reports (read_loop f env ru b false cnt s) (cnt + sector_first b) (f.uiBlocks + 1) := by
  have hR : ∀ h, read_ok (env h (.mifare .MC_READ (b % 256) [])) = false := by
    intro h; rw [Nat.mod_eq_of_lt hb]; exact henv.1 h
  obtain ⟨s1, hs⟩ := read_block_refused f env ru b cnt s htol hnt hR
  have hle := sector_first_le b hb
  cases b with
  | zero =>
    simp only [read_loop, hs]
    have := reports_finish f cnt s1
    rwa [show cnt + sector_first 0 = cnt by omega]
  | succ k =>
    simp only [read_loop, hs]
    by_cases hk : sector_first (k + 1) ≤ k
    · exact read_loop_inside f env ru (k + 1) hb htol henv hnt k cnt s1 hk (by omega)
    · have hsf : sector_first (k + 1) = k + 1 := by omega
      have := read_loop_below f env ru (k + 1) htol henv k true cnt s1 (by omega) (by omega)
        hle
        (fun _ => by
          have h := below_sector_trailer (k + 1) hb (by omega)
          rwa [hsf, Nat.add_sub_cancel] at h)
      rwa [hsf]

/-- From a block at or above the failing block down. -/
theorem read_loop_above (f : Flags) (env : Env) (ru : Bool) (b : Nat) (hb : b < 256)
    (htol : f.bTolerateFailures = true) (henv : OneReadFails env b)
    (hnt : is_trailer_block b = false) :
    ∀ (k : Nat) (cnt : Nat) (s : State), k < 256 → b ≤ k →
      Reports (read_loop f env ru k false cnt s) (cnt + (k - b) + sector_first b)
        (f.uiBlocks + 1) := by
  intro k
  induction k with
  | zero =>
    intro cnt s _ hbk
    have h0 : b = 0 := by omega
    subst h0
    simpa using read_loop_at f env ru 0 hb htol henv hnt cnt s
  | succ k ih =>
    intro cnt s hk hbk
    by_cases he : b = k + 1
    · subst he
      simpa using read_loop_at f env ru (k + 1) hb htol henv hnt cnt s
    · obtain ⟨s1, h1⟩ := read_block_good f env ru (k + 1) false cnt s htol (one_read_auth henv)
        (one_read_select henv) (one_read_other henv (k + 1) hk (by omega)) (by simp)
      simp only [read_loop, h1]
      have := ih (cnt + 1) s1 (by omega) (by omega)
      rwa [show cnt + 1 + (k - b) + sector_first b = cnt + (k + 1 - b) + sector_first b by
        omega] at this

theorem one_write_auth {env : Env} {b : Nat} (h : OneWriteFails env b) :
    ∀ hh c, is_auth c = true → (env hh c).ok = true := by
  intro hh c hc
  refine h.2 hh c ?_
  intro p he
  rw [he] at hc
  simp [is_auth] at hc

theorem one_write_not_mifare {env : Env} {b : Nat} (h : OneWriteFails env b) :
    ∀ hh c, is_mifare c = false → (env hh c).ok = true := by
  intro hh c hc
  refine h.2 hh c ?_
  intro p he
  rw [he] at hc
  simp [is_mifare] at hc

theorem one_write_select {env : Env} {b : Nat} (h : OneWriteFails env b) :
    ∀ hh d, (env hh (.select d)).ok = true :=
  fun hh _ => one_write_not_mifare h hh _ rfl

theorem one_write_other {env : Env} {b : Nat} (h : OneWriteFails env b) (u : Nat)
    (hu : u < 256) (hub : u ≠ b) (s : State) :
    (nfc_initiator_mifare_cmd env .MC_WRITE u s).1 = true := by
  rw [mifare_write_eq, Nat.mod_eq_of_lt hu]
  exact h.2 _ _ (by intro p; simp [hub])

theorem one_write_refused {env : Env} {b : Nat} (h : OneWriteFails env b)
    (hb : b < 256) (s : State) :
    (nfc_initiator_mifare_cmd env .MC_WRITE b s).1 = false := by
  rw [mifare_write_eq, Nat.mod_eq_of_lt hb]
  exact h.1 _ _

/-- The start of a sector when authentications and selects succeed. -/
theorem write_sector_start_accepted (f : Flags) (env : Env) (wbz : Bool) (u : Nat)
    (bF : Bool) (s : State)
    (hA : ∀ h c, is_auth c = true → (env h c).ok = true)
    (hS : ∀ h d, (env h (.select d)).ok = true) :
    ∃ s1, write_sector_start f env wbz u bF s
        = .ok (if (u == 1 || is_first_block u) = true then false else bF) s1 ∧
      s1.mtDump = s.mtDump := by
  have hq := (write_sector_start_sub f env wbz u bF s).2.1
  have hres : ∃ s1, write_sector_start f env wbz u bF s
      = .ok (if (u == 1 || is_first_block u) = true then false else bF) s1 := by
    unfold write_sector_start
    split
    · obtain ⟨s1, h1⟩ := reselect_accepted env bF s hS
      simp only [h1]
      split
      · simp only [authenticate_accepted f env u s1 hA, Bool.not_true, Bool.false_and,
          Bool.false_eq_true, if_false]
        exact ⟨_, rfl⟩
      · exact ⟨_, rfl⟩
    · exact ⟨s, rfl⟩
  obtain ⟨s1, h1⟩ := hres
  rw [h1] at hq
  exact ⟨s1, h1, hq⟩

theorem reinit_accepted (env : Env) (bF : Bool) (s : State)
    (hN : ∀ h c, is_mifare c = false → (env h c).ok = true) :
    ∃ s1, reinit_after_block0 env bF s = .ok bF s1 := by
  unfold reinit_after_block0
  simp only [issue_fst, hN _ _ (rfl : is_mifare .initiator_init = false), Bool.not_true,
    Bool.false_eq_true, if_false, nfc_initiator_select_passive_target,
    hN _ _ (rfl : is_mifare (.select []) = false), if_true]
  exact ⟨_, rfl⟩

/-- The data branch started with `bFailure` clear, when the write command
of the block gives `w` and the re-initialisation of the reader succeeds:
the new `bFailure` is the failure of the write command. -/
theorem write_data_result (f : Flags) (env : Env) (u : Nat) (s : State) (w : Bool)
    (hw : ∀ s1, (nfc_initiator_mifare_cmd env .MC_WRITE u s1).1 = w)
    (hN : ∀ h c, is_mifare c = false → (env h c).ok = true)
    (hbcc : u = 0 →
      s.mtDump 0 0 ^^^ s.mtDump 0 1 ^^^ s.mtDump 0 2 ^^^ s.mtDump 0 3 = s.mtDump 0 4) :
    ∃ s2, write_data f env u false s = .ok (!w) s2 := by
  by_cases hu : u = 0
  · subst hu
    have hb : ((s.mtDump 0 0 ^^^ s.mtDump 0 1 ^^^ s.mtDump 0 2 ^^^ s.mtDump 0 3 ^^^
        s.mtDump 0 4) != 0) = false := by
      rw [← Bool.not_eq_true, bcc_check]; simpa using hbcc rfl
    have h5 : ∀ j, j < 16 → memcpy s.mp 0 (fun j => s.mtDump 0 j) 16 j = s.mtDump 0 j := by
      intro j hj; simp [memcpy, hj]
    unfold write_data
    simp only [Bool.not_false, if_true, bne_self_eq_false, Bool.and_false, Bool.false_eq_true,
      if_false, beq_self_eq_true, Bool.true_and, hw]
    rw [h5 0 (by decide), h5 1 (by decide), h5 2 (by decide), h5 3 (by decide),
      h5 4 (by decide), hb]
    simp only [Bool.false_eq_true, if_false]
    have hbw : (if (!w) = true then true else false) = !w := by cases w <;> rfl
    rw [hbw]
    split
    · obtain ⟨s2, h2⟩ := reinit_accepted env (!w)
        (nfc_initiator_mifare_cmd env .MC_WRITE 0
          { s with mp := memcpy s.mp 0 (fun j => s.mtDump 0 j) 16 }).2 hN
      exact ⟨s2, h2⟩
    · exact ⟨_, rfl⟩
  · unfold write_data
    have h0 : (u == 0) = false := by simpa using hu
    simp only [Bool.not_false, if_true, h0, Bool.false_and, Bool.false_eq_true, if_false, hw]
    have hbw : (if (!w) = true then true else false) = !w := by cases w <;> rfl
    rw [hbw]
    exact ⟨_, rfl⟩

theorem write_trailer_result (f : Flags) (env : Env) (u : Nat) (bF : Bool) (s : State)
    (w : Bool) (hw : ∀ s1, (nfc_initiator_mifare_cmd env .MC_WRITE u s1).1 = w) :
    ∃ s2, write_trailer f env u bF s = .ok (if w = true then bF else true) s2 := by
  unfold write_trailer
  simp only [hw]
  cases w <;> simp

/-- A block of the write pass whose commands all succeed is counted. -/
theorem write_block_good (f : Flags) (env : Env) (wbz : Bool) (b u : Nat) (bF : Bool)
    (cnt : Nat) (s : State) (htol : f.bTolerateFailures = true)
    (henv : OneWriteFails env b) (hu : u < 256) (hub : u ≠ b)
    (hbF : bF = true → (u == 1 || is_first_block u) = true)
    (hbcc : u = 0 →
      s.mtDump 0 0 ^^^ s.mtDump 0 1 ^^^ s.mtDump 0 2 ^^^ s.mtDump 0 3 = s.mtDump 0 4) :
    ∃ s1, write_block f env wbz u bF cnt s = .ok (false, cnt + 1) s1 := by
  obtain ⟨s1, h1, hd1⟩ := write_sector_start_accepted f env wbz u bF s (one_write_auth henv)
    (one_write_select henv)
  have hbF1 : (if (u == 1 || is_first_block u) = true then false else bF) = false := by
    split
    · rfl
    · next h => cases bF
                · rfl
                · exact absurd (hbF rfl) h
  rw [hbF1] at h1
  unfold write_block
  simp only [h1]
  cases ht : is_trailer_block u
  · obtain ⟨s2, h2⟩ := write_data_result f env u s1 true (one_write_other henv u hu hub)
      (one_write_not_mifare henv) (by rw [hd1]; exact hbcc)
    simp only [Bool.false_eq_true, if_false, h2, Bool.not_true]
    obtain ⟨s4, h4⟩ := tally_tolerant f false cnt s2 htol
    exact ⟨s4, by simpa using h4⟩
  · obtain ⟨s2, h2⟩ := write_trailer_result f env u false s1 true
      (one_write_other henv u hu hub)
    simp only [h2, if_true]
    obtain ⟨s3, h3⟩ := tally_tolerant f false cnt s2 htol
    exact ⟨s3, by simpa using h3⟩

/-- A block of the failing sector after the failing block is not counted:
a data block is skipped, the trailer is written but `bFailure` stays set. -/
theorem write_block_after (f : Flags) (env : Env) (wbz : Bool) (u : Nat)
    (cnt : Nat) (s : State) (htol : f.bTolerateFailures = true)
    (hst : (u == 1 || is_first_block u) = false) :
    ∃ s1, write_block f env wbz u true cnt s = .ok (true, cnt) s1 := by
  unfold write_block
  simp only [write_sector_start, hst, Bool.false_eq_true, if_false]
  cases ht : is_trailer_block u
  · simp only [Bool.false_eq_true, if_false, write_data, Bool.not_true]
    obtain ⟨s3, h3⟩ := tally_tolerant f true cnt s htol
    exact ⟨s3, by simpa using h3⟩
  · have hq : ∃ s2, write_trailer f env u true s = .ok true s2 := by
      unfold write_trailer
      simp only [ite_self]
      exact ⟨_, rfl⟩
    obtain ⟨s2, h2⟩ := hq
    simp only [if_true, h2]
    obtain ⟨s3, h3⟩ := tally_tolerant f true cnt s2 htol
    exact ⟨s3, by simpa using h3⟩

/-- The data block whose write is refused is not counted and sets
`bFailure`. -/
theorem write_block_refused (f : Flags) (env : Env) (wbz : Bool) (b : Nat) (bF : Bool)
    (cnt : Nat) (s : State) (htol : f.bTolerateFailures = true)
    (henv : OneWriteFails env b) (hb : b < 256) (hnt : is_trailer_block b = false)
    (hbF : bF = true → (b == 1 || is_first_block b) = true)
    (hbcc : b = 0 →
      s.mtDump 0 0 ^^^ s.mtDump 0 1 ^^^ s.mtDump 0 2 ^^^ s.mtDump 0 3 = s.mtDump 0 4) :
    ∃ s1, write_block f env wbz b bF cnt s = .ok (true, cnt) s1 := by
  obtain ⟨s1, h1, hd1⟩ := write_sector_start_accepted f env wbz b bF s (one_write_auth henv)
    (one_write_select henv)
  have hbF1 : (if (b == 1 || is_first_block b) = true then false else bF) = false := by
    split
    · rfl
    · next h => cases bF
                · rfl
                · exact absurd (hbF rfl) h
  rw [hbF1] at h1
  unfold write_block
  simp only [h1, hnt, Bool.false_eq_true, if_false]
  obtain ⟨s2, h2⟩ := write_data_result f env b s1 false (one_write_refused henv hb)
    (one_write_not_mifare henv) (by rw [hd1]; exact hbcc)
  simp only [h2, Bool.not_false]
  obtain ⟨s4, h4⟩ := tally_tolerant f true cnt s2 htol
  exact ⟨s4, by simpa using h4⟩

theorem trailer_above (b : Nat) (hb : b < 256) (hnt : is_trailer_block b = false) :
    b < get_trailer_block b ∧ get_trailer_block b < 256 := by
  rw [get_trailer_block_small b hb]
  rw [is_trailer_block_false b (by omega)] at hnt
  split <;> omega

theorem sector_interior (b : Nat) (hb : b < 256) (hb0 : b ≠ 0) (u : Nat) (h1 : b < u)
    (h2 : u ≤ get_trailer_block b) : (u == 1 || is_first_block u) = false := by
  rw [get_trailer_block_small b hb] at h2
  have h3 : (u == 1) = false := by simp; omega
  have h4 : is_first_block u = false := by
    rw [is_first_block_false]
    split at h2 <;> omega
  rw [h3, h4]; rfl

theorem next_sector_first (b : Nat) (hb : b < 256) :
    (get_trailer_block b + 1 == 1 || is_first_block (get_trailer_block b + 1)) = true := by
  have h4 : is_first_block (get_trailer_block b + 1) = true := by
    rw [is_first_block_true, get_trailer_block_small b hb]
    split <;> omega
  rw [h4]; simp

/-- After the sector of the failing block every block is counted. -/
theorem write_loop_after (f : Flags) (env : Env) (wbz : Bool) (b : Nat)
    (htol : f.bTolerateFailures = true) (henv : OneWriteFails env b)
    (hub : f.uiBlocks < 256) :
    ∀ (n u : Nat) (bF : Bool) (cnt : Nat) (s : State), u + n = f.uiBlocks + 1 → b < u →
      (bF = true → (u == 1 || is_first_block u) = true) →
      Reports (write_loop f env wbz n u bF cnt s) (cnt + n) (f.uiBlocks + 1) := by
  intro n
  induction n with
  | zero =>
    intro u bF cnt s _ _ _
    exact reports_finish f cnt s
  | succ n ih =>
    intro u bF cnt s hn hbu hbF
    obtain ⟨s1, h1⟩ := write_block_good f env wbz b u bF cnt s htol henv (by omega) (by omega)
      hbF (by intro h; omega)
    simp only [write_loop, h1]
    have := ih (u + 1) false (cnt + 1) s1 (by omega) (by omega) (by simp)
    rwa [show cnt + 1 + n = cnt + (n + 1) by omega] at this

/-- In the sector of the failing block, after it, no block is counted. -/
theorem write_loop_inside (f : Flags) (env : Env) (wbz : Bool) (b : Nat) (hb : b < 256)
    (hb0 : b ≠ 0) (htol : f.bTolerateFailures = true) (henv : OneWriteFails env b)
    (hub : f.uiBlocks < 256) (htb : get_trailer_block b ≤ f.uiBlocks) :
    ∀ (n u : Nat) (cnt : Nat) (s : State), u + n = f.uiBlocks + 1 → b < u →
      u ≤ get_trailer_block b →
      Reports (write_loop f env wbz n u true cnt s)
        (cnt + n - (get_trailer_block b - u + 1)) (f.uiBlocks + 1) := by
  intro n
  induction n with
  | zero => intro u cnt s hn _ hu; omega
  | succ n ih =>
    intro u cnt s hn hbu hu
    obtain ⟨s1, h1⟩ := write_block_after f env wbz u cnt s htol
      (sector_interior b hb hb0 u hbu hu)
    simp only [write_loop, h1]
    by_cases he : u = get_trailer_block b
    · have := write_loop_after f env wbz b htol henv hub n (u + 1) true cnt s1 (by omega)
        (by omega) (fun _ => by rw [he]; exact next_sector_first b hb)
      rwa [show cnt + (n + 1) - (get_trailer_block b - u + 1) = cnt + n by omega]
    · have := ih (u + 1) cnt s1 (by omega) (by omega) (by omega)
      rwa [show cnt + (n + 1) - (get_trailer_block b - u + 1)
        = cnt + n - (get_trailer_block b - (u + 1) + 1) by omega]

/-- From a block at or before the failing block on. -/
theorem write_loop_before (f : Flags) (env : Env) (wbz : Bool) (b : Nat) (hb : b < 256)
    (hnt : is_trailer_block b = false) (htol : f.bTolerateFailures = true)
    (henv : OneWriteFails env b) (hub : f.uiBlocks < 256)
    (htb : get_trailer_block b ≤ f.uiBlocks) :
    ∀ (n u : Nat) (bF : Bool) (cnt : Nat) (s : State), u + n = f.uiBlocks + 1 → u ≤ b →
      (bF = true → (u == 1 || is_first_block u) = true) →
      (u = 0 →
        s.mtDump 0 0 ^^^ s.mtDump 0 1 ^^^ s.mtDump 0 2 ^^^ s.mtDump 0 3 = s.mtDump 0 4) →
      Reports (write_loop f env wbz n u bF cnt s) (cnt + n - write_marked_failed b)
        (f.uiBlocks + 1) := by
  have hta := trailer_above b hb hnt
  intro n
  induction n with
  | zero => intro u bF cnt s hn hu _ _; omega
  | succ n ih =>
    intro u bF cnt s hn hu hbF hbcc
    by_cases he : u = b
    · subst he
      obtain ⟨s1, h1⟩ := write_block_refused f env wbz u bF cnt s htol henv hb hnt hbF hbcc
      simp only [write_loop, h1]
      by_cases h0 : u = 0
      · subst h0
        have := write_loop_after f env wbz 0 htol henv hub n 1 true cnt s1 (by omega)
          (by omega) (fun _ => by decide)
        simpa [write_marked_failed] using this
      · have := write_loop_inside f env wbz u hb h0 htol henv hub htb n (u + 1) cnt s1
          (by omega) (by omega) (by omega)
        rwa [show cnt + (n + 1) - write_marked_failed u
          = cnt + n - (get_trailer_block u - (u + 1) + 1) by
            simp only [write_marked_failed, if_neg h0]; omega]
    · obtain ⟨s1, h1⟩ := write_block_good f env wbz b u bF cnt s htol henv (by omega) he
        hbF hbcc
      simp only [write_loop, h1]
      have := ih (u + 1) false (cnt + 1) s1 (by omega) (by omega) (by simp)
        (by intro h; omega)
      rwa [show cnt + (n + 1) - write_marked_failed b = cnt + 1 + n - write_marked_failed b by
        omega]

/-- The unlock sequence on a reader and card that accept all of it. -/
theorem unlock_card_accepted (env : Env) (w : Bool) (s : State)
    (hN : ∀ h c, is_mifare c = false → (env h c).ok = true) :
    (unlock_card env w s).1 = .ret true := by
  unfold unlock_card unlock_commands transmit_bits transmit_bytes
  simp only [issue_fst, hN _ _ (rfl : is_mifare (.set_property _ _) = false),
    hN _ _ (rfl : is_mifare (.transceive_bits _ _) = false),
    hN _ _ (rfl : is_mifare (.transceive_bytes _) = false), Bool.not_true,
    Bool.false_eq_true, if_false, if_true]

theorem one_read_not_mifare {env : Env} {b : Nat} (h : OneReadFails env b) :
    ∀ hh c, is_mifare c = false → (env hh c).ok = true := by
  intro hh c hc
  refine h.2.1 hh c ?_
  intro he
  rw [he] at hc
  simp [is_mifare] at hc

/-- The count after one failure, for the read pass and for `write_card`:
with failure tolerance enabled, on a card of at most 256 blocks, when the
command of exactly one data block `b` fails and every other operation of
the reader succeeds, the pass returns true (the write pass: when block 0 of
the snapshot has a right BCC and the sector of `b` is whole) and the count
it reports is `uiBlocks + 1` minus the blocks marked failed. -/
theorem one_failure_count (f : Flags) (env : Env) (b : Nat)
    (htol : f.bTolerateFailures = true) (hub : f.uiBlocks < 256) (hb : b ≤ f.uiBlocks)
    (hnt : is_trailer_block b = false) :
    (OneReadFails env b → ∀ (ru : Bool) (s0 : State),
      Reports (read_card f env ru s0) (f.uiBlocks + 1 - read_marked_failed b)
        (f.uiBlocks + 1)) ∧
    (OneWriteFails env b → get_trailer_block b ≤ f.uiBlocks → ∀ (wbz : Bool) (s0 : State),
      s0.mtDump 0 0 ^^^ s0.mtDump 0 1 ^^^ s0.mtDump 0 2 ^^^ s0.mtDump 0 3 = s0.mtDump 0 4 →
      Reports (write_card f env wbz s0) (f.uiBlocks + 1 - write_marked_failed b)
        (f.uiBlocks + 1)) := by
  have hb256 : b < 256 := by omega
  constructor
  · intro henv ru s0
    have hle := sector_first_le b hb256
    have key : ∀ ru' s, Reports (read_loop f env ru' f.uiBlocks false 0 s)
        (f.uiBlocks + 1 - read_marked_failed b) (f.uiBlocks + 1) := by
      intro ru' s
      have := read_loop_above f env ru' b hb256 htol henv hnt f.uiBlocks 0 s hub hb
      rwa [show 0 + (f.uiBlocks - b) + sector_first b = f.uiBlocks + 1 - read_marked_failed b by
        simp only [read_marked_failed]; omega] at this
    unfold read_card
    split
    · simp only [unlock_card_accepted env false s0 (one_read_not_mifare henv)]
      exact key _ _
    · exact key _ _
  · intro henv htb wbz s0 hbcc
    have key : ∀ s, s.mtDump = s0.mtDump →
        Reports (write_loop f env wbz (f.uiBlocks + 1) 0 false 0 s)
          (f.uiBlocks + 1 - write_marked_failed b) (f.uiBlocks + 1) := by
      intro s hs
      have := write_loop_before f env wbz b hb256 hnt htol henv hub htb (f.uiBlocks + 1) 0
        false 0 s (by omega) (by omega) (by simp) (fun _ => by rw [hs]; exact hbcc)
      rwa [Nat.zero_add] at this
    unfold write_card
    split
    · simp only [unlock_card_accepted env true s0 (one_write_not_mifare henv)]
      exact key _ (unlock_card_spec env true s0).2.1
    · exact key _ rfl

set_option maxRecDepth 100000 in
/-- Claim C6 as stated fails: `r A` (failures tolerated) on a 320-byte card
that refuses the read of data block 2 and nothing else.  The pass returns
true, one command failed, and the count reported is 17 of 20, not 19:
blocks 1 and 0 of the sector are skipped and marked failed as well. -/
theorem C6_counterexample :
    flags_r_tolerant.bTolerateFailures = true ∧ is_trailer_block 2 = false ∧
    (read_card flags_r_tolerant env_read2_fails false (state0 blank blank)).1 = .ret true ∧
    ((read_card flags_r_tolerant env_read2_fails false (state0 blank blank)).2.trace.filter
      (fun e => !e.resp.ok)).map Event.cmd = [.mifare .MC_READ 2 []] ∧
    (read_card flags_r_tolerant env_read2_fails false (state0 blank blank)).2.out.getLast?
      = some (.done 17 20) ∧
    17 ≠ (flags_r_tolerant.uiBlocks + 1) - 1 := by
  decide

/-- A run of claim C4: `r a` on a card that accepts every command and
answers zero bytes; the trailer of sector 0 is read and stored. -/
theorem C4_read_snapshot_witness :
    flags_r.uiBlocks < 256 ∧
    read_stored flags_r (read_card flags_r env_accept false (state0 blank blank)).2
      (new_events (state0 blank blank)
        (read_card flags_r env_accept false (state0 blank blank)).2)
      ⟨.mifare .MC_READ 3 [], ⟨true, List.replicate 16 0⟩⟩ 3 :=
  ⟨by decide, C4_read_snapshot flags_r env_accept (state0 blank blank) (by decide)
    ⟨.mifare .MC_READ 3 [], ⟨true, List.replicate 16 0⟩⟩ (by decide) 3 rfl (by decide)⟩

/-- Claim C11 as stated fails: SAK 0x18 with the ATQA bit clear and an
answer to RATS that carries the Plus-2K signature gives 0x7F, not 4K; SAK
0x09 with the same answer gives 0x7F, not mini. -/
theorem C11_counterexample :
    guess_size 0x04 0x18 rats_plus2k.length (bytes rats_plus2k) 0x04 = 0x7f ∧
    classify_capacity 0x04 0x18 rats_plus2k = 0xff ∧
    guess_size 0x04 0x09 rats_plus2k.length (bytes rats_plus2k) 0x04 = 0x7f ∧
    classify_capacity 0x04 0x09 rats_plus2k = 0x13 := by
  decide

/-- Claim C11, amended.  When the tag selected again by `get_rats` has the
same ATQA, the size guess of `main` follows this rule: with ATQA byte 1 bit
0x02 clear and the Plus-2K signature in the answer to RATS it is 0x7F,
whatever SAK is; otherwise it is 4K (0xFF) when the ATQA bit is set or SAK
is 0x18, else mini (0x13) when SAK is 0x09, else the baseline 0x3F.  So the
ATQA bit always gives 4K, and SAK 0x18 or 0x09 give 4K or mini exactly when
the signature is absent. -/
theorem C11_size_guess (atqa1 sak : Nat) (res : Int) (abtRx : Nat → Nat) :
    guess_size atqa1 sak res abtRx atqa1 =
      (if rats_signature res abtRx ∧ atqa1 &&& 0x02 = 0x00 then 0x7f
       else if atqa1 &&& 0x02 = 0x02 ∨ sak = 0x18 then 0xff
       else if sak = 0x09 then 0x13
       else 0x3f) ∧
    (atqa1 &&& 0x02 = 0x02 → guess_size atqa1 sak res abtRx atqa1 = 0xff) ∧
    (¬ rats_signature res abtRx → sak = 0x18 → guess_size atqa1 sak res abtRx atqa1 = 0xff) ∧
    (¬ rats_signature res abtRx → atqa1 &&& 0x02 ≠ 0x02 → sak = 0x09 →
      guess_size atqa1 sak res abtRx atqa1 = 0x13) := by
  have key : guess_size atqa1 sak res abtRx atqa1 =
      (if rats_signature res abtRx ∧ atqa1 &&& 0x02 = 0x00 then 0x7f
       else if atqa1 &&& 0x02 = 0x02 ∨ sak = 0x18 then 0xff
       else if sak = 0x09 then 0x13
       else 0x3f) := by
    unfold guess_size rats_signature
    by_cases hs : (res ≥ 10 ∧ abtRx 5 = 0xc1 ∧ abtRx 6 = 0x05 ∧ abtRx 7 = 0x2f ∧
        abtRx 8 = 0x2f) ∧ atqa1 &&& 0x02 = 0x00
    · have hpos : res > 0 := by omega
      obtain ⟨⟨h1, h2, h3, h4, h5⟩, h6⟩ := hs
      simp [hpos, h1, h2, h3, h4, h5, h6]
    · rw [if_neg hs]
      by_cases hpos : res > 0
      · simp only [hpos, if_true]
        rw [if_neg]
        · simp
        · intro hc
          apply hs
          simp only [Bool.and_eq_true, decide_eq_true_eq, beq_iff_eq] at hc
          obtain ⟨⟨⟨⟨⟨h1, h2⟩, h3⟩, h4⟩, h5⟩, h6⟩ := hc
          exact ⟨⟨h1, h2, h3, h4, h5⟩, h6⟩
      · simp [hpos]
  refine ⟨key, ?_, ?_, ?_⟩
  · intro h
    rw [key, if_neg (by rw [h]; simp), if_pos (Or.inl h)]
  · intro hn hs
    rw [key, if_neg (fun h => hn h.1), if_pos (Or.inr hs)]
  · intro hn ha hs
    rw [key, if_neg (fun h => hn h.1), if_neg (by rw [hs]; simp [ha]), if_pos hs]

/-- Claim C11 at SAK 0x18 with ATQA 00 44 and no answer to RATS: 4K. -/
theorem C11_size_guess_witness : guess_size 0x44 0x18 0 (bytes []) 0x44 = 0xff :=
  (C11_size_guess 0x44 0x18 0 (bytes [])).2.2.1 (by decide) rfl

/-- The state `unlock_card` ends in when unlock command 1 is not
acknowledged. -/
theorem unlock_card_refused (env : Env) (write : Bool) (s : State)
    (h0 : s.unlocked = false)
    (hp : ∀ h p, (env h (.set_property p false)).ok = true)
    (h1 : ∀ h, (env h (.transceive_bits abtUnlock1 7)).ok = false)
    (hs : ∀ h, (env h (.select s.nt_uid)).ok = true) :
    unlock_card env write s =
      (.ret true, (issue env (.select s.nt_uid)
        { (issue env (.transceive_bits abtUnlock1 7) (issue env (.transceive_bytes abtHalt)
            (issue env (.set_property .NP_EASY_FRAMING false)
              (issue env (.set_property .NP_HANDLE_CRC false) s).2).2).2).2
          with dWrite := true }).2) := by
  unfold unlock_card unlock_commands transmit_bytes transmit_bits
  simp only [select_nostore_eq, issue_fst, issue_unlocked, issue_nt_uid, hp, h1, hs, h0,
    Bool.not_true, Bool.not_false, Bool.false_eq_true, if_false, if_true]

/-- Claim C12.  On a reader that accepts the property settings and the
select, with a card that does not acknowledge unlock command 1, and with
`unlocked` still false at the call, `unlock_card` returns true for either
value of `write`, leaves `unlocked` false, sets `dWrite`, and issues exactly
the two property settings, the halt, unlock command 1 and the reselect:
unlock command 2 is never sent. -/
theorem C12_unlock_not_acknowledged (env : Env) (write : Bool) (s : State)
    (h0 : s.unlocked = false)
    (hp : ∀ h p, (env h (.set_property p false)).ok = true)
    (h1 : ∀ h, (env h (.transceive_bits abtUnlock1 7)).ok = false)
    (hs : ∀ h, (env h (.select s.nt_uid)).ok = true) :
    (unlock_card env write s).1 = .ret true ∧
    (unlock_card env write s).2.unlocked = false ∧
    (unlock_card env write s).2.dWrite = true ∧
    Issued s (unlock_card env write s).2
      [.set_property .NP_HANDLE_CRC false, .set_property .NP_EASY_FRAMING false,
       .transceive_bytes abtHalt, .transceive_bits abtUnlock1 7, .select s.nt_uid] ∧
    ∀ e ∈ new_events s (unlock_card env write s).2, e.cmd ≠ .transceive_bytes abtUnlock2 := by
  have hI : Issued s (unlock_card env write s).2
      [.set_property .NP_HANDLE_CRC false, .set_property .NP_EASY_FRAMING false,
       .transceive_bytes abtHalt, .transceive_bits abtUnlock1 7, .select s.nt_uid] := by
    rw [unlock_card_refused env write s h0 hp h1 hs]
    have a1 := issued_issue env (.set_property .NP_HANDLE_CRC false) s
    have a2 := issued_trans a1 (issued_issue env (.set_property .NP_EASY_FRAMING false) _)
    have a3 := issued_trans a2 (issued_issue env (.transceive_bytes abtHalt) _)
    have a4 := issued_trans a3 (issued_issue env (.transceive_bits abtUnlock1 7) _)
    exact issued_trans a4 (issued_of_trace_eq rfl (issued_issue env (.select s.nt_uid) _))
  refine ⟨?_, ?_, ?_, hI, ?_⟩
  · rw [unlock_card_refused env write s h0 hp h1 hs]
  · rw [unlock_card_refused env write s h0 hp h1 hs]
    simp [issue_unlocked, h0]
  · rw [unlock_card_refused env write s h0 hp h1 hs]
    simp [issue_dWrite]
  · intro e he hc
    have hm := new_events_of_issued hI
    have : e.cmd ∈ (new_events s (unlock_card env write s).2).map Event.cmd :=
      List.mem_map_of_mem _ he
    rw [hm, hc] at this
    simp [abtUnlock2, abtHalt] at this

/-- Claim C12 on an ordinary card, for `write` false: the five commands are
issued and `dWrite` is set. -/
theorem C12_unlock_not_acknowledged_witness :
    (state0 blank blank).unlocked = false ∧
    (unlock_card env_no_backdoor false (state0 blank blank)).1 = .ret true ∧
    (unlock_card env_no_backdoor false (state0 blank blank)).2.unlocked = false ∧
    (unlock_card env_no_backdoor false (state0 blank blank)).2.dWrite = true ∧
    Issued (state0 blank blank) (unlock_card env_no_backdoor false (state0 blank blank)).2
      [.set_property .NP_HANDLE_CRC false, .set_property .NP_EASY_FRAMING false,
       .transceive_bytes abtHalt, .transceive_bits abtUnlock1 7,
       .select (state0 blank blank).nt_uid] ∧
    ∀ e ∈ new_events (state0 blank blank)
      (unlock_card env_no_backdoor false (state0 blank blank)).2,
      e.cmd ≠ .transceive_bytes abtUnlock2 :=
  ⟨rfl, C12_unlock_not_acknowledged env_no_backdoor false (state0 blank blank) rfl
    (fun _ _ => rfl) (fun _ => rfl) (fun _ => rfl)⟩

theorem last_set_append_one (p : nfc_property) (l : List Event) (e : Event) :
    last_set p (l ++ [e]) =
      match e.cmd with
      | .set_property q b => if q = p then some b else last_set p l
      | _ => last_set p l := by
  simp only [last_set, List.foldl_append, List.foldl_cons, List.foldl_nil]

/-- The value last set depends on the commands only. -/
theorem last_set_cmds (p : nfc_property) (l : List Event) :
    last_set p l = (l.map Event.cmd).foldl (fun acc c =>
      match c with
      | .set_property q b => if q = p then some b else acc
      | _ => acc) none := by
  simp only [last_set, List.foldl_map]

/-- An event that sets no property. -/
theorem last_set_append_other (p : nfc_property) (l : List Event) (e : Event)
    (h : ∀ q b, e.cmd ≠ .set_property q b) : last_set p (l ++ [e]) = last_set p l := by
  rw [last_set_append_one]
  split
  · next q b hc => exact absurd hc (h q b)
  · rfl

theorem last_set_append_quiet (p : nfc_property) (l : List Event) :
    ∀ l2 : List Event, (∀ e ∈ l2, ∀ q b, e.cmd ≠ .set_property q b) →
      last_set p (l ++ l2) = last_set p l := by
  intro l2
  induction l2 using List.reverseRecOn with
  | nil => intro _; simp
  | append_singleton l2 e ih =>
    intro h
    rw [← List.append_assoc, last_set_append_other p _ e (h e (by simp))]
    exact ih (fun x hx => h x (by simp [hx]))

/-- The unlock commands set no property. -/
theorem unlock_commands_quiet (env : Env) (s : State) :
    Grows (fun e => ∀ q b, e.cmd ≠ .set_property q b) s (unlock_commands env s) := by
  unfold unlock_commands transmit_bits transmit_bytes
  simp only []
  have h1 : Grows (fun e => ∀ q b, e.cmd ≠ .set_property q b) s
      (issue env (.transceive_bits abtUnlock1 7) s).2 :=
    grows_mono (issue_grows env _ s) (fun e h => by simp [h])
  have h2 := grows_trans h1 (grows_mono (issue_grows env (.transceive_bytes abtUnlock2)
    (issue env (.transceive_bits abtUnlock1 7) s).2) (fun e h => by simp [h]))
  split
  · exact grows_trans h1 (grows_of_eq _ rfl)
  · split
    · exact grows_trans h2 (grows_of_eq _ rfl)
    · exact h2

/-- Claim C15 as stated fails on an ordinary card, which does not
acknowledge unlock command 1: `unlock_card` returns true and the values last
set for `NP_HANDLE_CRC` and `NP_EASY_FRAMING` are false. -/
theorem C15_counterexample :
    (unlock_card env_no_backdoor true (state0 blank blank)).1 = .ret true ∧
    last_set .NP_HANDLE_CRC (new_events (state0 blank blank)
      (unlock_card env_no_backdoor true (state0 blank blank)).2) = some false ∧
    last_set .NP_EASY_FRAMING (new_events (state0 blank blank)
      (unlock_card env_no_backdoor true (state0 blank blank)).2) = some false := by
  decide

/-- Claim C15, amended.  Whenever `unlock_card` returns true, the value last
set for `NP_HANDLE_CRC` and for `NP_EASY_FRAMING` is the value of
`unlocked`: both properties are enabled again exactly when the card was
unlocked; for a card that was not unlocked the reader is reselected instead
(lines 273-281) and both are left disabled. -/
theorem C15_properties_follow_unlocked (env : Env) (write : Bool) (s : State)
    (hr : (unlock_card env write s).1 = .ret true) (p : nfc_property) :
    last_set p (new_events s (unlock_card env write s).2) =
      some (unlock_card env write s).2.unlocked := by
  obtain ⟨lu, hlu, hq⟩ := unlock_commands_quiet env (issue env (.transceive_bytes abtHalt)
    (issue env (.set_property .NP_EASY_FRAMING false)
      (issue env (.set_property .NP_HANDLE_CRC false) s).2).2).2
  have a1 := issued_issue env (.set_property .NP_HANDLE_CRC false) s
  have a2 := issued_trans a1 (issued_issue env (.set_property .NP_EASY_FRAMING false) _)
  have a3 := issued_trans a2 (issued_issue env (.transceive_bytes abtHalt) _)
  obtain ⟨l3, hl3, hm⟩ := a3
  have hp3 : last_set p l3 = some false := by
    rw [last_set_cmds, hm]
    cases p <;> rfl
  rw [hl3] at hlu
  revert hr
  unfold unlock_card transmit_bytes
  simp only []
  generalize unlock_commands env (issue env (.transceive_bytes abtHalt)
    (issue env (.set_property .NP_EASY_FRAMING false)
      (issue env (.set_property .NP_HANDLE_CRC false) s).2).2).2 = s5 at hlu
  split
  · intro h; simp at h
  split
  · intro h; simp at h
  split
  · next hun =>
    split
    · intro h; simp at h
    · intro _
      have hsel := select_spec env s5.nt_uid false s5
      simp only [] at hsel
      have ht : (nfc_initiator_select_passive_target env s5.nt_uid false s5).2.trace =
          s.trace ++ (l3 ++
            (lu ++ [⟨.select s5.nt_uid, env s5.trace (.select s5.nt_uid)⟩])) := by
        rw [hsel.1, hlu]
        simp only [List.append_assoc]
      rw [new_events_of_trace ht, hsel.2.2.2.2.2.2.1, last_set_append_quiet, hp3]
      · simpa using hun
      · intro e he
        rcases List.mem_append.1 he with h | h
        · exact hq e h
        · simp only [List.mem_singleton] at h
          simp [h]
  · next hun =>
    split
    · intro h; simp at h
    split
    · intro h; simp at h
    · intro _
      have hun' : s5.unlocked = true := by simpa using hun
      have ht : (issue env (.set_property .NP_EASY_FRAMING true)
          (issue env (.set_property .NP_HANDLE_CRC true) s5).2).2.trace =
          s.trace ++ (((l3 ++ lu) ++
            [⟨.set_property .NP_HANDLE_CRC true, env s5.trace (.set_property .NP_HANDLE_CRC true)⟩]) ++
            [⟨.set_property .NP_EASY_FRAMING true,
              env (issue env (.set_property .NP_HANDLE_CRC true) s5).2.trace
                (.set_property .NP_EASY_FRAMING true)⟩]) := by
        simp only [issue_trace, hlu]
        simp only [List.append_assoc, List.singleton_append, List.cons_append, List.nil_append]
      rw [new_events_of_trace ht]
      simp only [issue_unlocked, hun', last_set_append_one]
      cases p <;> simp

/-- Claim C15 on a card that acknowledges both unlock commands (both
properties enabled again) and on an ordinary card (both left disabled). -/
theorem C15_properties_follow_unlocked_witness :
    (unlock_card env_accept true (state0 blank blank)).1 = .ret true ∧
    last_set .NP_HANDLE_CRC (new_events (state0 blank blank)
      (unlock_card env_accept true (state0 blank blank)).2) =
      some (unlock_card env_accept true (state0 blank blank)).2.unlocked ∧
    (unlock_card env_no_backdoor false (state0 blank blank)).1 = .ret true ∧
    last_set .NP_EASY_FRAMING (new_events (state0 blank blank)
      (unlock_card env_no_backdoor false (state0 blank blank)).2) =
      some (unlock_card env_no_backdoor false (state0 blank blank)).2.unlocked :=
  ⟨by decide, C15_properties_follow_unlocked env_accept true (state0 blank blank)
    (by decide) .NP_HANDLE_CRC, by decide,
    C15_properties_follow_unlocked env_no_backdoor false (state0 blank blank)
    (by decide) .NP_EASY_FRAMING⟩

theorem not_auth_of_select (c : Cmd) (h : is_select c = true) : is_auth c = false := by
  cases c <;> simp_all [is_select, is_auth]

theorem not_auth_of_not_mifare (c : Cmd) (h : is_mifare c = false) : is_auth c = false := by
  cases c <;> simp_all [is_mifare, is_auth]

/-- One iteration of the write loop, from what the start of the sector
issues. -/
theorem write_block_grows_of_start (f : Flags) (env : Env) (wbz : Bool) (u : Nat) (bF : Bool)
    (cnt : Nat) (s : State) (P : Event → Prop)
    (hs : Sub P s (write_sector_start f env wbz u bF s).state)
    (h2 : ∀ e, is_mifare e.cmd = false → P e)
    (h3 : ∀ e, e.cmd = .mifare .MC_WRITE (u % 256) (write_payload f.bFormatCard u s.mtDump) →
      P e) :
    Grows P s (write_block f env wbz u bF cnt s).state ∧
    Kept s (write_block f env wbz u bF cnt s).state := by
  unfold write_block
  split
  · next o s1 heq =>
    rw [heq] at hs
    exact ⟨hs.1, (quiet_kept hs.2)⟩
  · next bF1 s1 heq =>
    rw [heq] at hs
    have hd : s1.mtDump = s.mtDump := hs.2.1
    have hw : Sub P s1
        (if is_trailer_block u = true then write_trailer f env u bF1 s1
          else write_data f env u bF1 s1).state := by
      split
      · next ht =>
        refine sub_mono (write_trailer_sub f env u bF1 s1 ht) ?_
        intro e h
        rw [hd] at h
        exact h3 e h
      · next ht =>
        refine sub_mono (write_data_sub f env u bF1 s1 (by simpa using ht)) ?_
        intro e h
        rw [hd] at h
        rcases h with h | h
        · exact h3 e h
        · exact h2 e h
    have hsw := sub_trans hs hw
    split
    · next o s2 heq2 =>
      rw [heq2] at hsw
      exact ⟨hsw.1, (quiet_kept hsw.2)⟩
    · next bF2 s2 heq2 =>
      rw [heq2] at hsw
      have ht := tally_spec f bF2 cnt s2
      exact ⟨grows_trans hsw.1 (grows_of_eq _ ht.1), kept_trans (quiet_kept hsw.2) ht.2.1⟩

/-- With block 0 to be written and `dWrite` clear, the start of a sector
issues at most a select: `authenticate` is not called. -/
theorem write_sector_start_no_auth (f : Flags) (env : Env) (u : Nat) (bF : Bool) (s : State)
    (hd : s.dWrite = false) :
    Sub (fun e => is_select e.cmd = true) s (write_sector_start f env true u bF s).state := by
  have hr := reselect_sub env bF s
  unfold write_sector_start
  split
  · split
    · next o s1 heq => rw [heq] at hr; exact hr
    · next bF1 s1 heq =>
      rw [heq] at hr
      have hd1 : s1.dWrite = false := by rw [← hd]; exact hr.2.2.1
      simp only [hd1, Bool.and_false, Bool.not_true, Bool.or_self, Bool.false_eq_true, if_false]
      exact hr
  · exact sub_refl _ _

theorem write_loop_no_auth (f : Flags) (env : Env) :
    ∀ (n u : Nat) (bF : Bool) (cnt : Nat) (s : State), s.dWrite = false →
      Grows (fun e => is_auth e.cmd = false) s (write_loop f env true n u bF cnt s).2 := by
  intro n
  induction n with
  | zero => intro u bF cnt s _; exact grows_of_eq _ rfl
  | succ n ih =>
    intro u bF cnt s hd
    have hb := write_block_grows_of_start f env true u bF cnt s (fun e => is_auth e.cmd = false)
      (sub_mono (write_sector_start_no_auth f env u bF s hd)
        (fun e h => not_auth_of_select e.cmd h))
      (fun e h => not_auth_of_not_mifare e.cmd h)
      (fun e h => by show is_auth e.cmd = false; rw [h]; rfl)
    simp only [write_loop]
    split
    · next o s1 heq => rw [heq] at hb; exact hb.1
    · next a s1 heq =>
      rw [heq] at hb
      have hd1 : s1.dWrite = false := by rw [← hd]; exact hb.2.2.1
      exact grows_trans hb.1 (ih (u + 1) a.1 a.2 s1 hd1)

/-- Claim C14 does not hold: in a write pass with block 0 to be written,
when `dWrite` is clear after the unlock sequence (unlock command 1 was
acknowledged, or the sequence stopped before it), `authenticate` is never
called, whether or not the card was unlocked: no authentication command is
issued in the whole pass. -/
theorem C14_no_authentication (f : Flags) (env : Env) (s : State)
    (hd : (unlock_card env true s).2.dWrite = false) :
    ∀ e ∈ new_events s (write_card f env true s).2, is_auth e.cmd = false := by
  have hu : Grows (fun e => is_auth e.cmd = false) s (unlock_card env true s).2 :=
    grows_mono (unlock_card_spec env true s).1
      (fun e h => not_auth_of_not_mifare e.cmd h)
  have hw : Grows (fun e => is_auth e.cmd = false) s (write_card f env true s).2 := by
    unfold write_card
    simp only [if_true]
    split
    · exact hu
    · exact grows_trans hu (write_loop_no_auth f env _ _ _ _ _ hd)
  intro e he
  exact mem_new_events_of_grows hw he

set_option maxRecDepth 100000 in
/-- Claim C14 fails on a card that acknowledges unlock command 1 but not
unlock command 2: the block loop starts with `unlocked` false, the pass
writes the twenty blocks and returns true, and no authentication command is
issued. -/
theorem C14_no_authentication_witness :
    (unlock_card env_half_unlock true (state0 blank blank)).2.dWrite = false ∧
    (write_start env_half_unlock true (state0 blank blank)).map State.unlocked = some false ∧
    (write_card flags_w env_half_unlock true (state0 blank blank)).1 = .ret true ∧
    (new_events (state0 blank blank)
      (write_card flags_w env_half_unlock true (state0 blank blank)).2).filterMap
        (fun e => written_block e.cmd) = List.range 20 ∧
    ∀ e ∈ new_events (state0 blank blank)
      (write_card flags_w env_half_unlock true (state0 blank blank)).2, is_auth e.cmd = false :=
  ⟨by decide, by decide, by decide, by decide,
    C14_no_authentication flags_w env_half_unlock (state0 blank blank) (by decide)⟩

theorem grows_and {P Q : Event → Prop} {s s' : State} (h1 : Grows P s s') (h2 : Grows Q s s') :
    Grows (fun e => P e ∧ Q e) s s' := by
  obtain ⟨l1, e1, p1⟩ := h1
  obtain ⟨l2, e2, p2⟩ := h2
  have : l1 = l2 := List.append_cancel_left (e1.symm.trans e2)
  subst this
  exact ⟨l1, e1, fun e he => ⟨p1 e he, p2 e he⟩⟩

theorem written_block_auth_or_select (e : Event) (h : auth_or_select e) :
    written_block e.cmd = none := by
  rcases h with h | h <;> revert h <;> cases e.cmd <;> simp [is_auth, is_select, written_block]
  all_goals (rename_i mc _ _; cases mc <;> simp [is_auth, written_block])

theorem written_block_not_mifare (e : Event) (h : is_mifare e.cmd = false) :
    written_block e.cmd = none := by
  revert h; cases e.cmd <;> simp [is_mifare, written_block]

/-- Inside a sector the start of the iteration does nothing. -/
theorem write_sector_start_inside (f : Flags) (env : Env) (wbz : Bool) (u : Nat) (bF : Bool)
    (s : State) (h : (u == 1 || is_first_block u) = false) :
    write_sector_start f env wbz u bF s = .ok bF s := by
  unfold write_sector_start
  rw [h]
  simp

/-- The trailer branch goes on, with `bFailure` set when it was set or the
write command failed. -/
theorem write_trailer_flag (f : Flags) (env : Env) (u : Nat) (bF : Bool) (s : State) :
    ∃ bF2 s2, write_trailer f env u bF s = .ok bF2 s2 ∧ (bF = true → bF2 = true) ∧
      Grows (fun e => e.resp.ok = false → bF2 = true) s s2 := by
  unfold write_trailer
  simp only [mifare_write_eq]
  generalize (if f.bFormatCard = true then
      memcpy (memcpy (memcpy s.mp 0 (bytes default_key) 6) 6 (bytes default_acl) 4)
        10 (bytes default_key) 6
    else
      memcpy (memcpy (memcpy s.mp 0 (fun j => s.mtDump u j) 6)
        6 (fun j => s.mtDump u (6 + j)) 4) 10 (fun j => s.mtDump u (10 + j)) 6) = mp1
  cases hok : (env s.trace (.mifare .MC_WRITE (u % 256) (take_bytes mp1 16))).ok
  · refine ⟨true, (issue env (.mifare .MC_WRITE (u % 256) (take_bytes mp1 16))
      { s with mp := mp1 }).2, by simp [hok], fun _ => rfl, ?_⟩
    exact grows_one _ ⟨_, _⟩ rfl (fun _ => rfl)
  · refine ⟨bF, (issue env (.mifare .MC_WRITE (u % 256) (take_bytes mp1 16))
      { s with mp := mp1 }).2, by simp [hok], id, ?_⟩
    refine grows_one _ ⟨_, _⟩ rfl ?_
    intro h
    simp only [] at h
    rw [hok] at h
    exact absurd h (by simp)

/-- The data branch, when it goes on: `bFailure` is set when it was set or
the write command failed. -/
theorem write_data_flag (f : Flags) (env : Env) (u : Nat) (bF : Bool) (s : State)
    (bF2 : Bool) (s2 : State) (h : write_data f env u bF s = .ok bF2 s2) :
    (bF = true → bF2 = true) ∧
    Grows (fun e => is_write e.cmd = true → e.resp.ok = false → bF2 = true) s s2 := by
  unfold write_data at h
  cases bF
  · refine ⟨fun h => absurd h (by simp), ?_⟩
    simp only [Bool.not_false, if_true, mifare_write_eq] at h
    generalize (if (f.bFormatCard && u != 0) = true then memcpy s.mp 0 (fun _ => 0x00) 16
      else memcpy s.mp 0 (fun j => s.mtDump u j) 16) = mp1 at h
    split at h
    · exact absurd h (by simp)
    · have hw : Grows (fun e => is_write e.cmd = true → e.resp.ok = false →
          (if (!(env s.trace (.mifare .MC_WRITE (u % 256)
            (take_bytes mp1 16))).ok) = true then true
            else false) = true) s
          (issue env (.mifare .MC_WRITE (u % 256)
            (take_bytes mp1 16)) { s with mp := mp1 }).2 := by
        refine grows_one _ ⟨_, _⟩ rfl ?_
        intro _ h2
        simp only [] at h2
        simp [h2]
      split at h
      · rcases (reinit_shape env _ _).1 with h1 | h1 | h1
        · rw [h1] at h; exact absurd h (by simp)
        · rw [h1] at h; exact absurd h (by simp)
        · have hr := (reinit_sub env (if (!(env s.trace (.mifare .MC_WRITE (u % 256)
            (take_bytes mp1 16))).ok) = true then true
            else false) (issue env (.mifare .MC_WRITE (u % 256)
            (take_bytes mp1 16)) { s with mp := mp1 }).2).1
          rw [h1] at h
          injection h with hb hs
          rw [← hb, ← hs]
          refine grows_trans hw (grows_mono hr ?_)
          intro e he hw2
          rw [not_write_of_not_mifare e he] at hw2
          exact absurd hw2 (by simp)
      · injection h with hb hs
        rw [← hb, ← hs]
        exact hw
  · simp only [Bool.not_true, Bool.false_eq_true, if_false] at h
    injection h with hb hs
    rw [← hb, ← hs]
    exact ⟨fun _ => rfl, grows_of_eq _ rfl⟩

/-- The data branch with `bFailure` set does nothing. -/
theorem write_data_skip (f : Flags) (env : Env) (u : Nat) (s : State) :
    write_data f env u true s = .ok true s := by
  simp [write_data]

/-- The two ways the tally ends: it goes on with the mark written and the
count raised for a block that did not fail, or it returns false after the
mark of a failure. -/
theorem tally_shape (f : Flags) (bF : Bool) (cnt : Nat) (s : State) :
    tally f bF cnt s = .ok (bF, if bF = true then cnt else cnt + 1)
        { s with out := s.out ++ [.mark bF] } ∨
      (bF = true ∧
        tally f bF cnt s = .stop (.ret false) { s with out := s.out ++ [.mark true] }) := by
  unfold tally print_success_or_failure
  cases bF <;> cases f.bTolerateFailures <;> simp

/-- The trailer or data branch of an iteration: it leaves the output alone,
and when it goes on `bFailure` is set when it was set or the write command
failed. -/
theorem write_mid_flag (f : Flags) (env : Env) (u : Nat) (bF : Bool) (s : State) :
    Quiet s (if is_trailer_block u = true then write_trailer f env u bF s
      else write_data f env u bF s).state ∧
    ∀ bF2 s2, (if is_trailer_block u = true then write_trailer f env u bF s
        else write_data f env u bF s) = .ok bF2 s2 →
      (bF = true → bF2 = true) ∧
      Grows (fun e => is_write e.cmd = true → e.resp.ok = false → bF2 = true) s s2 := by
  split
  · refine ⟨(write_trailer_inner f env u bF s).2, ?_⟩
    intro bF2 s2 h
    obtain ⟨b, s1, h1, h2, h3⟩ := write_trailer_flag f env u bF s
    rw [h1] at h
    injection h with hb hs
    subst hb; subst hs
    exact ⟨h2, grows_mono h3 (fun e he _ => he)⟩
  · exact ⟨(write_data_inner f env u bF s).2, write_data_flag f env u bF s⟩

/-- One iteration of the write loop: its write commands are for its own
block; a data block inside a sector with `bFailure` set issues nothing; when
the iteration goes on it has written the mark of the new `bFailure`, counted
the block unless it failed, and `bFailure` is set when a write command
failed, or when it was set and the block does not start a sector; when it
leaves the function it has written no mark or the mark of a failure. -/
theorem write_block_shape (f : Flags) (env : Env) (wbz : Bool) (u : Nat) (bF : Bool)
    (cnt : Nat) (s : State) (hu : u < 256) :
    Grows (fun e => ∀ b, written_block e.cmd = some b → b = u) s
      (write_block f env wbz u bF cnt s).state ∧
    (bF = true → (u == 1 || is_first_block u) = false → is_trailer_block u = false →
      (write_block f env wbz u bF cnt s).state.trace = s.trace) ∧
    (∀ a s1, write_block f env wbz u bF cnt s = .ok a s1 →
      s1.out = s.out ++ [.mark a.1] ∧ a.2 = (if a.1 = true then cnt else cnt + 1) ∧
      (bF = true → (u == 1 || is_first_block u) = false → a.1 = true) ∧
      Grows (fun e => is_write e.cmd = true → e.resp.ok = false → a.1 = true) s s1) ∧
    (∀ o s1, write_block f env wbz u bF cnt s = .stop o s1 →
      s1.out = s.out ∨ s1.out = s.out ++ [.mark true]) := by
  have hs := write_sector_start_sub f env wbz u bF s
  refine ⟨?_, ?_, ?_, ?_⟩
  · refine (write_block_grows f env wbz u bF cnt s _ ?_ ?_ ?_).1
    · intro e h b hb
      rw [written_block_auth_or_select e h] at hb
      exact absurd hb (by simp)
    · intro e h b hb
      rw [written_block_not_mifare e h] at hb
      exact absurd hb (by simp)
    · intro e h b hb
      rw [h, Nat.mod_eq_of_lt hu] at hb
      simp only [written_block, Option.some.injEq] at hb
      exact hb.symm
  · intro hb hst ht
    unfold write_block
    subst hb
    simp only [write_sector_start_inside f env wbz u true s hst, ht, Bool.false_eq_true,
      if_false, write_data_skip]
    exact tally_trace f true cnt s
  · intro a s1 h
    unfold write_block at h
    cases hst : write_sector_start f env wbz u bF s with
    | stop o s0 => rw [hst] at h; exact absurd h (by simp)
    | ok bF1 s0 =>
      rw [hst] at h hs
      simp only [] at h
      have hm := write_mid_flag f env u bF1 s0
      cases hmid : (if is_trailer_block u = true then write_trailer f env u bF1 s0
          else write_data f env u bF1 s0) with
      | stop o s2 => rw [hmid] at h; exact absurd h (by simp)
      | ok bF2 s2 =>
        rw [hmid] at h hm
        simp only [] at h
        obtain ⟨hq, hfl⟩ := hm
        obtain ⟨hkeep, hg⟩ := hfl bF2 s2 rfl
        have hout : s2.out = s.out := hq.2.2.2.trans hs.2.2.2.2
        have hg0 : Grows (fun e => is_write e.cmd = true → e.resp.ok = false → bF2 = true)
            s s0 := by
          refine grows_mono hs.1 ?_
          intro e he hw
          rw [not_write_of_auth_or_select e he] at hw
          exact absurd hw (by simp)
        rcases tally_shape f bF2 cnt s2 with ht | ⟨_, ht⟩
        · rw [ht] at h
          injection h with ha hs1
          subst ha; subst hs1
          refine ⟨by simp [hout], rfl, ?_, grows_trans hg0 (grows_trans hg (grows_of_eq _ rfl))⟩
          intro hb hin
          rw [write_sector_start_inside f env wbz u bF s hin] at hst
          injection hst with h1 _
          exact hkeep (by rw [← h1]; exact hb)
        · rw [ht] at h
          exact absurd h (by simp)
  · intro o s1 h
    unfold write_block at h
    cases hst : write_sector_start f env wbz u bF s with
    | stop o0 s0 =>
      rw [hst] at h hs
      simp only [] at h
      injection h with _ hs1
      subst hs1
      exact Or.inl hs.2.2.2.2
    | ok bF1 s0 =>
      rw [hst] at h hs
      simp only [] at h
      have hm := (write_mid_flag f env u bF1 s0).1
      cases hmid : (if is_trailer_block u = true then write_trailer f env u bF1 s0
          else write_data f env u bF1 s0) with
      | stop o2 s2 =>
        rw [hmid] at h hm
        simp only [] at h
        injection h with _ hs1
        subst hs1
        exact Or.inl (hm.2.2.2.trans hs.2.2.2.2)
      | ok bF2 s2 =>
        rw [hmid] at h hm
        simp only [] at h
        have hout : s2.out = s.out := hm.2.2.2.trans hs.2.2.2.2
        rcases tally_shape f bF2 cnt s2 with ht | ⟨_, ht⟩
        · rw [ht] at h
          exact absurd h (by simp)
        · rw [ht] at h
          injection h with _ hs1
          subst hs1
          exact Or.inr (by simp [hout])

theorem is_write_of_written (c : Cmd) (b : Nat) (h : written_block c = some b) :
    is_write c = true := by
  cases c <;> simp [written_block] at h ⊢
  rename_i mc _ _
  cases mc <;> simp [written_block, is_write] at h ⊢

/-- A data block strictly between a block and the trailer of its sector. -/
theorem interior_not_trailer (b : Nat) (hb : b < 256) (v : Nat) (h1 : b < v)
    (h2 : v < get_trailer_block b) : is_trailer_block v = false := by
  rw [get_trailer_block_small b hb] at h2
  rw [is_trailer_block_false v (by split at h2 <;> omega)]
  split at h2 <;> omega

/-- A block skipped by the rest of the loop is skipped by the loop, when the
iteration before the rest writes to its own block only. -/
theorem skipped_cons (Lu L : List Event) (x : Out) (O : List Out) (u v : Nat) (huv : u < v)
    (hu : ∀ e ∈ Lu, ∀ b, written_block e.cmd = some b → b = u)
    (h : Skipped L O v (v - (u + 1))) : Skipped (Lu ++ L) (x :: O) v (v - u) := by
  constructor
  · intro e he hw
    rcases List.mem_append.1 he with h1 | h1
    · have := hu e h1 v hw
      omega
    · exact h.1 e h1 hw
  · intro o ho
    have hi : v - u = (v - (u + 1)) + 1 := by omega
    rw [hi, List.getElem?_cons_succ] at ho
    exact h.2 o ho

/-- The write loop from block `u` with `n` blocks to go: its write commands
are for blocks from `u` on; with `bFailure` set, the data blocks before the
next start of a sector are skipped; after a failed write command of a block
other than block 0, the data blocks that follow it in its sector are
skipped; and the count of the final report is the count at the start plus
the number of marks of success. -/
theorem write_loop_skip (f : Flags) (env : Env) (wbz : Bool) :
    ∀ (n u : Nat) (bF : Bool) (cnt : Nat) (s : State), u + n ≤ 256 →
      ∃ L O, (write_loop f env wbz n u bF cnt s).2.trace = s.trace ++ L ∧
        (write_loop f env wbz n u bF cnt s).2.out = s.out ++ O ∧
        (∀ e ∈ L, ∀ b, written_block e.cmd = some b → u ≤ b) ∧
        (bF = true → ∀ v, u ≤ v → v < u + n →
          (∀ w, u ≤ w → w ≤ v → (w == 1 || is_first_block w) = false) →
          is_trailer_block v = false → Skipped L O v (v - u)) ∧
        (∀ e ∈ L, ∀ b, written_block e.cmd = some b → e.resp.ok = false → b ≠ 0 →
          ∀ v, b < v → v < get_trailer_block b → v < u + n → Skipped L O v (v - u)) ∧
        (∀ k m, Out.done k m ∈ O → k = cnt + O.count (.mark false)) := by
  intro n
  induction n with
  | zero =>
    intro u bF cnt s _
    refine ⟨[], [.done cnt (f.uiBlocks + 1)], by simp [write_loop, finish],
      by simp [write_loop, finish], by simp, ?_, by simp, ?_⟩
    · intro _ v h1 h2
      omega
    · intro k m h
      simp only [List.mem_singleton, Out.done.injEq] at h
      simp [h.1]
  | succ n ih =>
    intro u bF cnt s hun
    have hu : u < 256 := by omega
    obtain ⟨hW, hskip, hok, hstop⟩ := write_block_shape f env wbz u bF cnt s hu
    simp only [write_loop]
    cases hb : write_block f env wbz u bF cnt s with
    | stop o s1 =>
      rw [hb] at hW hskip
      simp only [Res.state] at hW hskip
      obtain ⟨Lu, hLu, hWu⟩ := hW
      have hO : ∃ O, s1.out = s.out ++ O ∧ ∀ x ∈ O, x = Out.mark true := by
        rcases hstop o s1 hb with ho | ho
        · exact ⟨[], by simp [ho], by simp⟩
        · exact ⟨[.mark true], ho, by simp⟩
      obtain ⟨O, hO1, hO2⟩ := hO
      have hmark : ∀ i o, O[i]? = some o → o = Out.mark true :=
        fun i o h => hO2 o (List.getElem?_mem h)
      refine ⟨Lu, O, hLu, hO1, ?_, ?_, ?_, ?_⟩
      · intro e he b hbk
        exact le_of_eq (hWu e he b hbk).symm
      · intro hbF v hv1 hv2 hint htr
        refine ⟨?_, hmark _⟩
        intro e he hw
        have hvu := hWu e he v hw
        subst hvu
        have hnil : Lu = [] := by
          have := hskip hbF (hint v (le_refl _) (le_refl _)) htr
          rw [hLu] at this
          exact List.append_right_eq_self.1 this
        rw [hnil] at he
        exact absurd he (by simp)
      · intro e he b hbk _ _ v hv1 _ _
        refine ⟨?_, hmark _⟩
        intro e2 he2 hw2
        have h1 := hWu e he b hbk
        have h2 := hWu e2 he2 v hw2
        omega
      · intro k m h
        exact absurd (hO2 _ h) (by simp)
    | ok a s1 =>
      rw [hb] at hW hskip
      simp only [Res.state] at hW hskip
      obtain ⟨hout, hcnt, hkeep, hflag⟩ := hok a s1 hb
      obtain ⟨L1, O1, hL1, hO1, W1, W2, W3, W4⟩ := ih (u + 1) a.1 a.2 s1 (by omega)
      obtain ⟨Lu, hLu, hWu⟩ := hW
      obtain ⟨Lu2, hLu2, hFu⟩ := hflag
      have hsame : Lu2 = Lu := List.append_cancel_left (hLu2.symm.trans hLu)
      subst hsame
      refine ⟨Lu2 ++ L1, .mark a.1 :: O1, by rw [hL1, hLu, List.append_assoc],
        by rw [hO1, hout]; simp, ?_, ?_, ?_, ?_⟩
      · intro e he b hbk
        rcases List.mem_append.1 he with h | h
        · exact le_of_eq (hWu e h b hbk).symm
        · have := W1 e h b hbk
          omega
      · intro hbF v hv1 hv2 hint htr
        have hin := hint u (le_refl _) hv1
        have ha : a.1 = true := hkeep hbF hin
        by_cases hvu : v = u
        · subst hvu
          have hnil : Lu2 = [] := by
            have := hskip hbF hin htr
            rw [hLu] at this
            exact List.append_right_eq_self.1 this
          constructor
          · intro e he hw
            rw [hnil, List.nil_append] at he
            have := W1 e he v hw
            omega
          · intro o ho
            simp only [Nat.sub_self, List.getElem?_cons_zero, Option.some.injEq] at ho
            rw [← ho, ha]
        · exact skipped_cons Lu2 L1 _ O1 u v (by omega) hWu
            (W2 ha v (by omega) (by omega) (fun w h1 h2 => hint w (by omega) h2) htr)
      · intro e he b hbk hf hb0 v hv1 hv2 hv3
        rcases List.mem_append.1 he with h | h
        · have hbu := hWu e h b hbk
          subst hbu
          have ha : a.1 = true := hFu e h (is_write_of_written _ _ hbk) hf
          exact skipped_cons Lu2 L1 _ O1 b v hv1 hWu
            (W2 ha v (by omega) (by omega)
              (fun w h1 h2 => sector_interior b hu hb0 w (by omega) (by omega))
              (interior_not_trailer b hu v hv1 hv2))
        · have hb1 := W1 e h b hbk
          exact skipped_cons Lu2 L1 _ O1 u v (by omega) hWu
            (W3 e h b hbk hf hb0 v hv1 hv2 (by omega))
      · intro k m h
        have h1 : Out.done k m ∈ O1 := by
          rcases List.mem_cons.1 h with h | h
          · exact absurd h (by simp)
          · exact h
        have h2 := W4 k m h1
        rw [h2, hcnt]
        cases a.1
        · simp [List.count_cons]; omega
        · simp [List.count_cons]

theorem reselect_stop (env : Env) (bF : Bool) (s : State) (o : Outcome) (s1 : State)
    (h : reselect_on_failure env bF s = .stop o s1) : o ≠ .ret true := by
  unfold reselect_on_failure at h
  split at h
  · simp only [] at h
    split at h
    · injection h with h1 _; rw [← h1]; simp
    · exact absurd h (by simp)
  · exact absurd h (by simp)

theorem write_sector_start_stop (f : Flags) (env : Env) (wbz : Bool) (u : Nat) (bF : Bool)
    (s : State) (o : Outcome) (s1 : State)
    (h : write_sector_start f env wbz u bF s = .stop o s1) : o ≠ .ret true := by
  unfold write_sector_start at h
  split at h
  · split at h
    · next o2 s2 heq =>
      injection h with h1 _
      rw [← h1]
      exact reselect_stop env bF s o2 s2 heq
    · split at h
      · simp only [] at h
        split at h
        · injection h with h1 _; rw [← h1]; simp
        · exact absurd h (by simp)
      · exact absurd h (by simp)
  · exact absurd h (by simp)

theorem write_mid_stop (f : Flags) (env : Env) (u : Nat) (bF : Bool) (s : State)
    (o : Outcome) (s1 : State)
    (h : (if is_trailer_block u = true then write_trailer f env u bF s
      else write_data f env u bF s) = .stop o s1) : o ≠ .ret true := by
  split at h
  · obtain ⟨b, s2, h1, _⟩ := write_trailer_flag f env u bF s
    rw [h1] at h
    exact absurd h (by simp)
  · unfold write_data at h
    cases bF
    · simp only [Bool.not_false, if_true] at h
      generalize (if (f.bFormatCard && u != 0) = true then memcpy s.mp 0 (fun _ => 0x00) 16
        else memcpy s.mp 0 (fun j => s.mtDump u j) 16) = mp1 at h
      split at h
      · injection h with h1 _; rw [← h1]; simp
      · split at h
        · rcases (reinit_shape env (if (!(nfc_initiator_mifare_cmd env .MC_WRITE u
              { s with mp := mp1 }).1) = true then true else false)
            (nfc_initiator_mifare_cmd env .MC_WRITE u { s with mp := mp1 }).2).1 with h2 | h2 | h2
          · rw [h2] at h; injection h with h1 _; rw [← h1]; simp
          · rw [h2] at h; injection h with h1 _; rw [← h1]; simp
          · rw [h2] at h; exact absurd h (by simp)
        · exact absurd h (by simp)
    · simp only [Bool.not_true, Bool.false_eq_true, if_false] at h
      exact absurd h (by simp)

/-- An iteration of the write loop never leaves the function with
`return true`. -/
theorem write_block_stop (f : Flags) (env : Env) (wbz : Bool) (u : Nat) (bF : Bool)
    (cnt : Nat) (s : State) (o : Outcome) (s1 : State)
    (h : write_block f env wbz u bF cnt s = .stop o s1) : o ≠ .ret true := by
  unfold write_block at h
  split at h
  · next o2 s2 heq =>
    injection h with h1 _
    rw [← h1]
    exact write_sector_start_stop f env wbz u bF s o2 s2 heq
  · split at h
    · next o2 s2 heq =>
      injection h with h1 _
      rw [← h1]
      exact write_mid_stop f env u _ _ o2 s2 heq
    · next bF2 s2 _ =>
      rcases tally_shape f bF2 cnt s2 with ht | ⟨_, ht⟩
      · rw [ht] at h; exact absurd h (by simp)
      · rw [ht] at h; injection h with h1 _; rw [← h1]; simp

/-- A write loop that returns true has printed one mark for each of its
blocks and the final report. -/
theorem write_loop_length (f : Flags) (env : Env) (wbz : Bool) :
    ∀ (n u : Nat) (bF : Bool) (cnt : Nat) (s : State), u + n ≤ 256 →
      (write_loop f env wbz n u bF cnt s).1 = .ret true →
      ∃ O, (write_loop f env wbz n u bF cnt s).2.out = s.out ++ O ∧ O.length = n + 1 := by
  intro n
  induction n with
  | zero =>
    intro u bF cnt s _ _
    exact ⟨[.done cnt (f.uiBlocks + 1)], by simp [write_loop, finish], rfl⟩
  | succ n ih =>
    intro u bF cnt s hun
    obtain ⟨_, _, hok, _⟩ := write_block_shape f env wbz u bF cnt s (by omega)
    simp only [write_loop]
    cases hb : write_block f env wbz u bF cnt s with
    | stop o s1 =>
      intro h
      exact absurd h (write_block_stop f env wbz u bF cnt s o s1 hb)
    | ok a s1 =>
      intro h
      obtain ⟨O, hO, hlen⟩ := ih (u + 1) a.1 a.2 s1 (by omega) h
      exact ⟨.mark a.1 :: O, by rw [hO, (hok a s1 hb).1]; simp, by simp [hlen]⟩

/-- From block 1 on, or when block 0 is to be written, the guard of lines
419-420 changes nothing. -/
theorem write_loop_guarded_eq (f : Flags) (env : Env) (wbz : Bool) :
    ∀ (n u : Nat) (bF : Bool) (cnt : Nat) (s : State), (wbz = true ∨ 0 < u) →
      write_loop_guarded f env wbz n u bF cnt s = write_loop f env wbz n u bF cnt s := by
  intro n
  induction n with
  | zero => intro u bF cnt s _; rfl
  | succ n ih =>
    intro u bF cnt s h
    have hg : (!wbz && u == 0) = false := by
      rcases h with h | h
      · simp [h]
      · have : (u == 0) = false := by simp; omega
        simp [this]
    simp only [write_loop_guarded, write_loop, hg, Bool.false_eq_true, if_false]
    split
    · rfl
    · exact ih _ _ _ _ (h.imp id (fun _ => Nat.succ_pos u))

/-- With block 0 to be written both readings are the same pass. -/
theorem write_card_guarded_true (f : Flags) (env : Env) (s : State) :
    write_card_guarded f env true s = write_card f env true s := by
  unfold write_card_guarded write_card
  simp only [if_true]
  split
  · rfl
  · exact write_loop_guarded_eq f env true _ _ _ _ _ (Or.inl rfl)

/-- With block 0 not to be written and the guard in force, the pass is the
loop from block 1 over the `uiBlocks` blocks that follow block 0. -/
theorem write_card_guarded_false (f : Flags) (env : Env) (s : State) :
    write_card_guarded f env false s = write_loop f env false f.uiBlocks 1 false 0 s := by
  unfold write_card_guarded
  simp only [Bool.false_eq_true, if_false, write_loop_guarded, Bool.not_false, Bool.true_and,
    beq_self_eq_true, if_true]
  exact write_loop_guarded_eq f env false _ _ _ _ _ (Or.inr (by decide))

/-- The write pass, under either reading, is the unlock sequence, which
issues no MIFARE command and prints nothing, followed by the loop from the
first block visited, or the unlock sequence alone when it ends the
process. -/
theorem write_pass_loop (g : Bool) (f : Flags) (env : Env) (wbz : Bool) (s : State) :
    (∃ s1, write_pass g f env wbz s =
        write_loop f env wbz (f.uiBlocks + 1 - first_visited g wbz) (first_visited g wbz)
          false 0 s1 ∧
      Grows (fun e => is_mifare e.cmd = false) s s1 ∧ s1.out = s.out ∧
      s1.mtDump = s.mtDump) ∨
    (Grows (fun e => is_mifare e.cmd = false) s (write_pass g f env wbz s).2 ∧
      (write_pass g f env wbz s).2.out = s.out) := by
  have hu := unlock_card_spec env true s
  cases g <;> cases wbz
  · exact Or.inl ⟨s, by simp [write_pass, write_card, first_visited], grows_refl _ _, rfl, rfl⟩
  · simp only [write_pass, Bool.false_eq_true, if_false, first_visited, Bool.not_true,
      Bool.and_false, Nat.sub_zero]
    unfold write_card
    simp only [if_true]
    split
    · exact Or.inr ⟨hu.1, hu.2.2⟩
    · exact Or.inl ⟨_, rfl, hu.1, hu.2.2, hu.2.1⟩
  · exact Or.inl ⟨s, by simp [write_pass, write_card_guarded_false, first_visited],
      grows_refl _ _, rfl, rfl⟩
  · simp only [write_pass, if_true, write_card_guarded_true, first_visited, Bool.not_true,
      Bool.and_false, Bool.false_eq_true, if_false, Nat.sub_zero]
    unfold write_card
    simp only [if_true]
    split
    · exact Or.inr ⟨hu.1, hu.2.2⟩
    · exact Or.inl ⟨_, rfl, hu.1, hu.2.2, hu.2.1⟩

theorem first_visited_le (g wbz : Bool) : first_visited g wbz ≤ 1 := by
  cases g <;> cases wbz <;> decide

/-- A pass that visits block 0 is `write_card`, under either reading. -/
theorem write_pass_of_first (g : Bool) (f : Flags) (env : Env) (wbz : Bool) (s : State)
    (h : first_visited g wbz = 0) : write_pass g f env wbz s = write_card f env wbz s := by
  cases g <;> cases wbz
  · rfl
  · rfl
  · exact absurd h (by decide)
  · simp [write_pass, write_card_guarded_true]

/-- Claim C1.  Under either way of balancing the braces of `write_card`, if
the write pass gets past the authentication step of block 0, then (a) when
the XOR of bytes 0..3 of snapshot block 0 differs from byte 4, the pass
returns false and has issued no write command; (b) when it equals byte 4, a
write command for block 0 (carrying the sixteen bytes of the snapshot
block) is issued, whatever bytes 5..15 are.  This holds for every snapshot,
every setting of the flags and every behaviour of reader and card. -/
theorem C1_block0_checksum (guarded : Bool) (f : Flags) (env : Env)
    (write_block_zero : Bool) (s0 : State)
    (hp : passes_block0 guarded f env write_block_zero s0 = true) :
    (s0.mtDump 0 0 ^^^ s0.mtDump 0 1 ^^^ s0.mtDump 0 2 ^^^ s0.mtDump 0 3 ≠ s0.mtDump 0 4 →
      (write_pass guarded f env write_block_zero s0).1 = .ret false ∧
      ∀ e ∈ new_events s0 (write_pass guarded f env write_block_zero s0).2,
        is_write e.cmd = false) ∧
    (s0.mtDump 0 0 ^^^ s0.mtDump 0 1 ^^^ s0.mtDump 0 2 ^^^ s0.mtDump 0 3 = s0.mtDump 0 4 →
      ∃ e ∈ new_events s0 (write_pass guarded f env write_block_zero s0).2,
        e.cmd = .mifare .MC_WRITE 0 (take_bytes (s0.mtDump 0) 16)) := by
  unfold passes_block0 at hp
  simp only [Bool.and_eq_true, beq_iff_eq] at hp
  rw [write_pass_of_first guarded f env write_block_zero s0 hp.1]
  exact write_card_block0_checksum f env write_block_zero s0 hp.2

set_option maxRecDepth 100000 in
/-- Runs of claim C1 on a card that accepts everything.  With `W a` (block 0
to be written), under either reading, a blank snapshot (BCC right) has
block 0 written and a snapshot whose block 0 has a wrong BCC makes the pass
return false; with `w a` and the brace of line 421 dropped the same
holds. -/
theorem C1_block0_checksum_witness :
    passes_block0 true flags_w env_accept true (state0 blank blank) = true ∧
    (∃ e ∈ new_events (state0 blank blank)
        (write_pass true flags_w env_accept true (state0 blank blank)).2,
      e.cmd = .mifare .MC_WRITE 0 (take_bytes (blank 0) 16)) ∧
    passes_block0 false flags_w env_accept true (state0 blank bad_bcc) = true ∧
    (write_pass false flags_w env_accept true (state0 blank bad_bcc)).1 = .ret false ∧
    passes_block0 true flags_w env_accept true (state0 blank bad_bcc) = true ∧
    (write_pass true flags_w env_accept true (state0 blank bad_bcc)).1 = .ret false ∧
    passes_block0 false flags_w env_accept false (state0 blank blank) = true ∧
    (∃ e ∈ new_events (state0 blank blank)
        (write_pass false flags_w env_accept false (state0 blank blank)).2,
      e.cmd = .mifare .MC_WRITE 0 (take_bytes (blank 0) 16)) :=
  ⟨by decide,
    (C1_block0_checksum true flags_w env_accept true (state0 blank blank) (by decide)).2
      (by decide),
    by decide,
    ((C1_block0_checksum false flags_w env_accept true (state0 blank bad_bcc) (by decide)).1
      (by decide)).1,
    by decide,
    ((C1_block0_checksum true flags_w env_accept true (state0 blank bad_bcc) (by decide)).1
      (by decide)).1,
    by decide,
    (C1_block0_checksum false flags_w env_accept false (state0 blank blank) (by decide)).2
      (by decide)⟩

set_option maxRecDepth 100000 in
/-- With the brace of line 421 dropped, `w a` (block 0 not to be written)
with a blank snapshot on a 320-byte card that accepts every command sends a
write command for block 0. -/
theorem block0_written_when_open :
    (⟨.mifare .MC_WRITE 0 (List.replicate 16 0), ⟨true, List.replicate 16 0⟩⟩ : Event)
      ∈ (write_pass false flags_w env_accept false (state0 blank blank)).2.trace := by
  decide

/-- With the guard of lines 419-420 in force, a pass with block 0 not to be
written issues no write command for block 0, on a card of at most 256
blocks, whatever the reader and the card do. -/
theorem block0_skipped_when_guarded (f : Flags) (env : Env) (s : State)
    (hB : f.uiBlocks < 256) :
    ∀ e ∈ new_events s (write_pass true f env false s).2, written_block e.cmd ≠ some 0 := by
  intro e he hw
  have heq : write_pass true f env false s = write_loop f env false f.uiBlocks 1 false 0 s := by
    simp [write_pass, write_card_guarded_false]
  rw [heq] at he
  obtain ⟨L, O, hL, _, W1, _⟩ := write_loop_skip f env false f.uiBlocks 1 false 0 s (by omega)
  rw [new_events_of_trace hL] at he
  have := W1 e he 0 hw
  omega

/-- Claim C6, amended.  With failure tolerance enabled, on a card of at most
256 blocks, when the command of exactly one data block `b` fails and every
other operation of the reader succeeds, the pass returns true and the count
it reports is the number of blocks it visits minus the blocks marked failed.
The read pass visits `uiBlocks + 1` blocks and marks `b` and the blocks
below it in its sector.  The write pass (the sector of `b` whole; block 0 of
the snapshot with a right BCC when block 0 is visited) visits
`uiBlocks + 1` blocks, or `uiBlocks` when the guard of lines 419-420 is in
force and block 0 is not to be written; it marks `b` and the blocks after it
in its sector, trailer included, block 0 alone when `b` is block 0, and
nothing when `b` is block 0 and block 0 is not visited. -/
theorem C6_one_failure_count (f : Flags) (env : Env) (b : Nat)
    (htol : f.bTolerateFailures = true) (hub : f.uiBlocks < 256) (hb : b ≤ f.uiBlocks)
    (hnt : is_trailer_block b = false) :
    (OneReadFails env b → ∀ (ru : Bool) (s0 : State),
      Reports (read_card f env ru s0) (f.uiBlocks + 1 - read_marked_failed b)
        (f.uiBlocks + 1)) ∧
    (OneWriteFails env b → get_trailer_block b ≤ f.uiBlocks →
      ∀ (guarded wbz : Bool) (s0 : State),
      (first_visited guarded wbz = 0 →
        s0.mtDump 0 0 ^^^ s0.mtDump 0 1 ^^^ s0.mtDump 0 2 ^^^ s0.mtDump 0 3 = s0.mtDump 0 4) →
      Reports (write_pass guarded f env wbz s0)
        (f.uiBlocks + 1 - first_visited guarded wbz -
          (if b < first_visited guarded wbz then 0 else write_marked_failed b))
        (f.uiBlocks + 1)) := by
  have hold := one_failure_count f env b htol hub hb hnt
  refine ⟨hold.1, ?_⟩
  intro henv htb guarded wbz s0 hbcc
  by_cases hfv : first_visited guarded wbz = 0
  · rw [write_pass_of_first guarded f env wbz s0 hfv, hfv]
    simpa using hold.2 henv htb wbz s0 (hbcc hfv)
  · have hg : guarded = true ∧ wbz = false := by
      cases guarded <;> cases wbz <;> simp [first_visited] at hfv ⊢
    obtain ⟨hg1, hg2⟩ := hg
    subst hg1; subst hg2
    have hfv1 : first_visited true false = 1 := by decide
    have heq : write_pass true f env false s0
        = write_loop f env false f.uiBlocks 1 false 0 s0 := by
      simp [write_pass, write_card_guarded_false]
    rw [heq, hfv1]
    by_cases hb0 : b = 0
    · subst hb0
      have := write_loop_after f env false 0 htol henv hub f.uiBlocks 1 false 0 s0 (by omega)
        (by omega) (by simp)
      simpa using this
    · have := write_loop_before f env false b (by omega) hnt htol henv hub htb f.uiBlocks 1
        false 0 s0 (by omega) (by omega) (by simp) (by intro h; omega)
      have hlt : ¬ b < 1 := by omega
      simpa [hlt] using this

set_option maxRecDepth 100000 in
/-- Runs of claim C6: the read of block 2 refused gives 17 of 20; the write
of block 5 refused (blocks 5, 6 and 7 marked) gives 17 of 20 when block 0 is
visited and 16 of 20 when the guard of lines 419-420 skips it. -/
theorem C6_one_failure_count_witness :
    Reports (read_card flags_r_tolerant env_read2_fails false (state0 blank blank)) 17 20 ∧
    Reports (write_pass false flags_w_tolerant env_write5_fails false (state0 blank blank))
      17 20 ∧
    Reports (write_pass true flags_w_tolerant env_write5_fails false (state0 blank blank))
      16 20 ∧
    Reports (write_pass true flags_w_tolerant env_write5_fails true (state0 blank blank))
      17 20 :=
  ⟨(C6_one_failure_count flags_r_tolerant env_read2_fails 2 rfl (by decide) (by decide)
      (by decide)).1
      ⟨fun _ => rfl, fun _ c hc => by simp [env_read2_fails, env_reject, hc], fun _ _ _ => rfl⟩
      false (state0 blank blank),
   (C6_one_failure_count flags_w_tolerant env_write5_fails 5 rfl (by decide) (by decide)
      (by decide)).2
      ⟨fun _ _ => rfl, fun _ c hc => by
        cases c with
        | mifare mc blk p =>
          cases mc <;> simp [env_write5_fails, env_reject]
        | _ => rfl⟩
      (by decide) false false (state0 blank blank) (by decide),
   (C6_one_failure_count flags_w_tolerant env_write5_fails 5 rfl (by decide) (by decide)
      (by decide)).2
      ⟨fun _ _ => rfl, fun _ c hc => by
        cases c with
        | mifare mc blk p =>
          cases mc <;> simp [env_write5_fails, env_reject]
        | _ => rfl⟩
      (by decide) true false (state0 blank blank) (by decide),
   (C6_one_failure_count flags_w_tolerant env_write5_fails 5 rfl (by decide) (by decide)
      (by decide)).2
      ⟨fun _ _ => rfl, fun _ c hc => by
        cases c with
        | mifare mc blk p =>
          cases mc <;> simp [env_write5_fails, env_reject]
        | _ => rfl⟩
      (by decide) true true (state0 blank blank) (by decide)⟩

set_option maxRecDepth 100000 in
/-- Claim C13 as stated fails in sector 0, under either way of balancing the
braces of `write_card`: with `W A` (block 0 to be written, failures
tolerated), on a card that refuses the write of block 0, the pass goes on
to write blocks 1 and 2 of the same sector and marks them as written; 19 of
20 blocks are counted. -/
theorem C13_counterexample :
    (∀ g : Bool,
      (new_events (state0 blank blank)
        (write_pass g flags_w_tolerant env_write0_fails true (state0 blank blank)).2).filterMap
          (fun e => (written_block e.cmd).map (fun b => (b, e.resp.ok))) =
        (0, false) :: (List.range 19).map (fun i => (i + 1, true)) ∧
      new_out (state0 blank blank)
        (write_pass g flags_w_tolerant env_write0_fails true (state0 blank blank)).2 =
        .mark true :: List.replicate 19 (.mark false) ++ [.done 19 20]) ∧
    is_trailer_block 1 = false ∧ is_trailer_block 2 = false ∧
    get_trailer_block 1 = get_trailer_block 0 ∧ get_trailer_block 2 = get_trailer_block 0 := by
  decide

/-- Claim C13, amended.  In a write pass on a card of at most 256 blocks,
under either way of balancing the braces of `write_card`, once the write
command of a block `b` other than block 0 has failed, every data block `v`
on the card that follows `b` in its sector (`b < v`, `v` below the trailer
of the sector of `b`) is skipped: no write command is issued for `v` in the
whole pass, and the mark printed for `v` is the mark of a failure.  The
mark of `v` is the entry of the output of the pass at position `v` less the
first block visited: any entry at that position is the mark of a failure,
and it is there when the pass returns true.  The count of the final report
is the number of marks of success, so a skipped block does not raise it. -/
theorem C13_failed_sector_skipped (guarded : Bool) (f : Flags) (env : Env) (wbz : Bool)
    (s : State) (hB : f.uiBlocks < 256) (e : Event) (b : Nat)
    (he : e ∈ new_events s (write_pass guarded f env wbz s).2)
    (hw : written_block e.cmd = some b) (hf : e.resp.ok = false) (hb : b ≠ 0)
    (v : Nat) (h1 : b < v) (h2 : v < get_trailer_block b) (hv : v ≤ f.uiBlocks) :
    (∀ e2 ∈ new_events s (write_pass guarded f env wbz s).2, written_block e2.cmd ≠ some v) ∧
    (∀ o, (new_out s (write_pass guarded f env wbz s).2)[v - first_visited guarded wbz]?
      = some o → o = .mark true) ∧
    ((write_pass guarded f env wbz s).1 = .ret true →
      (new_out s (write_pass guarded f env wbz s).2)[v - first_visited guarded wbz]?
        = some (.mark true)) ∧
    (∀ k m, Out.done k m ∈ new_out s (write_pass guarded f env wbz s).2 →
      k = (new_out s (write_pass guarded f env wbz s).2).count (.mark false)) := by
  have hk := first_visited_le guarded wbz
  rcases write_pass_loop guarded f env wbz s with ⟨s1, heq, hg, ho, _⟩ | ⟨hg, _⟩
  · obtain ⟨L, O, hL, hO, _, _, W3, W4⟩ :=
      write_loop_skip f env wbz (f.uiBlocks + 1 - first_visited guarded wbz)
        (first_visited guarded wbz) false 0 s1 (by omega)
    obtain ⟨Lu, hLu, hPu⟩ := hg
    rw [← heq] at hL hO
    have hev : new_events s (write_pass guarded f env wbz s).2 = Lu ++ L :=
      new_events_of_trace (by rw [hL, hLu, List.append_assoc])
    have hout : new_out s (write_pass guarded f env wbz s).2 = O := by
      simp [new_out, hO, ho]
    have hmem : ∀ x ∈ Lu ++ L, ∀ i, written_block x.cmd = some i → x ∈ L := by
      intro x hx i hi
      rcases List.mem_append.1 hx with h | h
      · rw [written_block_not_mifare x (hPu x h)] at hi
        exact absurd hi (by simp)
      · exact h
    rw [hev] at he ⊢
    rw [hout]
    have hsk := W3 e (hmem e he b hw) b hw hf hb v h1 h2 (by omega)
    refine ⟨?_, hsk.2, ?_, ?_⟩
    · intro e2 he2 hw2
      exact hsk.1 e2 (hmem e2 he2 v hw2) hw2
    · intro hret
      rw [heq] at hret hO
      obtain ⟨O2, hO2, hlen⟩ :=
        write_loop_length f env wbz (f.uiBlocks + 1 - first_visited guarded wbz)
          (first_visited guarded wbz) false 0 s1 (by omega) hret
      have hsame : O2 = O := List.append_cancel_left (hO2.symm.trans hO)
      subst hsame
      have hlt : v - first_visited guarded wbz < O2.length := by omega
      rw [List.getElem?_eq_getElem hlt]
      exact congrArg some (hsk.2 _ (List.getElem?_eq_getElem hlt))
    · intro k m h
      simpa using W4 k m h
  · have := mem_new_events_of_grows hg he
    rw [written_block_not_mifare e this] at hw
    exact absurd hw (by simp)

set_option maxRecDepth 100000 in
/-- Claim C13 on a card that refuses the write of block 5, `w A` (failures
tolerated), under both readings: the pass returns true, no write command is
issued for block 6, and block 6 is marked as a failure (entry 6 of the
output when block 0 is visited, entry 5 when the guard skips it). -/
theorem C13_failed_sector_skipped_witness :
    (∀ g : Bool,
      (⟨.mifare .MC_WRITE 5 (List.replicate 16 0), ⟨false, List.replicate 16 0⟩⟩ : Event) ∈
        new_events (state0 blank blank)
          (write_pass g flags_w_tolerant env_write5_fails false (state0 blank blank)).2 ∧
      (write_pass g flags_w_tolerant env_write5_fails false (state0 blank blank)).1
        = .ret true) ∧
    (∀ e2 ∈ new_events (state0 blank blank)
        (write_pass false flags_w_tolerant env_write5_fails false (state0 blank blank)).2,
        written_block e2.cmd ≠ some 6) ∧
    (new_out (state0 blank blank)
        (write_pass false flags_w_tolerant env_write5_fails false (state0 blank blank)).2)[6]?
      = some (.mark true) ∧
    (∀ e2 ∈ new_events (state0 blank blank)
        (write_pass true flags_w_tolerant env_write5_fails false (state0 blank blank)).2,
        written_block e2.cmd ≠ some 6) ∧
    (new_out (state0 blank blank)
        (write_pass true flags_w_tolerant env_write5_fails false (state0 blank blank)).2)[5]?
      = some (.mark true) :=
  ⟨by decide,
   (C13_failed_sector_skipped false flags_w_tolerant env_write5_fails false
      (state0 blank blank) (by decide)
      ⟨.mifare .MC_WRITE 5 (List.replicate 16 0), ⟨false, List.replicate 16 0⟩⟩ 5 (by decide)
      rfl rfl (by decide) 6 (by decide) (by decide) (by decide)).1,
   (C13_failed_sector_skipped false flags_w_tolerant env_write5_fails false
      (state0 blank blank) (by decide)
      ⟨.mifare .MC_WRITE 5 (List.replicate 16 0), ⟨false, List.replicate 16 0⟩⟩ 5 (by decide)
      rfl rfl (by decide) 6 (by decide) (by decide) (by decide)).2.2.1 (by decide),
   (C13_failed_sector_skipped true flags_w_tolerant env_write5_fails false
      (state0 blank blank) (by decide)
      ⟨.mifare .MC_WRITE 5 (List.replicate 16 0), ⟨false, List.replicate 16 0⟩⟩ 5 (by decide)
      rfl rfl (by decide) 6 (by decide) (by decide) (by decide)).1,
   (C13_failed_sector_skipped true flags_w_tolerant env_write5_fails false
      (state0 blank blank) (by decide)
      ⟨.mifare .MC_WRITE 5 (List.replicate 16 0), ⟨false, List.replicate 16 0⟩⟩ 5 (by decide)
      rfl rfl (by decide) 6 (by decide) (by decide) (by decide)).2.2.1 (by decide)⟩

end MfClassic
